import Mathlib

/-!
dmask286, a linear-sweep disassembler for 16-bit x86 code.

Shallow embedding of `src/dmask.cpp`.

* `uint8_t` values are `Byte = Fin 256`; a `const uint8_t *` is the list of
  bytes that are readable from the pointer on, so `p + k` is `p.drop k` and
  `p[i]` is the checked read `p[i]?` (`none` is a read outside the buffer).
* `size_t` values are natural numbers.  The cursor `decodeOffset` of `dec` and
  the base `execOffset` are `uint32_t`: every place where the source computes
  in, or converts to, 32 bits carries an explicit `% 2 ^ 32`.  Statements about
  the cursor therefore ask for a buffer length the cursor can hold (`getBuffer`
  fills the buffer with a single `read` call and rejects a short read).
* `Line` keeps the first `len` characters of the 256 byte array `text`.
-/

namespace Dmask

/-- A value of type `uint8_t`. -/
abbrev Byte := Fin 256

def rb : List String := ["AL", "CL", "DL", "BL", "AH", "CH", "DH", "BH"]
def rw : List String := ["AX", "CX", "DX", "BX", "SP", "BP", "SI", "DI"]
def segments : List String := ["ES", "CS", "SS", "DS"]

/-- The enumerators of `enum class Reg`, as their `uint8_t` values. -/
def Reg.AL : Nat := 0

namespace Reg
def AX : Nat := 0
def CL : Nat := 1
def CX : Nat := 1
def DL : Nat := 2
def DX : Nat := 2
def BL : Nat := 3
def BX : Nat := 3
def AH : Nat := 4
def SP : Nat := 4
def CH : Nat := 5
def BP : Nat := 5
def DH : Nat := 6
def SI : Nat := 6
def BH : Nat := 7
def DI : Nat := 7
end Reg

inductive Width where
  | NONE | BYTE | WORD | DWORD | QWORD
  deriving DecidableEq, Repr

/-- The underlying `uint8_t` of a `Width`, used by `(size_t)getDispMemWidth(..)`. -/
def Width.toNat : Width → Nat
  | .NONE => 0
  | .BYTE => 1
  | .WORD => 2
  | .DWORD => 4
  | .QWORD => 8

/-- The enumerators of `enum class Segment`, as their `uint8_t` values. -/
def Segment.ES : Nat := 0

namespace Segment
def CS : Nat := 1
def SS : Nat := 2
def DS : Nat := 3
def END : Nat := 4
end Segment

inductive R_Type where
  | NODISP | DISP8 | DISP16 | REG
  deriving DecidableEq, Repr

/-- The cast `(R_Type)(b >> 6)` of a two-bit value. -/
def R_Type.cast : Nat → R_Type
  | 0 => .NODISP
  | 1 => .DISP8
  | 2 => .DISP16
  | _ => .REG

def modNames : List String :=
  ["BX + SI", "BX + DI", "BP + SI", "BP + DI", "SI", "DI", "BP", "BX"]

def getDispMemWidth (rm : Nat) (disp : R_Type) : Width :=
  if disp = R_Type.NODISP then
    if rm = 0b110 then Width.WORD else Width.NONE
  else if disp = R_Type.DISP8 then Width.BYTE
  else if disp = R_Type.DISP16 then Width.WORD
  else Width.NONE

def getWidthName : Width → String
  | .BYTE => "BYTE"
  | .WORD => "WORD"
  | .DWORD => "DWORD"
  | .QWORD => "QWORD"
  | .NONE => "MEM"

/-- The source's `enum class Type`. -/
inductive DType where
  | NONE | SEG | RB | RW | RMB | RMW | RMDW | RMQW | MEM | RNONE | DB | DW
  | DEREFBYTEATDW | DEREFWORDATDW | DDW | REGB | REGW | CSEG | AREGB | AREGW
  | CONSTBYTE | ST | STREG
  deriving DecidableEq, Repr

structure D where
  type : DType
  num : Nat
  deriving DecidableEq, Repr

/-- The source's `struct Description { D d[3]{}; }`. -/
structure Description where
  d : List D
  deriving DecidableEq, Repr

inductive OPExt where
  | NONE | N | FPU_XY | FPU_11
  deriving DecidableEq, Repr

structure Op where
  name : String
  description : Description
  opExt : OPExt
  codeSz : Nat
  n : Nat
  code : List Byte
  deriving DecidableEq, Repr

/-- The constructor `Op(const uint8_t (&code2)[2], name, description)`. -/
def Op.mk2 (c0 c1 : Byte) (name : String) (description : Description) : Op :=
  ⟨name, description, OPExt.NONE, 2, 0, [c0, c1]⟩

/-- The constructor `Op(const uint8_t (&code2)[2], name, description, opExt, n)`. -/
def Op.mk2x (c0 c1 : Byte) (name : String) (description : Description)
    (opExt : OPExt) (n : Nat) : Op :=
  ⟨name, description, opExt, 2, n, [c0, c1]⟩

/-- The constructor `Op(const uint8_t code2, name, description)`; `code[1]` of
the statically allocated entry stays zero. -/
def Op.mk1 (c0 : Byte) (name : String) (description : Description) : Op :=
  ⟨name, description, OPExt.NONE, 1, 0, [c0, 0]⟩

/-- The constructor `Op(const uint8_t code2, name, description, opExt, n)`. -/
def Op.mk1x (c0 : Byte) (name : String) (description : Description)
    (opExt : OPExt) (n : Nat) : Op :=
  ⟨name, description, opExt, 1, n, [c0, 0]⟩

def Description.none : Description := ⟨[⟨DType.NONE, 0⟩, ⟨DType.NONE, 0⟩, ⟨DType.NONE, 0⟩]⟩
def R_RMB_RB : Description := ⟨[⟨DType.RMB, 0⟩, ⟨DType.RB, 0⟩, ⟨DType.NONE, 0⟩]⟩
def R_RMW_RW : Description := ⟨[⟨DType.RMW, 0⟩, ⟨DType.RW, 0⟩, ⟨DType.NONE, 0⟩]⟩
def R_RB_RMB : Description := ⟨[⟨DType.RB, 0⟩, ⟨DType.RMB, 0⟩, ⟨DType.NONE, 0⟩]⟩
def R_RW_RMW : Description := ⟨[⟨DType.RW, 0⟩, ⟨DType.RMW, 0⟩, ⟨DType.NONE, 0⟩]⟩
def R_RW_RMDW : Description := ⟨[⟨DType.RW, 0⟩, ⟨DType.RMDW, 0⟩, ⟨DType.NONE, 0⟩]⟩
def R_RMB_DB : Description := ⟨[⟨DType.RMB, 0⟩, ⟨DType.DB, 0⟩, ⟨DType.NONE, 0⟩]⟩
def R_RMW_DW : Description := ⟨[⟨DType.RMW, 0⟩, ⟨DType.DW, 0⟩, ⟨DType.NONE, 0⟩]⟩
def R_RMW_DB : Description := ⟨[⟨DType.RMW, 0⟩, ⟨DType.DB, 0⟩, ⟨DType.NONE, 0⟩]⟩
def R_RMW_SEG : Description := ⟨[⟨DType.RMW, 0⟩, ⟨DType.SEG, 0⟩, ⟨DType.NONE, 0⟩]⟩
def R_SEG_RMW : Description := ⟨[⟨DType.SEG, 0⟩, ⟨DType.RMW, 0⟩, ⟨DType.NONE, 0⟩]⟩
def R_RMB : Description := ⟨[⟨DType.RMB, 0⟩, ⟨DType.NONE, 0⟩, ⟨DType.NONE, 0⟩]⟩
def R_RMW : Description := ⟨[⟨DType.RMW, 0⟩, ⟨DType.NONE, 0⟩, ⟨DType.NONE, 0⟩]⟩
def R_RMDW : Description := ⟨[⟨DType.RMDW, 0⟩, ⟨DType.NONE, 0⟩, ⟨DType.NONE, 0⟩]⟩
def R_RMQW : Description := ⟨[⟨DType.RMQW, 0⟩, ⟨DType.NONE, 0⟩, ⟨DType.NONE, 0⟩]⟩
def R_RMB_C1 : Description := ⟨[⟨DType.RMB, 0⟩, ⟨DType.CONSTBYTE, 1⟩, ⟨DType.NONE, 0⟩]⟩
def R_RMB_CL : Description := ⟨[⟨DType.RMB, 0⟩, ⟨DType.REGB, Reg.CL⟩, ⟨DType.NONE, 0⟩]⟩
def R_RMW_C1 : Description := ⟨[⟨DType.RMW, 0⟩, ⟨DType.CONSTBYTE, 1⟩, ⟨DType.NONE, 0⟩]⟩
def R_RMW_CL : Description := ⟨[⟨DType.RMW, 0⟩, ⟨DType.REGB, Reg.CL⟩, ⟨DType.NONE, 0⟩]⟩
def R_MEM : Description := ⟨[⟨DType.MEM, 0⟩, ⟨DType.NONE, 0⟩, ⟨DType.NONE, 0⟩]⟩
def R_RW_MEM : Description := ⟨[⟨DType.RW, 0⟩, ⟨DType.MEM, 0⟩, ⟨DType.NONE, 0⟩]⟩
def R_RW_RMW_DB : Description := ⟨[⟨DType.RW, 0⟩, ⟨DType.RMW, 0⟩, ⟨DType.DB, 0⟩]⟩
def R_RW_RMW_DW : Description := ⟨[⟨DType.RW, 0⟩, ⟨DType.RMW, 0⟩, ⟨DType.DW, 0⟩]⟩
def I_DB : Description := ⟨[⟨DType.DB, 0⟩, ⟨DType.NONE, 0⟩, ⟨DType.NONE, 0⟩]⟩
def I_DW : Description := ⟨[⟨DType.DW, 0⟩, ⟨DType.NONE, 0⟩, ⟨DType.NONE, 0⟩]⟩
def I_DDW : Description := ⟨[⟨DType.DDW, 0⟩, ⟨DType.NONE, 0⟩, ⟨DType.NONE, 0⟩]⟩
def I_DW_DB : Description := ⟨[⟨DType.DW, 0⟩, ⟨DType.DB, 0⟩, ⟨DType.NONE, 0⟩]⟩
def I_AL_DEREFBYTEATDW : Description := ⟨[⟨DType.REGB, Reg.AL⟩, ⟨DType.DEREFBYTEATDW, 0⟩, ⟨DType.NONE, 0⟩]⟩
def I_AX_DEREFWORDATDW : Description := ⟨[⟨DType.REGW, Reg.AX⟩, ⟨DType.DEREFWORDATDW, 0⟩, ⟨DType.NONE, 0⟩]⟩
def I_DEREFBYTEATDW_AL : Description := ⟨[⟨DType.DEREFBYTEATDW, 0⟩, ⟨DType.REGB, Reg.AL⟩, ⟨DType.NONE, 0⟩]⟩
def I_DEREFBYTEATDW_AX : Description := ⟨[⟨DType.DEREFWORDATDW, 0⟩, ⟨DType.REGW, Reg.AX⟩, ⟨DType.NONE, 0⟩]⟩
def REG_AX_DB : Description := ⟨[⟨DType.REGW, Reg.AX⟩, ⟨DType.DB, 0⟩, ⟨DType.NONE, 0⟩]⟩
def REG_DB_AL : Description := ⟨[⟨DType.DB, 0⟩, ⟨DType.REGW, Reg.AX⟩, ⟨DType.NONE, 0⟩]⟩
def REG_DB_AX : Description := ⟨[⟨DType.DB, 0⟩, ⟨DType.REGW, Reg.AX⟩, ⟨DType.NONE, 0⟩]⟩
def REG_DX_AL : Description := ⟨[⟨DType.REGW, Reg.DX⟩, ⟨DType.REGB, Reg.AL⟩, ⟨DType.NONE, 0⟩]⟩
def REG_DX_AX : Description := ⟨[⟨DType.REGW, Reg.DX⟩, ⟨DType.REGW, Reg.AX⟩, ⟨DType.NONE, 0⟩]⟩
def REG_AL_DB : Description := ⟨[⟨DType.REGB, Reg.AL⟩, ⟨DType.DB, 0⟩, ⟨DType.NONE, 0⟩]⟩
def REG_CL_DB : Description := ⟨[⟨DType.REGB, Reg.CL⟩, ⟨DType.DB, 0⟩, ⟨DType.NONE, 0⟩]⟩
def REG_DL_DB : Description := ⟨[⟨DType.REGB, Reg.DL⟩, ⟨DType.DB, 0⟩, ⟨DType.NONE, 0⟩]⟩
def REG_BL_DB : Description := ⟨[⟨DType.REGB, Reg.BL⟩, ⟨DType.DB, 0⟩, ⟨DType.NONE, 0⟩]⟩
def REG_AH_DB : Description := ⟨[⟨DType.REGB, Reg.AH⟩, ⟨DType.DB, 0⟩, ⟨DType.NONE, 0⟩]⟩
def REG_CH_DB : Description := ⟨[⟨DType.REGB, Reg.CH⟩, ⟨DType.DB, 0⟩, ⟨DType.NONE, 0⟩]⟩
def REG_DH_DB : Description := ⟨[⟨DType.REGB, Reg.DH⟩, ⟨DType.DB, 0⟩, ⟨DType.NONE, 0⟩]⟩
def REG_BH_DB : Description := ⟨[⟨DType.REGB, Reg.BH⟩, ⟨DType.DB, 0⟩, ⟨DType.NONE, 0⟩]⟩
def REG_AX_DW : Description := ⟨[⟨DType.REGW, Reg.AX⟩, ⟨DType.DW, 0⟩, ⟨DType.NONE, 0⟩]⟩
def REG_CX_DW : Description := ⟨[⟨DType.REGW, Reg.CX⟩, ⟨DType.DW, 0⟩, ⟨DType.NONE, 0⟩]⟩
def REG_DX_DW : Description := ⟨[⟨DType.REGW, Reg.DX⟩, ⟨DType.DW, 0⟩, ⟨DType.NONE, 0⟩]⟩
def REG_BX_DW : Description := ⟨[⟨DType.REGW, Reg.BX⟩, ⟨DType.DW, 0⟩, ⟨DType.NONE, 0⟩]⟩
def REG_SP_DW : Description := ⟨[⟨DType.REGW, Reg.SP⟩, ⟨DType.DW, 0⟩, ⟨DType.NONE, 0⟩]⟩
def REG_BP_DW : Description := ⟨[⟨DType.REGW, Reg.BP⟩, ⟨DType.DW, 0⟩, ⟨DType.NONE, 0⟩]⟩
def REG_SI_DW : Description := ⟨[⟨DType.REGW, Reg.SI⟩, ⟨DType.DW, 0⟩, ⟨DType.NONE, 0⟩]⟩
def REG_DI_DW : Description := ⟨[⟨DType.REGW, Reg.DI⟩, ⟨DType.DW, 0⟩, ⟨DType.NONE, 0⟩]⟩
def REG_AX : Description := ⟨[⟨DType.REGW, Reg.AX⟩, ⟨DType.NONE, 0⟩, ⟨DType.NONE, 0⟩]⟩
def REG_CX : Description := ⟨[⟨DType.REGW, Reg.CX⟩, ⟨DType.NONE, 0⟩, ⟨DType.NONE, 0⟩]⟩
def REG_DX : Description := ⟨[⟨DType.REGW, Reg.DX⟩, ⟨DType.NONE, 0⟩, ⟨DType.NONE, 0⟩]⟩
def REG_BX : Description := ⟨[⟨DType.REGW, Reg.BX⟩, ⟨DType.NONE, 0⟩, ⟨DType.NONE, 0⟩]⟩
def REG_SP : Description := ⟨[⟨DType.REGW, Reg.SP⟩, ⟨DType.NONE, 0⟩, ⟨DType.NONE, 0⟩]⟩
def REG_BP : Description := ⟨[⟨DType.REGW, Reg.BP⟩, ⟨DType.NONE, 0⟩, ⟨DType.NONE, 0⟩]⟩
def REG_SI : Description := ⟨[⟨DType.REGW, Reg.SI⟩, ⟨DType.NONE, 0⟩, ⟨DType.NONE, 0⟩]⟩
def REG_DI : Description := ⟨[⟨DType.REGW, Reg.DI⟩, ⟨DType.NONE, 0⟩, ⟨DType.NONE, 0⟩]⟩
def REG_AX_AX : Description := ⟨[⟨DType.REGW, Reg.AX⟩, ⟨DType.REGW, Reg.AX⟩, ⟨DType.NONE, 0⟩]⟩
def REG_AX_CX : Description := ⟨[⟨DType.REGW, Reg.AX⟩, ⟨DType.REGW, Reg.CX⟩, ⟨DType.NONE, 0⟩]⟩
def REG_AX_DX : Description := ⟨[⟨DType.REGW, Reg.AX⟩, ⟨DType.REGW, Reg.DX⟩, ⟨DType.NONE, 0⟩]⟩
def REG_AX_BX : Description := ⟨[⟨DType.REGW, Reg.AX⟩, ⟨DType.REGW, Reg.BX⟩, ⟨DType.NONE, 0⟩]⟩
def REG_AX_SP : Description := ⟨[⟨DType.REGW, Reg.AX⟩, ⟨DType.REGW, Reg.SP⟩, ⟨DType.NONE, 0⟩]⟩
def REG_AX_BP : Description := ⟨[⟨DType.REGW, Reg.AX⟩, ⟨DType.REGW, Reg.BP⟩, ⟨DType.NONE, 0⟩]⟩
def REG_AX_SI : Description := ⟨[⟨DType.REGW, Reg.AX⟩, ⟨DType.REGW, Reg.SI⟩, ⟨DType.NONE, 0⟩]⟩
def REG_AX_DI : Description := ⟨[⟨DType.REGW, Reg.AX⟩, ⟨DType.REGW, Reg.DI⟩, ⟨DType.NONE, 0⟩]⟩
def REG_DS : Description := ⟨[⟨DType.CSEG, Segment.DS⟩, ⟨DType.NONE, 0⟩, ⟨DType.NONE, 0⟩]⟩
def REG_CS : Description := ⟨[⟨DType.CSEG, Segment.CS⟩, ⟨DType.NONE, 0⟩, ⟨DType.NONE, 0⟩]⟩
def REG_ES : Description := ⟨[⟨DType.CSEG, Segment.ES⟩, ⟨DType.NONE, 0⟩, ⟨DType.NONE, 0⟩]⟩
def REG_SS : Description := ⟨[⟨DType.CSEG, Segment.SS⟩, ⟨DType.NONE, 0⟩, ⟨DType.NONE, 0⟩]⟩
def REG_AL_DX : Description := ⟨[⟨DType.REGB, Reg.AL⟩, ⟨DType.REGW, Reg.DX⟩, ⟨DType.NONE, 0⟩]⟩
def F_ST_STREG : Description := ⟨[⟨DType.ST, 0⟩, ⟨DType.STREG, 0⟩, ⟨DType.NONE, 0⟩]⟩
def F_STREG_ST : Description := ⟨[⟨DType.STREG, 0⟩, ⟨DType.ST, 0⟩, ⟨DType.NONE, 0⟩]⟩
def F_STREG : Description := ⟨[⟨DType.STREG, 0⟩, ⟨DType.NONE, 0⟩, ⟨DType.NONE, 0⟩]⟩

def ops : List Op := [
  Op.mk1 0x37 "AAA" Description.none,
  Op.mk2 0xD5 0x0A "AAD" Description.none,
  Op.mk2 0xD4 0x0A "AAM" Description.none,
  Op.mk1 0x3F "AAS" Description.none,
  Op.mk1 0x10 "ADC" R_RMB_RB,
  Op.mk1 0x11 "ADC" R_RMW_RW,
  Op.mk1 0x12 "ADC" R_RB_RMB,
  Op.mk1 0x13 "ADC" R_RW_RMW,
  Op.mk1 0x14 "ADC" REG_AL_DB,
  Op.mk1 0x15 "ADC" REG_AX_DW,
  Op.mk1x 0x80 "ADC" R_RMB_DB OPExt.N 2,
  Op.mk1x 0x81 "ADC" R_RMW_DW OPExt.N 2,
  Op.mk1x 0x83 "ADC" R_RMW_DB OPExt.N 2,
  Op.mk1 0x00 "ADD" R_RMB_RB,
  Op.mk1 0x01 "ADD" R_RMW_RW,
  Op.mk1 0x02 "ADD" R_RB_RMB,
  Op.mk1 0x03 "ADD" R_RW_RMW,
  Op.mk1 0x04 "ADD" REG_AL_DB,
  Op.mk1 0x05 "ADD" REG_AX_DW,
  Op.mk1x 0x80 "ADD" R_RMB_DB OPExt.N 0,
  Op.mk1x 0x81 "ADD" R_RMW_DW OPExt.N 0,
  Op.mk1x 0x83 "ADD" R_RMW_DB OPExt.N 0,
  Op.mk1 0x20 "AND" R_RMB_RB,
  Op.mk1 0x21 "AND" R_RMW_RW,
  Op.mk1 0x22 "AND" R_RB_RMB,
  Op.mk1 0x23 "AND" R_RW_RMW,
  Op.mk1 0x24 "AND" REG_AL_DB,
  Op.mk1 0x25 "AND" REG_AX_DW,
  Op.mk1x 0x80 "AND" R_RMB_DB OPExt.N 4,
  Op.mk1x 0x81 "AND" R_RMW_DW OPExt.N 4,
  Op.mk1 0x63 "ARPL" R_RMW_RW,
  Op.mk1 0x62 "BOUND" R_RW_RMW,
  Op.mk1 0xE8 "CALL" I_DW,
  Op.mk1x 0xFF "CALL" R_RMW OPExt.N 2,
  Op.mk1 0x9A "CALL" I_DDW,
  Op.mk1x 0xFF "CALL" R_RMDW OPExt.N 3,
  Op.mk1 0x98 "CBW" Description.none,
  Op.mk1 0xF8 "CLC" Description.none,
  Op.mk1 0xFC "CLD" Description.none,
  Op.mk1 0xFA "CLI" Description.none,
  Op.mk2 0x0F 0x06 "CLTS" Description.none,
  Op.mk1 0xF5 "CMC" Description.none,
  Op.mk1 0x3C "CMP" REG_AL_DB,
  Op.mk1 0x3D "CMP" REG_AX_DW,
  Op.mk1x 0x80 "CMP" R_RMB_DB OPExt.N 7,
  Op.mk1 0x38 "CMP" R_RMW_RW,
  Op.mk1x 0x83 "CMP" R_RMW_DB OPExt.N 7,
  Op.mk1x 0x81 "CMP" R_RMW_DW OPExt.N 7,
  Op.mk1 0x39 "CMP" R_RMW_RW,
  Op.mk1 0x3A "CMP" R_RB_RMB,
  Op.mk1 0x3B "CMP" R_RW_RMW,
  Op.mk1 0xA6 "CMPSB" Description.none,
  Op.mk1 0xA7 "CMPSW" Description.none,
  Op.mk1 0x99 "CWD" Description.none,
  Op.mk1 0x27 "DAA" Description.none,
  Op.mk1 0x2F "DAS" Description.none,
  Op.mk1x 0xFE "DEC" R_RMB OPExt.N 1,
  Op.mk1x 0xFF "DEC" R_RMW OPExt.N 1,
  Op.mk1 0x48 "DEC" REG_AX,
  Op.mk1 0x49 "DEC" REG_CX,
  Op.mk1 0x4A "DEC" REG_DX,
  Op.mk1 0x4B "DEC" REG_BX,
  Op.mk1 0x4C "DEC" REG_SP,
  Op.mk1 0x4D "DEC" REG_BP,
  Op.mk1 0x4E "DEC" REG_SI,
  Op.mk1 0x4F "DEC" REG_DI,
  Op.mk1x 0xF6 "DIV" R_RMB OPExt.N 6,
  Op.mk1x 0xF7 "DIV" R_RMW OPExt.N 6,
  Op.mk1 0xC8 "ENTER" I_DW_DB,
  Op.mk1 0xF4 "HLT" Description.none,
  Op.mk1x 0xF6 "IDIV" R_RMB OPExt.N 7,
  Op.mk1x 0xF7 "IDIV" R_RMW OPExt.N 7,
  Op.mk1x 0xF6 "IMUL" R_RMB OPExt.N 5,
  Op.mk1x 0xF7 "IMUL" R_RMW OPExt.N 5,
  Op.mk1 0x6B "IMUL" R_RW_RMW_DB,
  Op.mk1 0x69 "IMUL" R_RW_RMW_DW,
  Op.mk1 0xE4 "IN" REG_AL_DB,
  Op.mk1 0xEC "IN" REG_AL_DX,
  Op.mk1 0xE5 "IN" REG_AX_DB,
  Op.mk1 0xED "IN" REG_AX_DX,
  Op.mk1x 0xFE "INC" R_RMB OPExt.N 0,
  Op.mk1x 0xFF "INC" R_RMW OPExt.N 0,
  Op.mk1 0x40 "INC" REG_AX,
  Op.mk1 0x41 "INC" REG_CX,
  Op.mk1 0x42 "INC" REG_DX,
  Op.mk1 0x43 "INC" REG_BX,
  Op.mk1 0x44 "INC" REG_SP,
  Op.mk1 0x45 "INC" REG_BP,
  Op.mk1 0x46 "INC" REG_SI,
  Op.mk1 0x47 "INC" REG_DI,
  Op.mk1 0x6C "INSB" Description.none,
  Op.mk1 0x6D "INSW" Description.none,
  Op.mk1 0xCC "INT3" Description.none,
  Op.mk1 0xCD "INT" I_DB,
  Op.mk1 0xCE "INTO" Description.none,
  Op.mk1 0xCF "IRET" Description.none,
  Op.mk1 0x77 "JA" I_DB,
  Op.mk1 0x73 "JAE" I_DB,
  Op.mk1 0x72 "JB" I_DB,
  Op.mk1 0x76 "JBE" I_DB,
  Op.mk1 0x72 "JC" I_DB,
  Op.mk1 0xE3 "JCXZ" I_DB,
  Op.mk1 0x74 "JE" I_DB,
  Op.mk1 0x7F "JG" I_DB,
  Op.mk1 0x7D "JGE" I_DB,
  Op.mk1 0x7C "JL" I_DB,
  Op.mk1 0x7E "JLE" I_DB,
  Op.mk1 0x76 "JNA" I_DB,
  Op.mk1 0x72 "JNAE" I_DB,
  Op.mk1 0x73 "JNB" I_DB,
  Op.mk1 0x77 "JNBE" I_DB,
  Op.mk1 0x73 "JNC" I_DB,
  Op.mk1 0x75 "JNE" I_DB,
  Op.mk1 0x7E "JNG" I_DB,
  Op.mk1 0x7C "JNGE" I_DB,
  Op.mk1 0x7D "JNL" I_DB,
  Op.mk1 0x7F "JNLE" I_DB,
  Op.mk1 0x71 "JNO" I_DB,
  Op.mk1 0x7B "JNP" I_DB,
  Op.mk1 0x79 "JNS" I_DB,
  Op.mk1 0x75 "JNZ" I_DB,
  Op.mk1 0x70 "JO" I_DB,
  Op.mk1 0x7A "JP" I_DB,
  Op.mk1 0x7A "JPE" I_DB,
  Op.mk1 0x7B "JPO" I_DB,
  Op.mk1 0x78 "JS" I_DB,
  Op.mk1 0x74 "JZ" I_DB,
  Op.mk1 0xEB "JMP" I_DB,
  Op.mk1 0xEA "JMP" I_DDW,
  Op.mk1 0xE9 "JMP" I_DW,
  Op.mk1x 0xFF "JMP" R_RMW OPExt.N 4,
  Op.mk1x 0xFF "JMP" R_RMDW OPExt.N 5,
  Op.mk1 0x9F "LAHF" Description.none,
  Op.mk2 0x0F 0x02 "LAR" R_RW_RMW,
  Op.mk1 0xC5 "LDS" R_RW_RMDW,
  Op.mk1 0xC4 "LES" R_RW_RMDW,
  Op.mk1 0x8D "LEA" R_RW_MEM,
  Op.mk1 0xC9 "LEAVE" Description.none,
  Op.mk2x 0x0F 0x01 "LGDT" R_MEM OPExt.N 2,
  Op.mk2x 0x0F 0x01 "LIDT" R_MEM OPExt.N 3,
  Op.mk2x 0x0F 0x00 "LLDT" R_RMW OPExt.N 2,
  Op.mk2x 0x0F 0x01 "LMSW" R_RMW OPExt.N 6,
  Op.mk2 0x0F 0x05 "LOADALL286" Description.none,
  Op.mk1 0xF0 "LOCK" Description.none,
  Op.mk1 0xAC "LODSB" Description.none,
  Op.mk1 0xAD "LODSW" Description.none,
  Op.mk1 0xE2 "LOOP" I_DB,
  Op.mk1 0xE1 "LOOPE" I_DB,
  Op.mk1 0xE0 "LOOPNE" I_DB,
  Op.mk2 0x0F 0x03 "LSL" R_RW_RMW,
  Op.mk2x 0x0F 0x00 "LTR" R_RMW OPExt.N 3,
  Op.mk1 0x88 "MOV" R_RMB_RB,
  Op.mk1 0x89 "MOV" R_RMW_RW,
  Op.mk1 0x8A "MOV" R_RB_RMB,
  Op.mk1 0x8B "MOV" R_RW_RMW,
  Op.mk1x 0x8C "MOV" R_RMW_SEG OPExt.N 0,
  Op.mk1x 0x8C "MOV" R_RMW_SEG OPExt.N 1,
  Op.mk1x 0x8C "MOV" R_RMW_SEG OPExt.N 2,
  Op.mk1x 0x8C "MOV" R_RMW_SEG OPExt.N 3,
  Op.mk1x 0x8E "MOV" R_SEG_RMW OPExt.N 0,
  Op.mk1x 0x8E "MOV" R_SEG_RMW OPExt.N 2,
  Op.mk1x 0x8E "MOV" R_SEG_RMW OPExt.N 3,
  Op.mk1 0xA0 "MOV" I_AL_DEREFBYTEATDW,
  Op.mk1 0xA1 "MOV" I_AX_DEREFWORDATDW,
  Op.mk1 0xA2 "MOV" I_DEREFBYTEATDW_AL,
  Op.mk1 0xA3 "MOV" I_DEREFBYTEATDW_AX,
  Op.mk1 0xB0 "MOV" REG_AL_DB,
  Op.mk1 0xB1 "MOV" REG_CL_DB,
  Op.mk1 0xB2 "MOV" REG_DL_DB,
  Op.mk1 0xB3 "MOV" REG_BL_DB,
  Op.mk1 0xB4 "MOV" REG_AH_DB,
  Op.mk1 0xB5 "MOV" REG_CH_DB,
  Op.mk1 0xB6 "MOV" REG_DH_DB,
  Op.mk1 0xB7 "MOV" REG_BH_DB,
  Op.mk1 0xB8 "MOV" REG_AX_DW,
  Op.mk1 0xB9 "MOV" REG_CX_DW,
  Op.mk1 0xBA "MOV" REG_DX_DW,
  Op.mk1 0xBB "MOV" REG_BX_DW,
  Op.mk1 0xBC "MOV" REG_SP_DW,
  Op.mk1 0xBD "MOV" REG_BP_DW,
  Op.mk1 0xBE "MOV" REG_SI_DW,
  Op.mk1 0xBF "MOV" REG_DI_DW,
  Op.mk1 0xC6 "MOV" R_RMB_DB,
  Op.mk1 0xC7 "MOV" R_RMW_DW,
  Op.mk1 0xA4 "MOVSB" Description.none,
  Op.mk1 0xA5 "MOVSW" Description.none,
  Op.mk1x 0xF6 "MUL" R_RMB OPExt.N 4,
  Op.mk1x 0xF7 "MUL" R_RMW OPExt.N 4,
  Op.mk1x 0xF6 "NEG" R_RMB OPExt.N 3,
  Op.mk1x 0xF7 "NEG" R_RMW OPExt.N 3,
  Op.mk1 0x90 "NOP" Description.none,
  Op.mk1x 0xF6 "NOT" R_RMB OPExt.N 2,
  Op.mk1x 0xF7 "NOT" R_RMW OPExt.N 2,
  Op.mk1 0x08 "OR" R_RMB_RB,
  Op.mk1 0x09 "OR" R_RMW_RW,
  Op.mk1 0x0A "OR" R_RB_RMB,
  Op.mk1 0x0B "OR" R_RW_RMW,
  Op.mk1 0x0C "OR" REG_AL_DB,
  Op.mk1 0x0D "OR" REG_AX_DW,
  Op.mk1x 0x80 "OR" R_RMB_DB OPExt.N 1,
  Op.mk1x 0x81 "OR" R_RMW_DW OPExt.N 1,
  Op.mk1 0xE6 "OUT" REG_DB_AL,
  Op.mk1 0xE7 "OUT" REG_DB_AX,
  Op.mk1 0xEE "OUT" REG_DX_AL,
  Op.mk1 0xEF "OUT" REG_DX_AX,
  Op.mk1 0x6E "OUTSB" Description.none,
  Op.mk1 0x6F "OUTSW" Description.none,
  Op.mk1 0x1F "POP" REG_DS,
  Op.mk1 0x07 "POP" REG_ES,
  Op.mk1 0x17 "POP" REG_SS,
  Op.mk1x 0x8F "POP" R_RMW OPExt.N 0,
  Op.mk1 0x58 "POP" REG_AX,
  Op.mk1 0x59 "POP" REG_CX,
  Op.mk1 0x5A "POP" REG_DX,
  Op.mk1 0x5B "POP" REG_BX,
  Op.mk1 0x5C "POP" REG_SP,
  Op.mk1 0x5D "POP" REG_BP,
  Op.mk1 0x5E "POP" REG_SI,
  Op.mk1 0x5F "POP" REG_DI,
  Op.mk1 0x61 "POPA" Description.none,
  Op.mk1 0x9D "POPF" Description.none,
  Op.mk1 0x06 "PUSH" REG_ES,
  Op.mk1 0x0E "PUSH" REG_CS,
  Op.mk1 0x16 "PUSH" REG_SS,
  Op.mk1 0x1E "PUSH" REG_DS,
  Op.mk1 0x50 "PUSH" REG_AX,
  Op.mk1 0x51 "PUSH" REG_CX,
  Op.mk1 0x52 "PUSH" REG_DX,
  Op.mk1 0x53 "PUSH" REG_BX,
  Op.mk1 0x54 "PUSH" REG_SP,
  Op.mk1 0x55 "PUSH" REG_BP,
  Op.mk1 0x56 "PUSH" REG_SI,
  Op.mk1 0x57 "PUSH" REG_DI,
  Op.mk1x 0xFF "PUSH" R_RMW OPExt.N 6,
  Op.mk1 0x68 "PUSH" I_DW,
  Op.mk1 0x6A "PUSH" I_DB,
  Op.mk1 0x60 "PUSHA" Description.none,
  Op.mk1 0x9C "PUSHF" Description.none,
  Op.mk1x 0xD0 "RCL" R_RMB_C1 OPExt.N 2,
  Op.mk1x 0xD2 "RCL" R_RMB_CL OPExt.N 2,
  Op.mk1x 0xC0 "RCL" R_RMB_DB OPExt.N 2,
  Op.mk1x 0xD1 "RCL" R_RMW_C1 OPExt.N 2,
  Op.mk1x 0xD3 "RCL" R_RMW_CL OPExt.N 2,
  Op.mk1x 0xC1 "RCL" R_RMW_DB OPExt.N 2,
  Op.mk1x 0xD0 "RCR" R_RMB_C1 OPExt.N 3,
  Op.mk1x 0xD2 "RCR" R_RMB_CL OPExt.N 3,
  Op.mk1x 0xC0 "RCR" R_RMB_DB OPExt.N 3,
  Op.mk1x 0xD1 "RCR" R_RMW_C1 OPExt.N 3,
  Op.mk1x 0xD3 "RCR" R_RMW_CL OPExt.N 3,
  Op.mk1x 0xC1 "RCR" R_RMW_DB OPExt.N 3,
  Op.mk1x 0xD0 "ROL" R_RMB_C1 OPExt.N 0,
  Op.mk1x 0xD2 "ROL" R_RMB_CL OPExt.N 0,
  Op.mk1x 0xC0 "ROL" R_RMB_DB OPExt.N 0,
  Op.mk1x 0xD1 "ROL" R_RMW_C1 OPExt.N 0,
  Op.mk1x 0xD3 "ROL" R_RMW_CL OPExt.N 0,
  Op.mk1x 0xC1 "ROL" R_RMW_DB OPExt.N 0,
  Op.mk1x 0xD0 "ROR" R_RMB_C1 OPExt.N 1,
  Op.mk1x 0xD2 "ROR" R_RMB_CL OPExt.N 1,
  Op.mk1x 0xC0 "ROR" R_RMB_DB OPExt.N 1,
  Op.mk1x 0xD1 "ROR" R_RMW_C1 OPExt.N 1,
  Op.mk1x 0xD3 "ROR" R_RMW_CL OPExt.N 1,
  Op.mk1x 0xC1 "ROR" R_RMW_DB OPExt.N 1,
  Op.mk2 0xF3 0x6C "REP INSB" Description.none,
  Op.mk2 0xF3 0x6D "REP INSW" Description.none,
  Op.mk2 0xF3 0xA4 "REP MOVSB" Description.none,
  Op.mk2 0xF3 0xA5 "REP MOVSW" Description.none,
  Op.mk2 0xF3 0x6E "REP OUTSB" Description.none,
  Op.mk2 0xF3 0x6F "REP OUTSW" Description.none,
  Op.mk2 0xF3 0xAA "REP STOSB" Description.none,
  Op.mk2 0xF3 0xAB "REP STOSW" Description.none,
  Op.mk2 0xF3 0xA6 "REPE CMPSB" Description.none,
  Op.mk2 0xF3 0xA7 "REPE CMPSW" Description.none,
  Op.mk2 0xF3 0xAE "REPE SCASB" Description.none,
  Op.mk2 0xF3 0xAF "REPE SCASW" Description.none,
  Op.mk2 0xF2 0xA6 "REPNE CMPSB" Description.none,
  Op.mk2 0xF2 0xA7 "REPNE CMPSW" Description.none,
  Op.mk2 0xF2 0xAE "REPNE SCASB" Description.none,
  Op.mk2 0xF2 0xAF "REPNE SCASW" Description.none,
  Op.mk1 0xCB "RET" Description.none,
  Op.mk1 0xC3 "RET" Description.none,
  Op.mk1 0xCA "RETF" I_DW,
  Op.mk1 0xC2 "RET" I_DW,
  Op.mk1 0x9E "SAHF" Description.none,
  Op.mk1x 0xD0 "SAL" R_RMB_C1 OPExt.N 4,
  Op.mk1x 0xD2 "SAL" R_RMB_CL OPExt.N 4,
  Op.mk1x 0xC0 "SAL" R_RMB_DB OPExt.N 4,
  Op.mk1x 0xD1 "SAL" R_RMW_C1 OPExt.N 4,
  Op.mk1x 0xD3 "SAL" R_RMW_CL OPExt.N 4,
  Op.mk1x 0xC1 "SAL" R_RMW_DB OPExt.N 4,
  Op.mk1x 0xD0 "SAR" R_RMB_C1 OPExt.N 7,
  Op.mk1x 0xD2 "SAR" R_RMB_CL OPExt.N 7,
  Op.mk1x 0xC0 "SAR" R_RMB_DB OPExt.N 7,
  Op.mk1x 0xD1 "SAR" R_RMW_C1 OPExt.N 7,
  Op.mk1x 0xD3 "SAR" R_RMW_CL OPExt.N 7,
  Op.mk1x 0xC1 "SAR" R_RMW_DB OPExt.N 7,
  Op.mk1x 0xD0 "SHR" R_RMB_C1 OPExt.N 5,
  Op.mk1x 0xD2 "SHR" R_RMB_CL OPExt.N 5,
  Op.mk1x 0xC0 "SHR" R_RMB_DB OPExt.N 5,
  Op.mk1x 0xD1 "SHR" R_RMW_C1 OPExt.N 5,
  Op.mk1x 0xD3 "SHR" R_RMW_CL OPExt.N 5,
  Op.mk1x 0xC1 "SHR" R_RMW_DB OPExt.N 5,
  Op.mk1 0x18 "SBB" R_RMB_RB,
  Op.mk1 0x19 "SBB" R_RMW_RW,
  Op.mk1 0x1A "SBB" R_RB_RMB,
  Op.mk1 0x1B "SBB" R_RW_RMW,
  Op.mk1 0x1C "SBB" REG_AL_DB,
  Op.mk1 0x1D "SBB" REG_AX_DW,
  Op.mk1x 0x80 "SBB" R_RMB_DB OPExt.N 3,
  Op.mk1x 0x81 "SBB" R_RMW_DW OPExt.N 3,
  Op.mk1x 0x83 "SBB" R_RMW_DB OPExt.N 3,
  Op.mk1 0xAE "SCASB" Description.none,
  Op.mk1 0xAF "SCASW" Description.none,
  Op.mk2x 0x0F 0x01 "SGDT" R_MEM OPExt.N 0,
  Op.mk2x 0x0F 0x01 "SIDT" R_MEM OPExt.N 1,
  Op.mk2x 0x0F 0x00 "SLDT" R_RMW OPExt.N 0,
  Op.mk2x 0x0F 0x01 "SMSW" R_RMW OPExt.N 4,
  Op.mk1 0xF9 "STC" Description.none,
  Op.mk1 0xFD "STD" Description.none,
  Op.mk1 0xFB "STI" Description.none,
  Op.mk1 0xAA "STOSB" Description.none,
  Op.mk1 0xAB "STOSW" Description.none,
  Op.mk2x 0x0F 0x00 "STR" R_RMW OPExt.N 1,
  Op.mk1 0x28 "SUB" R_RMB_RB,
  Op.mk1 0x29 "SUB" R_RMW_RW,
  Op.mk1 0x2A "SUB" R_RB_RMB,
  Op.mk1 0x2B "SUB" R_RW_RMW,
  Op.mk1 0x2C "SUB" REG_AL_DB,
  Op.mk1 0x2D "SUB" REG_AX_DW,
  Op.mk1x 0x80 "SUB" R_RMB_DB OPExt.N 5,
  Op.mk1x 0x81 "SUB" R_RMW_DW OPExt.N 5,
  Op.mk1x 0x83 "SUB" R_RMW_DB OPExt.N 5,
  Op.mk1 0x84 "TEST" R_RMB_RB,
  Op.mk1 0x85 "TEST" R_RMW_RW,
  Op.mk1 0xA8 "TEST" REG_AL_DB,
  Op.mk1 0xA9 "TEST" REG_AX_DW,
  Op.mk1x 0xF6 "TEST" R_RMB_DB OPExt.N 0,
  Op.mk1x 0xF7 "TEST" R_RMW_DW OPExt.N 0,
  Op.mk2x 0x0F 0x00 "VERR" R_RMW OPExt.N 4,
  Op.mk2x 0x0F 0x00 "VERW" R_RMW OPExt.N 5,
  Op.mk1 0x9B "WAIT" Description.none,
  Op.mk1 0x86 "XCHG" R_RMB_RB,
  Op.mk1 0x87 "XCHG" R_RMW_RW,
  Op.mk1 0x90 "XCHG" REG_AX_AX,
  Op.mk1 0x91 "XCHG" REG_AX_CX,
  Op.mk1 0x92 "XCHG" REG_AX_DX,
  Op.mk1 0x93 "XCHG" REG_AX_BX,
  Op.mk1 0x94 "XCHG" REG_AX_SP,
  Op.mk1 0x95 "XCHG" REG_AX_BP,
  Op.mk1 0x96 "XCHG" REG_AX_SI,
  Op.mk1 0x97 "XCHG" REG_AX_DI,
  Op.mk1 0xD7 "XLATB" Description.none,
  Op.mk1 0x30 "XOR" R_RMB_RB,
  Op.mk1 0x31 "XOR" R_RMW_RW,
  Op.mk1 0x32 "XOR" R_RB_RMB,
  Op.mk1 0x33 "XOR" R_RW_RMW,
  Op.mk1 0x34 "XOR" REG_AL_DB,
  Op.mk1 0x35 "XOR" REG_AX_DW,
  Op.mk1x 0x80 "XOR" R_RMB_DB OPExt.N 6,
  Op.mk1x 0x81 "XOR" R_RMW_DW OPExt.N 6,
  Op.mk1x 0xD8 "FADD" R_RMDW OPExt.FPU_XY 0,
  Op.mk1x 0xD8 "FADD" F_ST_STREG OPExt.FPU_11 0,
  Op.mk1x 0xD8 "FMUL" R_RMDW OPExt.FPU_XY 1,
  Op.mk1x 0xD8 "FMUL" F_ST_STREG OPExt.FPU_11 1,
  Op.mk1x 0xD8 "FCOM" R_RMDW OPExt.FPU_XY 2,
  Op.mk1x 0xD8 "FCOM" F_STREG OPExt.FPU_11 2,
  Op.mk1x 0xD8 "FCOMP" R_RMDW OPExt.FPU_XY 3,
  Op.mk1x 0xD8 "FCOMP" F_STREG OPExt.FPU_11 3,
  Op.mk1x 0xD8 "FSUB" R_RMDW OPExt.FPU_XY 4,
  Op.mk1x 0xD8 "FSUB" F_ST_STREG OPExt.FPU_11 4,
  Op.mk1x 0xD8 "FSUBR" R_RMDW OPExt.FPU_XY 5,
  Op.mk1x 0xD8 "FSUBR" F_ST_STREG OPExt.FPU_11 5,
  Op.mk1x 0xD8 "FDIV" R_RMDW OPExt.FPU_XY 6,
  Op.mk1x 0xD8 "FDIV" F_ST_STREG OPExt.FPU_11 6,
  Op.mk1x 0xD8 "FDIVR" R_RMDW OPExt.FPU_XY 7,
  Op.mk1x 0xD8 "FDIVR" F_ST_STREG OPExt.FPU_11 7,
  Op.mk1x 0xD9 "FLD" R_RMDW OPExt.FPU_XY 0,
  Op.mk1x 0xD9 "FLD" F_STREG OPExt.FPU_11 0,
  Op.mk1x 0xD9 "FXCH" F_STREG OPExt.FPU_11 1,
  Op.mk1x 0xD9 "FST" R_RMDW OPExt.FPU_XY 2,
  Op.mk1x 0xD9 "FSTP" R_RMDW OPExt.FPU_XY 3,
  Op.mk1x 0xD9 "FSTP" F_STREG OPExt.FPU_11 3,
  Op.mk1x 0xD9 "FLDENV" R_MEM OPExt.FPU_XY 4,
  Op.mk1x 0xD9 "FLDCW" R_RMDW OPExt.FPU_XY 5,
  Op.mk1x 0xD9 "FSTENV" R_MEM OPExt.FPU_XY 6,
  Op.mk1x 0xD9 "FSTCW" R_RMDW OPExt.FPU_XY 7,
  Op.mk2 0xD9 0xD0 "FNOP" Description.none,
  Op.mk2 0xD9 0xE0 "FCHS" Description.none,
  Op.mk2 0xD9 0xE1 "FABS" Description.none,
  Op.mk2 0xD9 0xE4 "FTST" Description.none,
  Op.mk2 0xD9 0xE5 "FXAM" Description.none,
  Op.mk2 0xD9 0xE8 "FLD1" Description.none,
  Op.mk2 0xD9 0xE9 "FLDL2T" Description.none,
  Op.mk2 0xD9 0xEA "FLDL2E" Description.none,
  Op.mk2 0xD9 0xEB "FLDPI" Description.none,
  Op.mk2 0xD9 0xEC "FLDLG2" Description.none,
  Op.mk2 0xD9 0xED "FLDLN2" Description.none,
  Op.mk2 0xD9 0xEE "FLDZ" Description.none,
  Op.mk2 0xD9 0xF0 "F2XM1" Description.none,
  Op.mk2 0xD9 0xF1 "FYL2X" Description.none,
  Op.mk2 0xD9 0xF2 "FPTAN" Description.none,
  Op.mk2 0xD9 0xF3 "FPATAN" Description.none,
  Op.mk2 0xD9 0xF4 "FXTRACT" Description.none,
  Op.mk2 0xD9 0xF6 "FDECSTP" Description.none,
  Op.mk2 0xD9 0xF7 "FINCSTP" Description.none,
  Op.mk2 0xD9 0xF8 "FPREM" Description.none,
  Op.mk2 0xD9 0xF9 "FYL2XP1" Description.none,
  Op.mk2 0xD9 0xFA "FSQRT" Description.none,
  Op.mk2 0xD9 0xFC "FRNDINT" Description.none,
  Op.mk2 0xD9 0xFD "FSCALE" Description.none,
  Op.mk1x 0xDA "FIADD" R_RMDW OPExt.FPU_XY 0,
  Op.mk1x 0xDA "FIMUL" R_RMDW OPExt.FPU_XY 1,
  Op.mk1x 0xDA "FICOM" R_RMDW OPExt.FPU_XY 2,
  Op.mk1x 0xDA "FICOMP" R_RMDW OPExt.FPU_XY 3,
  Op.mk1x 0xDA "FISUB" R_RMDW OPExt.FPU_XY 4,
  Op.mk1x 0xDA "FISUBR" R_RMDW OPExt.FPU_XY 5,
  Op.mk1x 0xDA "FIDIV" R_RMDW OPExt.FPU_XY 6,
  Op.mk1x 0xDA "FIDIVR" R_RMDW OPExt.FPU_XY 7,
  Op.mk1x 0xDB "FILD" R_RMDW OPExt.FPU_XY 0,
  Op.mk1x 0xDB "FIST" R_RMDW OPExt.FPU_XY 2,
  Op.mk1x 0xDB "FISTP" R_RMDW OPExt.FPU_XY 3,
  Op.mk1x 0xDB "FLD" R_RMDW OPExt.FPU_XY 5,
  Op.mk1x 0xDB "FSTP" R_RMDW OPExt.FPU_XY 7,
  Op.mk2 0xDB 0xE0 "FENI" Description.none,
  Op.mk2 0xDB 0xE1 "FDISI" Description.none,
  Op.mk2 0xDB 0xE2 "FCLEX" Description.none,
  Op.mk2 0xDB 0xE3 "FINIT" Description.none,
  Op.mk2 0xDB 0xE4 "FSETPM" Description.none,
  Op.mk1x 0xDC "FADD" R_RMQW OPExt.FPU_XY 0,
  Op.mk1x 0xDC "FADD" F_STREG_ST OPExt.FPU_11 0,
  Op.mk1x 0xDC "FMUL" R_RMQW OPExt.FPU_XY 1,
  Op.mk1x 0xDC "FMUL" F_STREG_ST OPExt.FPU_11 1,
  Op.mk1x 0xDC "FCOM" R_RMQW OPExt.FPU_XY 2,
  Op.mk1x 0xDC "FCOM" F_STREG OPExt.FPU_11 2,
  Op.mk1x 0xDC "FCOMP" R_RMQW OPExt.FPU_XY 3,
  Op.mk1x 0xDC "FCOMP" F_STREG OPExt.FPU_11 3,
  Op.mk1x 0xDC "FSUB" R_RMQW OPExt.FPU_XY 4,
  Op.mk1x 0xDC "FSUB" F_STREG_ST OPExt.FPU_11 4,
  Op.mk1x 0xDC "FSUBR" R_RMQW OPExt.FPU_XY 5,
  Op.mk1x 0xDC "FSUBR" F_STREG_ST OPExt.FPU_11 5,
  Op.mk1x 0xDC "FDIV" R_RMQW OPExt.FPU_XY 6,
  Op.mk1x 0xDC "FDIV" F_STREG_ST OPExt.FPU_11 6,
  Op.mk1x 0xDC "FDIVR" R_RMQW OPExt.FPU_XY 7,
  Op.mk1x 0xDC "FDIVR" F_STREG_ST OPExt.FPU_11 7,
  Op.mk1x 0xDD "FLD" R_RMQW OPExt.FPU_XY 0,
  Op.mk1x 0xDD "FST" R_RMQW OPExt.FPU_XY 2,
  Op.mk1x 0xDD "FSTP" R_RMQW OPExt.FPU_XY 3,
  Op.mk1x 0xDD "FRSTOR" R_MEM OPExt.FPU_XY 4,
  Op.mk1x 0xDD "FSAVE" R_MEM OPExt.FPU_XY 6,
  Op.mk1x 0xDD "FSTSW" R_RMQW OPExt.FPU_XY 7,
  Op.mk1x 0xDD "FFREE" F_STREG OPExt.FPU_11 0,
  Op.mk1x 0xDD "FXCH" F_STREG OPExt.FPU_11 1,
  Op.mk1x 0xDD "FST" F_STREG OPExt.FPU_11 2,
  Op.mk1x 0xDD "FSTP" F_STREG OPExt.FPU_11 3,
  Op.mk1x 0xDE "FIADD" R_RMW OPExt.FPU_XY 0,
  Op.mk1x 0xDE "FIMUL" R_RMW OPExt.FPU_XY 1,
  Op.mk1x 0xDE "FICOM" R_RMW OPExt.FPU_XY 2,
  Op.mk1x 0xDE "FICOMP" R_RMW OPExt.FPU_XY 3,
  Op.mk1x 0xDE "FISUB" R_RMW OPExt.FPU_XY 4,
  Op.mk1x 0xDE "FISUBR" R_RMW OPExt.FPU_XY 5,
  Op.mk1x 0xDE "FIDIV" R_RMW OPExt.FPU_XY 6,
  Op.mk1x 0xDE "FIDIVR" R_RMW OPExt.FPU_XY 7,
  Op.mk1x 0xDE "FADDP" F_STREG_ST OPExt.FPU_11 0,
  Op.mk1x 0xDE "FMULP" F_STREG_ST OPExt.FPU_11 1,
  Op.mk1x 0xDE "FCOMP" F_STREG_ST OPExt.FPU_11 2,
  Op.mk2 0xDE 0xD9 "FCOMPP" Description.none,
  Op.mk1x 0xDE "FSUBP" F_STREG_ST OPExt.FPU_11 4,
  Op.mk1x 0xDE "FSUBRP" F_STREG_ST OPExt.FPU_11 5,
  Op.mk1x 0xDE "FDIVP" F_STREG_ST OPExt.FPU_11 6,
  Op.mk1x 0xDE "FDIVRP" F_STREG_ST OPExt.FPU_11 7,
  Op.mk1x 0xDF "FILD" R_RMW OPExt.FPU_XY 0,
  Op.mk1x 0xDF "FIST" R_RMW OPExt.FPU_XY 2,
  Op.mk1x 0xDF "FISTP" R_RMW OPExt.FPU_XY 3,
  Op.mk1x 0xDF "FBLD" R_RMB OPExt.FPU_XY 4,
  Op.mk1x 0xDF "FILD" R_RMQW OPExt.FPU_XY 5,
  Op.mk1x 0xDF "FBSTP" R_RMB OPExt.FPU_XY 6,
  Op.mk1x 0xDF "FISTP" R_RMQW OPExt.FPU_XY 7,
  Op.mk1x 0xDF "FFREEP" F_STREG OPExt.FPU_11 0,
  Op.mk1x 0xDF "FXCH" F_STREG OPExt.FPU_11 1,
  Op.mk1x 0xDF "FSTP" F_STREG OPExt.FPU_11 2,
  Op.mk1x 0xDF "FSTP" F_STREG OPExt.FPU_11 3,
  Op.mk2 0xDF 0xE0 "FSTSW AX" Description.none
]

inductive NumType where
  | DEC | HEX1_NO_DECORATION | HEX1 | HEX2 | HEX4
  deriving DecidableEq, Repr

/-- The source's `struct Num`; `val` is a `uint32_t`. -/
structure Num where
  val : Nat
  type : NumType
  deriving DecidableEq, Repr

/-- The uppercase hexadecimal digit of `d % 16`. -/
def hexChar (d : Nat) : Char :=
  ['0', '1', '2', '3', '4', '5', '6', '7', '8', '9', 'A', 'B', 'C', 'D', 'E', 'F'].getD (d % 16) '0'

/-- The `w` low hexadecimal digits of `v`, most significant first. -/
def hexFixed : Nat → Nat → List Char
  | 0, _ => []
  | w + 1, v => hexFixed w (v / 16) ++ [hexChar v]

/-- The number of hexadecimal digits of `v`; with fuel `8` this is exact for
every `uint32_t`. -/
def hexWidth : Nat → Nat → Nat
  | 0, _ => 1
  | fuel + 1, v => if v < 16 then 1 else 1 + hexWidth fuel (v / 16)

/-- The text `snprintf` produces for `"%0wX"` on a `uint32_t`. -/
def fmtHex (w v : Nat) : List Char :=
  hexFixed (max w (hexWidth 8 v)) v

/-- The text `snprintf` produces for `"%d"` when handed the `uint32_t` `v`. -/
def fmtDec (v : Nat) : List Char :=
  if v < 2 ^ 31 then Nat.toDigits 10 v else '-' :: Nat.toDigits 10 (2 ^ 32 - v)

/-- The source's `snprintf(str, sizeof(str), ..)` switch in `operator<<(Num)`. -/
def Num.format (num : Num) : List Char :=
  match num.type with
  | .DEC => fmtDec num.val
  | .HEX1_NO_DECORATION => fmtHex 2 num.val
  | .HEX1 => "0x".toList ++ fmtHex 2 num.val
  | .HEX2 => "0x".toList ++ fmtHex 4 num.val
  | .HEX4 => "0x".toList ++ fmtHex 8 num.val

/-- The source's `class Line`: `text` holds the `len` characters written so far
of the array `char text[256]`. -/
structure Line where
  text : List Char
  deriving DecidableEq, Repr

def Line.len (line : Line) : Nat := line.text.length

/-- The value of `Line line{}`. -/
def Line.empty : Line := ⟨[]⟩

/-- The body of `operator<<(const char *)` on the characters of the string. -/
def Line.appendChars (line : Line) (str : List Char) : Line :=
  let strSize := str.length
  let rem := 256 - line.len
  let toAdd := min strSize rem
  ⟨line.text ++ str.take toAdd⟩

/-- The source's `Line &operator<<(const char *str)`. -/
def Line.appendStr (line : Line) (str : String) : Line :=
  line.appendChars str.toList

/-- The source's `Line &operator<<(Pad pad)`. -/
def Line.appendPad (line : Line) (i : Nat) : Line :=
  if i > line.len ∧ i < 256 then
    let rm := i - line.len
    ⟨line.text ++ List.replicate rm ' '⟩
  else line

/-- The source's `Line &operator<<(Num num)`. -/
def Line.appendNum (line : Line) (num : Num) : Line :=
  line.appendChars num.format

/-- The slot types `isRValidOrNone` looks for. -/
def isRValidType (t : DType) : Bool :=
  t = DType.RMB || t = DType.RMW || t = DType.RMDW || t = DType.RMQW ||
  t = DType.RB || t = DType.RW || t = DType.MEM || t = DType.SEG

/-- The loop of `isRValidOrNone` over the slots that are left. -/
def isRValidOrNoneLoop : List D → Nat → Bool
  | [], _ => true
  | d :: ds, rem =>
    if isRValidType d.type then
      if rem < 1 then false else true
    else isRValidOrNoneLoop ds rem

def isRValidOrNone (description : Description) (rem : Nat) : Bool :=
  isRValidOrNoneLoop description.d rem

/-- The source's `memcmp(a, p, n) != 0`: both objects must hold `n` readable bytes. -/
def memcmpNe (a p : List Byte) (n : Nat) : Option Bool :=
  if n ≤ a.length ∧ n ≤ p.length then some (decide (a.take n ≠ p.take n)) else none

/-- One iteration of the loop of `getOP`: `some true` is `return &op`,
`some false` is `continue`, `none` is a read outside the window. -/
def getOPBody (op : Op) (cDecode : List Byte) (rem : Nat) : Option Bool :=
  if (op.codeSz = 1 ∧ rem < 1) ∨ (op.codeSz = 2 ∧ rem < 2) then some false
  else do
    let ne ← memcmpNe op.code cDecode op.codeSz
    if ne then some false
    else if op.opExt = OPExt.N ∨ op.opExt = OPExt.FPU_XY ∨ op.opExt = OPExt.FPU_11 then
      if rem < op.codeSz + 1 then some false
      else do
        let b ← cDecode[op.codeSz]?
        let n := (b.val >>> 3) &&& 0b111
        let skip : Bool :=
          if op.opExt = OPExt.FPU_XY then
            let mod := b.val >>> 6
            decide (mod = 0b11)
          else if op.opExt = OPExt.FPU_11 then
            let mod := b.val >>> 6
            decide (mod ≠ 0b11)
          else false
        if skip then some false
        else if n ≠ op.n then some false
        else some true
    else if !isRValidOrNone op.description (rem - op.codeSz) then some false
    else some true

/-- The loop of `getOP` over the table entries that are left. -/
def getOPLoop : List Op → List Byte → Nat → Option (Option Op)
  | [], _, _ => some none
  | op :: rest, cDecode, rem =>
    match getOPBody op cDecode rem with
    | none => none
    | some true => some (some op)
    | some false => getOPLoop rest cDecode rem

def getOP (cDecode : List Byte) (rem : Nat) : Option (Option Op) :=
  getOPLoop ops cDecode rem

/-- The slot types for which `getRMOffset` reads the addressing byte. -/
def isRMType (t : DType) : Bool :=
  t = DType.RMB || t = DType.RMW || t = DType.RMDW || t = DType.RMQW || t = DType.MEM

/-- The loop of `getRMOffset` over the slots that are left. -/
def getRMOffsetLoop : List D → List Byte → Option Nat
  | [], _ => some 0
  | d :: ds, decode =>
    if isRMType d.type then do
      let b ← decode[0]?
      let type := R_Type.cast (b.val >>> 6)
      let rm := b.val &&& 0b111
      some ((getDispMemWidth rm type).toNat + 1)
    else if d.type = DType.ST ∨ d.type = DType.STREG then some 1
    else getRMOffsetLoop ds decode

def getRMOffset (description : Description) (decode : List Byte) : Option Nat :=
  getRMOffsetLoop description.d decode

/-- The second loop of `getLen`, adding the immediate widths to `max`. -/
def getLenLoop : List D → Nat → Nat
  | [], max => max
  | d :: ds, max =>
    if d.type = DType.DB then getLenLoop ds (max + 1)
    else if d.type = DType.DW ∨ d.type = DType.DEREFBYTEATDW ∨ d.type = DType.DEREFWORDATDW then
      getLenLoop ds (max + 2)
    else if d.type = DType.DDW then getLenLoop ds (max + 4)
    else getLenLoop ds max

def getLen (description : Description) (decode : List Byte) : Option Nat := do
  let max ← getRMOffset description decode
  some (getLenLoop description.d max)

def printRM (cDecode : List Byte) (rm : Nat) (regWidth : Width) (disp : R_Type)
    (line : Line) : Option Line :=
  if disp = R_Type.NODISP ∧ rm = 0b110 then do
    let c0 ← cDecode[0]?
    let c1 ← cDecode[1]?
    let num := (c0.val + (c1.val <<< 8)) % 2 ^ 16
    some (((line.appendStr (getWidthName regWidth)).appendStr " [").appendNum ⟨num, .HEX2⟩
      |>.appendStr "]")
  else if disp = R_Type.REG then
    if regWidth = Width.BYTE then do
      let nm ← rb[rm]?
      some (line.appendStr nm)
    else do
      let nm ← rw[rm]?
      some (line.appendStr nm)
  else do
    let nm ← modNames[rm]?
    let line := ((line.appendStr (getWidthName regWidth)).appendStr " [").appendStr nm
    let width := getDispMemWidth rm disp
    let line ←
      if width = Width.BYTE then do
        let c0 ← cDecode[0]?
        let num := c0.val
        some ((line.appendStr " + ").appendNum ⟨num, .HEX1⟩)
      else if width = Width.WORD then do
        let c0 ← cDecode[0]?
        let c1 ← cDecode[1]?
        let num := (c0.val + (c1.val <<< 8)) % 2 ^ 16
        some ((line.appendStr " + ").appendNum ⟨num, .HEX2⟩)
      else some line
    some (line.appendStr "]")

/-- The branch of `printDescription` that renders a register-or-memory slot of
the given width. -/
def printRMSlot (decode : List Byte) (w : Width) (line : Line) : Option Line := do
  let b ← decode[0]?
  let type := R_Type.cast (b.val >>> 6)
  let rm := b.val &&& 0b111
  printRM (decode.drop 1) rm w type line

/-- The `if`/`else if` chain of `printDescription` for one slot that is not
`NONE`: the new `offset` and the line. -/
def printSlot (d : D) (decode : List Byte) (offset : Nat) (line : Line) :
    Option (Nat × Line) :=
  match d.type with
  | .RMB => do some (offset, ← printRMSlot decode Width.BYTE line)
  | .RMW => do some (offset, ← printRMSlot decode Width.WORD line)
  | .RMDW => do some (offset, ← printRMSlot decode Width.DWORD line)
  | .RMQW => do some (offset, ← printRMSlot decode Width.QWORD line)
  | .MEM => do some (offset, ← printRMSlot decode Width.NONE line)
  | .DB => do
    let b ← decode[offset]?
    some (offset + 1, (line.appendStr "BYTE ").appendNum ⟨b.val, .HEX1⟩)
  | .DW => do
    let b0 ← decode[offset]?
    let b1 ← decode[offset + 1]?
    let num := (b0.val + (b1.val <<< 8)) % 2 ^ 16
    some (offset + 2, (line.appendStr "WORD ").appendNum ⟨num, .HEX2⟩)
  | .DEREFBYTEATDW => do
    let b0 ← decode[offset]?
    let b1 ← decode[offset + 1]?
    let num := (b0.val + (b1.val <<< 8)) % 2 ^ 16
    some (offset + 2, ((line.appendStr "BYTE [").appendNum ⟨num, .HEX2⟩).appendStr "]")
  | .DEREFWORDATDW => do
    let b0 ← decode[offset]?
    let b1 ← decode[offset + 1]?
    let num := (b0.val + (b1.val <<< 8)) % 2 ^ 16
    some (offset + 2, ((line.appendStr "WORD [").appendNum ⟨num, .HEX2⟩).appendStr "]")
  | .RB => do
    let b ← decode[0]?
    let r := (b.val >>> 3) &&& 0b111
    let nm ← rb[r]?
    some (offset, line.appendStr nm)
  | .RW => do
    let b ← decode[0]?
    let r := (b.val >>> 3) &&& 0b111
    let nm ← rw[r]?
    some (offset, line.appendStr nm)
  | .SEG => do
    let b ← decode[0]?
    let seg := (b.val >>> 3) &&& 0b111
    if seg < Segment.END then do
      let nm ← segments[seg]?
      some (offset, line.appendStr nm)
    else some (offset, line.appendStr "?")
  | .CONSTBYTE => some (offset, line.appendNum ⟨d.num, .DEC⟩)
  | .CSEG => do
    let nm ← segments[d.num]?
    some (offset, line.appendStr nm)
  | .DDW => do
    let b0 ← decode[offset]?
    let b1 ← decode[offset + 1]?
    let b2 ← decode[offset + 2]?
    let b3 ← decode[offset + 3]?
    let num := (b0.val + (b1.val <<< 8) + (b2.val <<< 16) + (b3.val <<< 24)) % 2 ^ 32
    some (offset + 4, (line.appendStr "DWORD ").appendNum ⟨num, .HEX4⟩)
  | .REGB => do
    let nm ← rb[d.num]?
    some (offset, line.appendStr nm)
  | .REGW => do
    let nm ← rw[d.num]?
    some (offset, line.appendStr nm)
  | .ST => some (offset, line.appendStr "ST")
  | .STREG => do
    let b ← decode[0]?
    let reg := b.val &&& 0b111
    some (offset, (line.appendStr "ST").appendNum ⟨reg, .DEC⟩)
  | _ => some (offset, line)

/-- The loop of `printDescription` over the slots that are left, with the
loop state `offset`, `first` and the line; it returns the final `offset` too. -/
def printDescriptionLoop : List D → List Byte → Nat → Bool → Line → Option (Nat × Line)
  | [], _, offset, _, line => some (offset, line)
  | d :: ds, decode, offset, first, line =>
    if d.type = DType.NONE then printDescriptionLoop ds decode offset first line
    else do
      let line := if first then line.appendStr " " else line.appendStr ", "
      let (offset, line) ← printSlot d decode offset line
      printDescriptionLoop ds decode offset false line

def printDescription (description : Description) (decode : List Byte) (line : Line) :
    Option Line := do
  let offset ← getRMOffset description decode
  let (_, line) ← printDescriptionLoop description.d decode offset true line
  some line

/-- The loop `for (i = i0; i < rem; i++) line << Num{decode[decodeOffset + i],
HEX1_NO_DECORATION} << " "` of `printOP`, with `k` iterations left. -/
def printRawLoop (decode : List Byte) (decodeOffset : Nat) : Nat → Nat → Line → Option Line
  | 0, _, line => some line
  | k + 1, i, line => do
    let b ← decode[decodeOffset + i]?
    printRawLoop decode decodeOffset k (i + 1)
      ((line.appendNum ⟨b.val, .HEX1_NO_DECORATION⟩).appendStr " ")

/-- The loop `for (i = 1; i < rem; i++) line << ", " << Num{decode[decodeOffset + i],
HEX1}` of `printOP`, with `k` iterations left. -/
def printDBLoop (decode : List Byte) (decodeOffset : Nat) : Nat → Nat → Line → Option Line
  | 0, _, line => some line
  | k + 1, i, line => do
    let b ← decode[decodeOffset + i]?
    printDBLoop decode decodeOffset k (i + 1)
      ((line.appendStr ", ").appendNum ⟨b.val, .HEX1⟩)

/-- The source's `printOP`: the returned `size_t` and the line after the call.
`decodeOffset + op.codeSz` is computed in 32 bits; the `size_t` difference
`decode.size() - (decodeOffset + op.codeSz)` is a natural number subtraction,
which agrees with the source whenever the opcode lies inside the buffer, as it
does after a match by `getOP`. -/
def printOP (decode : List Byte) (decodeOffset execOffset : Nat) (op : Op) (line : Line) :
    Option (Nat × Line) := do
  let rem := decode.length - (decodeOffset + op.codeSz) % 2 ^ 32
  let len ← getLen op.description (decode.drop (decodeOffset + op.codeSz))
  if len > rem then do
    let line := (line.appendNum ⟨(execOffset + decodeOffset) % 2 ^ 32, .HEX4⟩).appendStr ":  "
    let line ← printRawLoop decode decodeOffset rem 0 line
    let line ←
      if rem ≠ 0 then do
        let b ← decode[decodeOffset + 0]?
        some ((((line.appendStr "; ").appendPad 36).appendStr "DB ").appendNum ⟨b.val, .HEX1⟩)
      else some line
    let line ← printDBLoop decode decodeOffset (rem - 1) 1 line
    some (decodeOffset + len, line)
  else do
    let line := (line.appendNum ⟨(execOffset + decodeOffset) % 2 ^ 32, .HEX4⟩).appendStr ":  "
    let line ← printRawLoop decode decodeOffset (len + op.codeSz) 0 line
    let line := (((line.appendStr "; ").appendPad 36).appendStr op.name).appendPad 50
    let line ← printDescription op.description (decode.drop (decodeOffset + op.codeSz)) line
    some (decodeOffset + len + op.codeSz, line)

/-- One iteration of the `while` loop of `dec`, from the cursor `decodeOffset`:
the line handed to `printf` and the new value of the `uint32_t` cursor. -/
def decStep (decode : List Byte) (execOffset decodeOffset : Nat) : Option (Line × Nat) := do
  let op ← getOP (decode.drop decodeOffset) (decode.length - decodeOffset)
  let line := Line.empty
  match op with
  | some op => do
    let (next, line) ← printOP decode decodeOffset execOffset op line
    some (line, next % 2 ^ 32)
  | none => do
    let op1 ← decode[decodeOffset]?
    let rem := decode.length - decodeOffset
    if rem ≥ 2 ∧ op1.val ≥ 0xD8 ∧ op1.val ≤ 0xDF then do
      let op2 ← decode[decodeOffset + 1]?
      let line := ((((line.appendNum ⟨op1.val, .HEX4⟩).appendStr ":  ").appendNum
        ⟨op1.val, .HEX1_NO_DECORATION⟩).appendStr " ").appendNum ⟨op2.val, .HEX1_NO_DECORATION⟩
      let mod := op2.val >>> 6
      if mod = 0b01 ∧ rem ≥ 3 then do
        let d1 ← decode[decodeOffset + 2]?
        let line := (line.appendStr " ").appendNum ⟨d1.val, .HEX1_NO_DECORATION⟩
        some (((line.appendStr " ; ").appendPad 36).appendStr "FPU RESERVED",
          (decodeOffset + 3) % 2 ^ 32)
      else if mod = 0b10 ∧ rem ≥ 4 then do
        let d1 ← decode[decodeOffset + 2]?
        let d2 ← decode[decodeOffset + 3]?
        let line := (line.appendStr " ").appendNum ⟨d1.val, .HEX1_NO_DECORATION⟩
        let line := (line.appendStr " ").appendNum ⟨d2.val, .HEX1_NO_DECORATION⟩
        some (((line.appendStr " ; ").appendPad 36).appendStr "FPU RESERVED",
          (decodeOffset + 4) % 2 ^ 32)
      else
        some (((line.appendStr " ; ").appendPad 36).appendStr "FPU RESERVED",
          (decodeOffset + 2) % 2 ^ 32)
    else
      some ((((((line.appendNum ⟨op1.val, .HEX4⟩).appendStr ":  ").appendNum
        ⟨op1.val, .HEX1_NO_DECORATION⟩).appendStr " ; ").appendPad 36).appendStr "DB "
        |>.appendNum ⟨op1.val, .HEX1⟩, (decodeOffset + 1) % 2 ^ 32)

/-- How a run of the sweep ends. -/
inductive Outcome where
  | finished (lines : List Line)
  | fault
  | timeout
  deriving DecidableEq, Repr

/-- Put a line in front of the lines of a finished run. -/
def Outcome.cons (line : Line) : Outcome → Outcome
  | .finished lines => .finished (line :: lines)
  | .fault => .fault
  | .timeout => .timeout

/-- The `while (decodeOffset < decode.size())` loop of `dec`, run for at most
`fuel` iterations from the cursor `decodeOffset`.  The result is the list of
lines printed, `fault` when an iteration reads outside the buffer, `timeout`
when the loop is still running after `fuel` iterations. -/
def decLoop (decode : List Byte) (execOffset : Nat) : Nat → Nat → Outcome
  | 0, decodeOffset =>
    if decodeOffset < decode.length then Outcome.timeout else Outcome.finished []
  | fuel + 1, decodeOffset =>
    if decodeOffset < decode.length then
      match decStep decode execOffset decodeOffset with
      | none => Outcome.fault
      | some (line, next) => (decLoop decode execOffset fuel next).cons line
    else Outcome.finished []

/-- The source's `dec`: every iteration moves the cursor forward, so
`decode.size()` iterations are enough. -/
def dec (decode : List Byte) (execOffset : Nat) : Outcome :=
  decLoop decode execOffset decode.length 0

/-! ## Definitions used to state the properties -/

/-- A slot that makes a descriptor without extension require an addressing byte. -/
def needsAddressingByte (t : DType) : Prop :=
  t = DType.RMB ∨ t = DType.RMW ∨ t = DType.RMDW ∨ t = DType.RMQW ∨
  t = DType.RB ∨ t = DType.RW ∨ t = DType.MEM ∨ t = DType.SEG

/-- The three conditions under which the matcher accepts descriptor `op` on
the window `win`, as the specification words them. -/
def Matches (op : Op) (win : List Byte) : Prop :=
  (op.codeSz ≤ win.length ∧ win.take op.codeSz = op.code.take op.codeSz) ∧
  (op.opExt ≠ OPExt.NONE →
    ∃ b : Byte, win[op.codeSz]? = some b ∧ (b.val >>> 3) &&& 0b111 = op.n ∧
      (op.opExt = OPExt.FPU_XY → b.val >>> 6 ≠ 0b11) ∧
      (op.opExt = OPExt.FPU_11 → b.val >>> 6 = 0b11)) ∧
  (op.opExt = OPExt.NONE → (∃ d ∈ op.description.d, needsAddressingByte d.type) →
    op.codeSz + 1 ≤ win.length)

/-- Shape conditions every entry of the table meets: one or two opcode bytes
stored in a two byte array. -/
def Op.codeOK (op : Op) : Prop :=
  (op.codeSz = 1 ∨ op.codeSz = 2) ∧ op.code.length = 2

instance (op : Op) : Decidable op.codeOK := by
  unfold Op.codeOK; infer_instance

/-- The bytes slot type `t` adds in the loop of `getLen`. -/
def immWidth (t : DType) : Nat :=
  if t = DType.DB then 1
  else if t = DType.DW ∨ t = DType.DEREFBYTEATDW ∨ t = DType.DEREFWORDATDW then 2
  else if t = DType.DDW then 4
  else 0

/-- The addressing byte `b` together with the displacement it announces. -/
def rmLen (b : Byte) : Nat :=
  (getDispMemWidth (b.val &&& 0b111) (R_Type.cast (b.val >>> 6))).toNat + 1

/-- The slots are ordered so that no FPU stack slot comes before a
register-or-memory slot. -/
def addrSlotsOrdered : List D → Bool
  | [] => true
  | d :: ds =>
    if isRMType d.type then true
    else if d.type = DType.ST ∨ d.type = DType.STREG then ds.all (fun e => !isRMType e.type)
    else addrSlotsOrdered ds

/-- The embedded register or segment number of a slot indexes its name table. -/
def D.numOK (d : D) : Prop :=
  (d.type = DType.REGB → d.num < 8) ∧ (d.type = DType.REGW → d.num < 8) ∧
  (d.type = DType.CSEG → d.num < 4)

instance (d : D) : Decidable d.numOK := by
  unfold D.numOK; infer_instance

/-- Shape conditions every description of the table meets. -/
def Description.slotsOK (description : Description) : Prop :=
  description.d.length = 3 ∧ addrSlotsOrdered description.d = true ∧ ∀ d ∈ description.d, d.numOK

instance (description : Description) : Decidable description.slotsOK := by
  unfold Description.slotsOK; infer_instance

/-- The slot types whose rendering reads the byte after the opcode. -/
def readsByte0 (t : DType) : Bool :=
  isRMType t || t = DType.RB || t = DType.RW || t = DType.SEG || t = DType.STREG

/-- The raw byte field: every byte as two hexadecimal digits and a blank. -/
def rawField (bs : List Byte) (line : Line) : Line :=
  bs.foldl (fun l b => (l.appendNum ⟨b.val, NumType.HEX1_NO_DECORATION⟩).appendStr " ") line

/-- The tail of a `DB` list: every byte as a comma, a blank and `0x` with two
hexadecimal digits. -/
def dbField (bs : List Byte) (line : Line) : Line :=
  bs.foldl (fun l b => (l.appendStr ", ").appendNum ⟨b.val, NumType.HEX1⟩) line

/-- The line of a decoded instruction before its operands: address, the raw
bytes of the instruction, and the mnemonic between columns 36 and 50. -/
def headerLine (decode : List Byte) (decodeOffset execOffset : Nat) (op : Op) (len : Nat)
    (line : Line) : Line :=
  ((((rawField ((decode.drop decodeOffset).take (len + op.codeSz))
    ((line.appendNum ⟨(execOffset + decodeOffset) % 2 ^ 32, NumType.HEX4⟩).appendStr ":  ")
    ).appendStr "; ").appendPad 36).appendStr op.name).appendPad 50

/-- The line `printOP` builds when the computed length exceeds `rem`, the
number of bytes after the opcode. -/
def overrunLine (decode : List Byte) (decodeOffset execOffset rem : Nat) (line : Line) : Line :=
  let l1 := rawField ((decode.drop decodeOffset).take rem)
    ((line.appendNum ⟨(execOffset + decodeOffset) % 2 ^ 32, NumType.HEX4⟩).appendStr ":  ")
  let l2 :=
    match decode[decodeOffset]? with
    | some b =>
      if rem ≠ 0 then
        (((l1.appendStr "; ").appendPad 36).appendStr "DB ").appendNum ⟨b.val, NumType.HEX1⟩
      else l1
    | none => l1
  dbField ((decode.drop (decodeOffset + 1)).take (rem - 1)) l2

/-- The text of the single byte fallback line for the byte `b`. -/
def dbLineText (b : Byte) : List Char :=
  "0x".toList ++ fmtHex 8 b.val ++ ":  ".toList ++ fmtHex 2 b.val ++ " ; ".toList ++
    List.replicate 18 ' ' ++ "DB ".toList ++ "0x".toList ++ fmtHex 2 b.val

/-- The text of the FPU fallback line for the bytes `op1`, `op2` and the
displacement bytes `disp` that the step consumes. -/
def fpuLineText (op1 op2 : Byte) (disp : List Byte) : List Char :=
  "0x".toList ++ fmtHex 8 op1.val ++ ":  ".toList ++ fmtHex 2 op1.val ++ " ".toList ++
    fmtHex 2 op2.val ++ (disp.map (fun d => " ".toList ++ fmtHex 2 d.val)).flatten ++
    " ; ".toList ++ List.replicate (15 - 3 * disp.length) ' ' ++ "FPU RESERVED".toList

/-- The displacement bytes the FPU fallback consumes after its two bytes, from
the mode bits of the second byte `op2` and the `rem` bytes left at the cursor. -/
def fpuExtra (op2 : Byte) (rem : Nat) : Nat :=
  if op2.val >>> 6 = 0b01 ∧ rem ≥ 3 then 1
  else if op2.val >>> 6 = 0b10 ∧ rem ≥ 4 then 2
  else 0

/-- The byte after the opcode in the shortest sequence for `op`: the gating
byte with the discriminant in bits 5-3 (mode 11 for the FPU register form,
mode 00 otherwise), or a zero addressing byte for a descriptor without
extension that has a slot needing one. -/
def gateByte (op : Op) : List Byte :=
  match op.opExt with
  | .NONE => if op.description.d.any (fun d => isRValidType d.type) then [0] else []
  | .N => [⟨(op.n % 8) * 8, by omega⟩]
  | .FPU_XY => [⟨(op.n % 8) * 8, by omega⟩]
  | .FPU_11 => [⟨0xC0 + (op.n % 8) * 8, by omega⟩]

/-- The minimal byte sequence of a descriptor: opcode bytes, gating or
addressing byte, and zero bytes for its immediate slots. -/
def minimalSeq (op : Op) : List Byte :=
  op.code.take op.codeSz ++ gateByte op ++
    List.replicate ((op.description.d.map (fun d => immWidth d.type)).sum) 0

/-- Two descriptors with the same opcode bytes, extension kind and discriminant. -/
def sameKey (a b : Op) : Bool :=
  a.codeSz = b.codeSz ∧ a.code.take a.codeSz = b.code.take b.codeSz ∧ a.opExt = b.opExt ∧
    a.n = b.n

/-- The table entries that repeat the opcode of an earlier entry. -/
def shadowedOps : List Op := [
  Op.mk1 0x72 "JC" I_DB, Op.mk1 0x76 "JNA" I_DB, Op.mk1 0x72 "JNAE" I_DB,
  Op.mk1 0x73 "JNB" I_DB, Op.mk1 0x77 "JNBE" I_DB, Op.mk1 0x73 "JNC" I_DB,
  Op.mk1 0x7E "JNG" I_DB, Op.mk1 0x7C "JNGE" I_DB, Op.mk1 0x7D "JNL" I_DB,
  Op.mk1 0x7F "JNLE" I_DB, Op.mk1 0x75 "JNZ" I_DB, Op.mk1 0x7A "JPE" I_DB,
  Op.mk1 0x7B "JPO" I_DB, Op.mk1 0x74 "JZ" I_DB, Op.mk1 0x90 "XCHG" REG_AX_AX]

/-- The first opcode byte of the entry differs from the first byte of the window. -/
def firstDiffers (op : Op) (win : List Byte) : Bool :=
  match op.code, win with
  | c :: _, w :: _ => !(Nat.beq c.val w.val)
  | _, _ => false

/-- The matcher loop with a quick test on the first byte in front of every
iteration; it computes what `getOPLoop` computes. -/
def getOPFast : List Op → List Byte → Nat → Option (Option Op)
  | [], _, _ => some none
  | op :: rest, cDecode, rem =>
    if firstDiffers op cDecode then getOPFast rest cDecode rem
    else
      match getOPBody op cDecode rem with
      | none => none
      | some true => some (some op)
      | some false => getOPFast rest cDecode rem

/-- The round trip of one descriptor, as a computation. -/
def roundTripCheck (op : Op) : Bool :=
  match getOPFast ops (minimalSeq op) (minimalSeq op).length with
  | some (some o) =>
    sameKey o op &&
    getLen o.description ((minimalSeq op).drop o.codeSz) ==
      some ((minimalSeq op).length - o.codeSz) &&
    decide (o.codeSz ≤ (minimalSeq op).length) &&
    ((o == op) != shadowedOps.contains op)
  | _ => false

/-- The `Description` objects the source declares, in declaration order. -/
def allDescriptions : List Description := [
  Description.none, R_RMB_RB, R_RMW_RW, R_RB_RMB, R_RW_RMW, R_RW_RMDW, R_RMB_DB, R_RMW_DW,
  R_RMW_DB, R_RMW_SEG, R_SEG_RMW, R_RMB, R_RMW, R_RMDW, R_RMQW, R_RMB_C1, R_RMB_CL, R_RMW_C1,
  R_RMW_CL, R_MEM, R_RW_MEM, R_RW_RMW_DB, R_RW_RMW_DW, I_DB, I_DW, I_DDW, I_DW_DB,
  I_AL_DEREFBYTEATDW, I_AX_DEREFWORDATDW, I_DEREFBYTEATDW_AL, I_DEREFBYTEATDW_AX, REG_AX_DB,
  REG_DB_AL, REG_DB_AX, REG_DX_AL, REG_DX_AX, REG_AL_DB, REG_CL_DB, REG_DL_DB, REG_BL_DB,
  REG_AH_DB, REG_CH_DB, REG_DH_DB, REG_BH_DB, REG_AX_DW, REG_CX_DW, REG_DX_DW, REG_BX_DW,
  REG_SP_DW, REG_BP_DW, REG_SI_DW, REG_DI_DW, REG_AX, REG_CX, REG_DX, REG_BX, REG_SP, REG_BP,
  REG_SI, REG_DI, REG_AX_AX, REG_AX_CX, REG_AX_DX, REG_AX_BX, REG_AX_SP, REG_AX_BP, REG_AX_SI,
  REG_AX_DI, REG_DS, REG_CS, REG_ES, REG_SS, REG_AL_DX, F_ST_STREG, F_STREG_ST, F_STREG]

/-- Two uppercase hexadecimal digits of `v`, zero padded. -/
def hex2 (v : Nat) : List Char := [hexChar (v / 16), hexChar v]

/-- Four uppercase hexadecimal digits of `v`, zero padded. -/
def hex4 (v : Nat) : List Char :=
  [hexChar (v / 16 ^ 3), hexChar (v / 16 ^ 2), hexChar (v / 16), hexChar v]

/-- Eight uppercase hexadecimal digits of `v`, zero padded. -/
def hex8 (v : Nat) : List Char :=
  [hexChar (v / 16 ^ 7), hexChar (v / 16 ^ 6), hexChar (v / 16 ^ 5), hexChar (v / 16 ^ 4),
   hexChar (v / 16 ^ 3), hexChar (v / 16 ^ 2), hexChar (v / 16), hexChar v]

/-- The register-or-memory and memory-only slot types, each with the width
keyword its operand is rendered with. -/
def rmSlotKeywords : List (DType × Width × String) :=
  [(DType.RMB, Width.BYTE, "BYTE"), (DType.RMW, Width.WORD, "WORD"),
   (DType.RMDW, Width.DWORD, "DWORD"), (DType.RMQW, Width.QWORD, "QWORD"),
   (DType.MEM, Width.NONE, "MEM")]

/-- The separator `printDescription` writes in front of an operand. -/
def separator (first : Bool) : String := if first then " " else ", "

/-- The text of one operand: what the slot writes to an empty line, with the
immediate offset behind the slot. -/
def operandText (d : D) (decode : List Byte) (offset : Nat) : Option (Nat × List Char) :=
  (printSlot d decode offset Line.empty).map (fun r => (r.1, r.2.text))

/-- The texts of the operands of a list of slots in declaration order, the
slots of type `NONE` left out; the immediate offset runs from slot to slot. -/
def operandTexts : List D → List Byte → Nat → Option (List (List Char))
  | [], _, _ => some []
  | d :: ds, decode, offset =>
    if d.type = DType.NONE then operandTexts ds decode offset
    else
      (operandText d decode offset).bind (fun r =>
        (operandTexts ds decode r.1).map (fun ts => r.2 :: ts))

/-- The operand texts behind one another, every text with its separator in
front: a blank in front of the first when `first` is set, comma and blank in
front of every other. -/
def joinOperands : Bool → List (List Char) → List Char
  | _, [] => []
  | first, t :: ts => (separator first).toList ++ t ++ joinOperands false ts

/-- The slots that are operands: the ones whose type is not `NONE`. -/
def operandSlots (ds : List D) : List D := ds.filter (fun d => decide (d.type ≠ DType.NONE))

/-- The raw byte field as text: two hexadecimal digits and a blank for every byte. -/
def rawText (bs : List Byte) : List Char :=
  (bs.map (fun b => hex2 b.val ++ [' '])).flatten

/-- The largest value `getRMOffset` can return for a list of slots. -/
def rmOffsetBound : List D → Nat
  | [] => 0
  | d :: ds =>
    if isRMType d.type then 3
    else if d.type = DType.ST ∨ d.type = DType.STREG then 1
    else rmOffsetBound ds

/-- The text of a decoded line up to the operands: address, raw bytes, `; `,
blanks up to column 36, the mnemonic, blanks up to column 50. -/
def headerText (decode : List Byte) (c execOffset : Nat) (op : Op) (len : Nat) : List Char :=
  "0x".toList ++ fmtHex 8 ((execOffset + c) % 2 ^ 32) ++ ":  ".toList ++
    rawText ((decode.drop c).take (len + op.codeSz)) ++ "; ".toList ++
    List.replicate (36 - (15 + 3 * (len + op.codeSz))) ' ' ++ op.name.toList ++
    List.replicate (14 - op.name.length) ' '

/-- The text of a decoded line in front of the mnemonic padding: address, the
first `n` bytes from the cursor `c` as raw bytes, and `; `. -/
def leadText (decode : List Byte) (c execOffset n : Nat) : List Char :=
  "0x".toList ++ fmtHex 8 ((execOffset + c) % 2 ^ 32) ++ ":  ".toList ++
    rawText ((decode.drop c).take n) ++ "; ".toList

/-- One append to a line: a string, a `Pad` or a `Num`. -/
inductive LineOp where
  | str (s : String)
  | pad (i : Nat)
  | num (n : Num)

/-- The append `o` on the line, by the `operator<<` of its kind. -/
def Line.apply (line : Line) : LineOp → Line
  | .str s => line.appendStr s
  | .pad i => line.appendPad i
  | .num n => line.appendNum n

/-- A sequence of appends on the line, first to last. -/
def Line.applyAll (line : Line) (os : List LineOp) : Line :=
  os.foldl Line.apply line

/-- The cursor before and after every iteration of the loop of `dec`, for at
most `fuel` iterations from the cursor `decodeOffset`; the list ends where the
loop ends or where an iteration reads outside the buffer. -/
def decCursors (decode : List Byte) (execOffset : Nat) : Nat → Nat → List (Nat × Nat)
  | 0, _ => []
  | fuel + 1, decodeOffset =>
    if decodeOffset < decode.length then
      match decStep decode execOffset decodeOffset with
      | none => []
      | some (_, next) => (decodeOffset, next) :: decCursors decode execOffset fuel next
    else []

/-- The step at the cursor is a length overrun: a descriptor matches and
`printOP` finds its computed length above the bytes left after the opcode. -/
def isOverrun (decode : List Byte) (decodeOffset : Nat) : Bool :=
  match getOP (decode.drop decodeOffset) (decode.length - decodeOffset) with
  | some (some op) =>
    match getLen op.description (decode.drop (decodeOffset + op.codeSz)) with
    | some len => decide (len > decode.length - (decodeOffset + op.codeSz) % 2 ^ 32)
    | none => false
  | _ => false

/-- The bytes between the cursor before and the cursor after a step. -/
def consumed (decode : List Byte) (s : Nat × Nat) : List Byte :=
  (decode.drop s.1).take (s.2 - s.1)

/-- Two lines that agree behind their address field, the first ten characters
(`0x` and eight hexadecimal digits). -/
def sameTail (l1 l2 : Line) : Prop :=
  10 ≤ l1.text.length ∧ l1.text.length = l2.text.length ∧ l1.text.drop 10 = l2.text.drop 10

/-- A text of at most `n` characters without a question mark. -/
def okText (n : Nat) (t : List Char) : Prop := t.length ≤ n ∧ '?' ∉ t

/-- A line of at most `n` characters without a question mark. -/
def okLine (n : Nat) (l : Line) : Prop := okText n l.text

/-! ## Properties -/

/-! ## The matcher -/

theorem ops_codeOK : ∀ op ∈ ops, op.codeOK := by decide!

theorem isRValidType_iff (t : DType) : isRValidType t = true ↔ needsAddressingByte t := by
  cases t <;> simp [isRValidType, needsAddressingByte]

theorem isRValidOrNoneLoop_eq_false (ds : List D) (rem : Nat) :
    isRValidOrNoneLoop ds rem = false ↔ (∃ d ∈ ds, needsAddressingByte d.type) ∧ rem < 1 := by
  induction ds with
  | nil => simp [isRValidOrNoneLoop]
  | cons d ds ih =>
    rw [isRValidOrNoneLoop]
    by_cases h : isRValidType d.type = true
    · have h2 := (isRValidType_iff d.type).1 h
      rw [if_pos h]
      by_cases hr : rem < 1
      · rw [if_pos hr]
        exact ⟨fun _ => ⟨⟨d, List.mem_cons_self _ _, h2⟩, hr⟩, fun _ => rfl⟩
      · rw [if_neg hr]
        exact ⟨fun hc => (by cases hc), fun hc => absurd hc.2 hr⟩
    · have h2 : ¬ needsAddressingByte d.type := fun hc => h ((isRValidType_iff d.type).2 hc)
      rw [if_neg h, ih]
      constructor
      · rintro ⟨⟨e, he, hn⟩, hr⟩
        exact ⟨⟨e, List.mem_cons_of_mem _ he, hn⟩, hr⟩
      · rintro ⟨⟨e, he, hn⟩, hr⟩
        rcases List.mem_cons.1 he with rfl | he
        · exact absurd hn h2
        · exact ⟨⟨e, he, hn⟩, hr⟩

theorem memcmpNe_eq (op : Op) (hok : op.codeOK) (win : List Byte) (h : op.codeSz ≤ win.length) :
    memcmpNe op.code win op.codeSz = some (decide (op.code.take op.codeSz ≠ win.take op.codeSz)) := by
  have h2 : op.codeSz ≤ op.code.length := by
    rcases hok with ⟨h1 | h1, h3⟩ <;> omega
  simp [memcmpNe, h, h2]

/-- The window is shorter than the opcode: the entry is skipped. -/
theorem getOPBody_short (op : Op) (hok : op.codeOK) (win : List Byte)
    (hlen : ¬ op.codeSz ≤ win.length) : getOPBody op win win.length = some false := by
  have : (op.codeSz = 1 ∧ win.length < 1) ∨ (op.codeSz = 2 ∧ win.length < 2) := by
    rcases hok with ⟨h1 | h1, _⟩ <;> omega
  rw [getOPBody, if_pos this]

/-- The opcode bytes differ: the entry is skipped. -/
theorem getOPBody_differ (op : Op) (hok : op.codeOK) (win : List Byte)
    (hlen : op.codeSz ≤ win.length) (hcode : win.take op.codeSz ≠ op.code.take op.codeSz) :
    getOPBody op win win.length = some false := by
  have hnot : ¬ ((op.codeSz = 1 ∧ win.length < 1) ∨ (op.codeSz = 2 ∧ win.length < 2)) := by
    omega
  have hne : op.code.take op.codeSz ≠ win.take op.codeSz := fun hc => hcode hc.symm
  rw [getOPBody, if_neg hnot, memcmpNe_eq op hok win hlen]
  simp [hne]

/-- The opcode bytes agree and the entry has no extension. -/
theorem getOPBody_plain (op : Op) (hok : op.codeOK) (win : List Byte)
    (hlen : op.codeSz ≤ win.length) (hcode : win.take op.codeSz = op.code.take op.codeSz)
    (hext : op.opExt = OPExt.NONE) :
    getOPBody op win win.length =
      some (isRValidOrNone op.description (win.length - op.codeSz)) := by
  have hnot : ¬ ((op.codeSz = 1 ∧ win.length < 1) ∨ (op.codeSz = 2 ∧ win.length < 2)) := by
    omega
  rw [getOPBody, if_neg hnot, memcmpNe_eq op hok win hlen]
  cases hv : isRValidOrNone op.description (win.length - op.codeSz) <;>
    simp [hcode, hext, hv]

/-- The opcode bytes agree and the entry has an extension, but no byte follows. -/
theorem getOPBody_ext_short (op : Op) (hok : op.codeOK) (win : List Byte)
    (hlen : op.codeSz ≤ win.length) (hcode : win.take op.codeSz = op.code.take op.codeSz)
    (hext : op.opExt ≠ OPExt.NONE) (hrem : win.length < op.codeSz + 1) :
    getOPBody op win win.length = some false := by
  have hnot : ¬ ((op.codeSz = 1 ∧ win.length < 1) ∨ (op.codeSz = 2 ∧ win.length < 2)) := by
    omega
  have hyes : op.opExt = OPExt.N ∨ op.opExt = OPExt.FPU_XY ∨ op.opExt = OPExt.FPU_11 := by
    cases hop : op.opExt <;> simp_all
  rw [getOPBody, if_neg hnot, memcmpNe_eq op hok win hlen]
  simp [hcode, hyes, hrem]

/-- The opcode bytes agree, the entry has an extension and the byte `b` follows. -/
theorem getOPBody_ext (op : Op) (hok : op.codeOK) (win : List Byte)
    (hcode : win.take op.codeSz = op.code.take op.codeSz)
    (hext : op.opExt ≠ OPExt.NONE) (b : Byte) (hb : win[op.codeSz]? = some b) :
    getOPBody op win win.length =
      some (decide ((b.val >>> 3) &&& 0b111 = op.n ∧
        (op.opExt = OPExt.FPU_XY → b.val >>> 6 ≠ 0b11) ∧
        (op.opExt = OPExt.FPU_11 → b.val >>> 6 = 0b11))) := by
  have hlt : op.codeSz < win.length := (List.getElem?_eq_some_iff.1 hb).1
  have hnot : ¬ ((op.codeSz = 1 ∧ win.length < 1) ∨ (op.codeSz = 2 ∧ win.length < 2)) := by
    omega
  have hrem : ¬ win.length < op.codeSz + 1 := by omega
  rw [getOPBody, if_neg hnot, memcmpNe_eq op hok win (Nat.le_of_lt hlt)]
  cases hop : op.opExt
  · exact absurd hop hext
  · by_cases h4 : (b.val >>> 3) &&& 7 = op.n <;> simp [hcode, hrem, hb, h4]
  · by_cases h3 : b.val >>> 6 = 3 <;> by_cases h4 : (b.val >>> 3) &&& 7 = op.n <;>
      simp [hcode, hrem, hb, h3, h4]
  · by_cases h3 : b.val >>> 6 = 3 <;> by_cases h4 : (b.val >>> 3) &&& 7 = op.n <;>
      simp [hcode, hrem, hb, h3, h4]

/-- One iteration of the matcher loop never reads outside the window, and it
accepts exactly when the three conditions hold. -/
theorem getOPBody_spec (op : Op) (hok : op.codeOK) (win : List Byte) :
    (Matches op win ∧ getOPBody op win win.length = some true) ∨
    (¬ Matches op win ∧ getOPBody op win win.length = some false) := by
  by_cases hlen : op.codeSz ≤ win.length
  swap
  · exact Or.inr ⟨fun hm => hlen hm.1.1, getOPBody_short op hok win hlen⟩
  by_cases hcode : win.take op.codeSz = op.code.take op.codeSz
  swap
  · exact Or.inr ⟨fun hm => hcode hm.1.2, getOPBody_differ op hok win hlen hcode⟩
  by_cases hext : op.opExt = OPExt.NONE
  · rw [getOPBody_plain op hok win hlen hcode hext]
    cases hv : isRValidOrNone op.description (win.length - op.codeSz)
    · right
      have := (isRValidOrNoneLoop_eq_false op.description.d (win.length - op.codeSz)).1 hv
      refine ⟨fun hm => ?_, rfl⟩
      have := hm.2.2 hext this.1
      omega
    · left
      refine ⟨⟨⟨hlen, hcode⟩, fun hc => absurd hext hc, ?_⟩, rfl⟩
      intro _ hex
      by_contra hc
      have := (isRValidOrNoneLoop_eq_false op.description.d (win.length - op.codeSz)).2
        ⟨hex, by omega⟩
      rw [isRValidOrNone, this] at hv
      cases hv
  · by_cases hrem : win.length < op.codeSz + 1
    · right
      refine ⟨fun hm => ?_, getOPBody_ext_short op hok win hlen hcode hext hrem⟩
      obtain ⟨b, hb, _⟩ := hm.2.1 hext
      have := (List.getElem?_eq_some_iff.1 hb).1
      omega
    · have hlt : op.codeSz < win.length := by omega
      have hb : win[op.codeSz]? = some (win[op.codeSz]) := List.getElem?_eq_getElem hlt
      rw [getOPBody_ext op hok win hcode hext _ hb]
      by_cases hc : ((win[op.codeSz].val >>> 3) &&& 0b111 = op.n ∧
          (op.opExt = OPExt.FPU_XY → win[op.codeSz].val >>> 6 ≠ 0b11) ∧
          (op.opExt = OPExt.FPU_11 → win[op.codeSz].val >>> 6 = 0b11))
      · left
        refine ⟨⟨⟨hlen, hcode⟩, fun _ => ⟨_, hb, hc⟩, fun h => absurd h hext⟩, ?_⟩
        rw [decide_eq_true hc]
      · right
        refine ⟨fun hm => ?_, ?_⟩
        · obtain ⟨b, hb2, hrest⟩ := hm.2.1 hext
          rw [hb] at hb2
          cases hb2
          exact hc hrest
        · rw [decide_eq_false hc]

/-- The matcher loop over any table of well-shaped entries: it never reads
outside the window and stops at the first entry that meets the conditions. -/
theorem getOPLoop_spec (tbl : List Op) (hok : ∀ op ∈ tbl, op.codeOK) (win : List Byte) :
    (∃ (i : Nat) (op : Op), tbl[i]? = some op ∧ Matches op win ∧
        (∀ (j : Nat) (o : Op), j < i → tbl[j]? = some o → ¬ Matches o win) ∧
        getOPLoop tbl win win.length = some (some op)) ∨
    ((∀ op ∈ tbl, ¬ Matches op win) ∧ getOPLoop tbl win win.length = some none) := by
  induction tbl with
  | nil => exact Or.inr ⟨fun _ h => (by cases h), rfl⟩
  | cons op rest ih =>
    have hrest : ∀ o ∈ rest, o.codeOK := fun o ho => hok o (List.mem_cons_of_mem _ ho)
    rcases getOPBody_spec op (hok op (List.mem_cons_self _ _)) win with ⟨hm, hb⟩ | ⟨hm, hb⟩
    · left
      refine ⟨0, op, by simp, hm, fun j o hj _ => absurd hj (Nat.not_lt_zero j), ?_⟩
      rw [getOPLoop, hb]
    · rcases ih hrest with ⟨i, o, hi, hmo, hmin, hres⟩ | ⟨hnone, hres⟩
      · left
        refine ⟨i + 1, o, by simpa using hi, hmo, ?_, ?_⟩
        · intro j o2 hj hj2
          cases j with
          | zero =>
            have : op = o2 := by simpa using hj2
            exact this ▸ hm
          | succ j =>
            exact hmin j o2 (by omega) (by simpa using hj2)
        · rw [getOPLoop, hb]
          exact hres
      · right
        refine ⟨?_, ?_⟩
        · intro o ho
          rcases List.mem_cons.1 ho with rfl | ho
          · exact hm
          · exact hnone o ho
        · rw [getOPLoop, hb]
          exact hres

/-- What `getOP` returns on a window is a matching entry of the table. -/
theorem getOP_some_matches (win : List Byte) (op : Op)
    (h : getOP win win.length = some (some op)) : op ∈ ops ∧ Matches op win := by
  rcases getOPLoop_spec ops ops_codeOK win with ⟨i, o, hi, hmo, _, hres⟩ | ⟨_, hres⟩
  · rw [getOP, hres] at h
    cases h
    exact ⟨(List.getElem?_eq_some_iff.1 hi).2 ▸ List.getElem_mem _, hmo⟩
  · rw [getOP, hres] at h
    cases h

/-- The matcher always returns: its reads stay inside the window. -/
theorem getOP_isSome (win : List Byte) : ∃ r, getOP win win.length = some r := by
  rcases getOPLoop_spec ops ops_codeOK win with ⟨i, o, _, _, _, hres⟩ | ⟨_, hres⟩
  · exact ⟨some o, hres⟩
  · exact ⟨none, hres⟩

/-! ## Lengths -/

theorem ops_slotsOK : ∀ op ∈ ops, op.description.slotsOK := by decide!

theorem getLenLoop_eq (ds : List D) (max : Nat) :
    getLenLoop ds max = max + (ds.map (fun d => immWidth d.type)).sum := by
  induction ds generalizing max with
  | nil => simp [getLenLoop]
  | cons d ds ih =>
    rw [getLenLoop]
    by_cases h1 : d.type = DType.DB
    · rw [if_pos h1, ih]; simp [immWidth, h1]; omega
    · rw [if_neg h1]
      by_cases h2 : d.type = DType.DW ∨ d.type = DType.DEREFBYTEATDW ∨ d.type = DType.DEREFWORDATDW
      · rw [if_pos h2, ih]; simp [immWidth, h1, h2]; omega
      · rw [if_neg h2]
        by_cases h3 : d.type = DType.DDW
        · rw [if_pos h3, ih]; simp [immWidth, h3]; omega
        · rw [if_neg h3, ih]; simp [immWidth, h1, h2, h3]

theorem immWidth_le (t : DType) : immWidth t ≤ 4 := by
  cases t <;> simp [immWidth]

theorem immSum_le (ds : List D) : (ds.map (fun d => immWidth d.type)).sum ≤ 4 * ds.length := by
  induction ds with
  | nil => simp
  | cons d ds ih =>
    have := immWidth_le d.type
    simp only [List.map_cons, List.sum_cons, List.length_cons]
    omega

theorem dispWidth_le (rm : Nat) (disp : R_Type) : (getDispMemWidth rm disp).toNat ≤ 2 := by
  cases disp <;> by_cases h : rm = 6 <;> simp [getDispMemWidth, Width.toNat, h]

theorem rmLen_bounds (b : Byte) : 1 ≤ rmLen b ∧ rmLen b ≤ 3 := by
  have := dispWidth_le (b.val &&& 0b111) (R_Type.cast (b.val >>> 6))
  unfold rmLen
  omega

/-- The addressing length is at most three bytes. -/
theorem getRMOffsetLoop_le (ds : List D) (decode : List Byte) (k : Nat)
    (h : getRMOffsetLoop ds decode = some k) : k ≤ 3 := by
  induction ds with
  | nil => simp [getRMOffsetLoop] at h; omega
  | cons d ds ih =>
    rw [getRMOffsetLoop] at h
    by_cases h1 : isRMType d.type = true
    · rw [if_pos h1] at h
      cases hb : decode[0]? with
      | none => simp [hb] at h
      | some b =>
        simp [hb] at h
        have := (rmLen_bounds b).2
        unfold rmLen at this
        simp at this
        omega
    · rw [if_neg h1] at h
      by_cases h2 : d.type = DType.ST ∨ d.type = DType.STREG
      · rw [if_pos h2] at h
        cases h
        omega
      · rw [if_neg h2] at h
        exact ih h

/-- With a register-or-memory slot in an ordered description the addressing
length is the one announced by the addressing byte. -/
theorem getRMOffsetLoop_rm (ds : List D) (decode : List Byte)
    (hord : addrSlotsOrdered ds = true) (hex : ∃ d ∈ ds, isRMType d.type = true) :
    getRMOffsetLoop ds decode = (decode[0]?).bind (fun b => some (rmLen b)) := by
  induction ds with
  | nil => obtain ⟨d, hd, _⟩ := hex; cases hd
  | cons d ds ih =>
    rw [getRMOffsetLoop]
    by_cases h1 : isRMType d.type = true
    · rw [if_pos h1]
      rfl
    · rw [if_neg h1]
      rw [addrSlotsOrdered, if_neg h1] at hord
      obtain ⟨e, he, hrm⟩ := hex
      have hmem : e ∈ ds := by
        rcases List.mem_cons.1 he with rfl | he
        · exact absurd hrm h1
        · exact he
      by_cases h2 : d.type = DType.ST ∨ d.type = DType.STREG
      · rw [if_pos h2] at hord
        have := List.all_eq_true.1 hord e hmem
        simp [hrm] at this
      · rw [if_neg h2] at hord
        rw [if_neg h2]
        exact ih hord ⟨e, hmem, hrm⟩

/-- Without a register-or-memory slot `getRMOffset` reads nothing. -/
theorem getRMOffsetLoop_noRM (ds : List D) (decode : List Byte)
    (hno : ∀ d ∈ ds, isRMType d.type = false) :
    ∃ k, getRMOffsetLoop ds decode = some k ∧
      ((∃ d ∈ ds, d.type = DType.ST ∨ d.type = DType.STREG) → k = 1) := by
  induction ds with
  | nil => exact ⟨0, rfl, fun ⟨d, hd, _⟩ => by cases hd⟩
  | cons d ds ih =>
    have h1 : ¬ isRMType d.type = true := by
      rw [hno d (List.mem_cons_self _ _)]; simp
    rw [getRMOffsetLoop, if_neg h1]
    by_cases h2 : d.type = DType.ST ∨ d.type = DType.STREG
    · rw [if_pos h2]
      exact ⟨1, rfl, fun _ => rfl⟩
    · rw [if_neg h2]
      obtain ⟨k, hk, hk1⟩ := ih (fun e he => hno e (List.mem_cons_of_mem _ he))
      refine ⟨k, hk, ?_⟩
      rintro ⟨e, he, hst⟩
      rcases List.mem_cons.1 he with rfl | he
      · exact absurd hst h2
      · exact hk1 ⟨e, he, hst⟩

/-! ## Rendering never reads outside the buffer -/

theorem lookup_some (l : List String) (r : Nat) (h : r < l.length) : ∃ nm, l[r]? = some nm :=
  ⟨l[r], List.getElem?_eq_getElem h⟩

theorem and7_lt (x : Nat) : x &&& 0b111 < 8 :=
  Nat.lt_succ_of_le Nat.and_le_right

theorem rdSome (l : List Byte) (i : Nat) (h : i < l.length) : ∃ b, l[i]? = some b :=
  ⟨l[i], List.getElem?_eq_getElem h⟩

theorem printRM_some (cDecode : List Byte) (rm : Nat) (w : Width) (disp : R_Type) (line : Line)
    (hrm : rm < 8) (hlen : (getDispMemWidth rm disp).toNat ≤ cDecode.length) :
    ∃ l, printRM cDecode rm w disp line = some l := by
  obtain ⟨n1, hn1⟩ := lookup_some rb rm (by simpa [rb] using hrm)
  obtain ⟨n2, hn2⟩ := lookup_some rw rm (by simpa [rw] using hrm)
  obtain ⟨n3, hn3⟩ := lookup_some modNames rm (by simpa [modNames] using hrm)
  unfold printRM
  by_cases h1 : disp = R_Type.NODISP ∧ rm = 0b110
  · rw [if_pos h1]
    obtain ⟨hd, hr⟩ := h1
    subst hd
    have h2 : 2 ≤ cDecode.length := by simpa [getDispMemWidth, hr, Width.toNat] using hlen
    obtain ⟨b0, e0⟩ := rdSome cDecode 0 (by omega)
    obtain ⟨b1, e1⟩ := rdSome cDecode 1 (by omega)
    simp [e0, e1]
  · rw [if_neg h1]
    by_cases h2 : disp = R_Type.REG
    · rw [if_pos h2]
      by_cases h3 : w = Width.BYTE
      · rw [if_pos h3]; simp [hn1]
      · rw [if_neg h3]; simp [hn2]
    · rw [if_neg h2]
      cases disp with
      | REG => exact absurd rfl h2
      | NODISP =>
        have hr : ¬ rm = 6 := fun hc => h1 ⟨rfl, hc⟩
        simp [hn3, getDispMemWidth, hr]
      | DISP8 =>
        have h2 : 1 ≤ cDecode.length := by simpa [getDispMemWidth, Width.toNat] using hlen
        obtain ⟨b0, e0⟩ := rdSome cDecode 0 (by omega)
        simp [hn3, getDispMemWidth, e0]
      | DISP16 =>
        have h2 : 2 ≤ cDecode.length := by simpa [getDispMemWidth, Width.toNat] using hlen
        obtain ⟨b0, e0⟩ := rdSome cDecode 0 (by omega)
        obtain ⟨b1, e1⟩ := rdSome cDecode 1 (by omega)
        simp [hn3, getDispMemWidth, e0, e1]

theorem printRMSlot_some (decode : List Byte) (w : Width) (line : Line)
    (h1 : 1 ≤ decode.length)
    (hrm : ∀ b, decode[0]? = some b → rmLen b ≤ decode.length) :
    ∃ l, printRMSlot decode w line = some l := by
  obtain ⟨b, e0⟩ := rdSome decode 0 (by omega)
  have hb := hrm _ e0
  have hlen : (getDispMemWidth (b.val &&& 0b111) (R_Type.cast (b.val >>> 6))).toNat
      ≤ (decode.drop 1).length := by
    unfold rmLen at hb
    simp only [List.length_drop]
    omega
  obtain ⟨l, hl⟩ := printRM_some (decode.drop 1) (b.val &&& 0b111) w
    (R_Type.cast (b.val >>> 6)) line (and7_lt _) hlen
  refine ⟨l, ?_⟩
  rw [printRMSlot, e0]
  exact hl

theorem printSlot_some (d : D) (decode : List Byte) (offset : Nat) (line : Line)
    (h0 : readsByte0 d.type = true → 1 ≤ decode.length)
    (hrm : isRMType d.type = true → ∀ b, decode[0]? = some b → rmLen b ≤ decode.length)
    (himm : offset + immWidth d.type ≤ decode.length)
    (hnum : d.numOK) :
    ∃ l, printSlot d decode offset line = some (offset + immWidth d.type, l) := by
  obtain ⟨t, num⟩ := d
  cases t
  case RMB =>
    obtain ⟨l, hl⟩ := printRMSlot_some decode Width.BYTE line (h0 rfl) (hrm rfl)
    exact ⟨l, by simp [printSlot, hl, immWidth]⟩
  case RMW =>
    obtain ⟨l, hl⟩ := printRMSlot_some decode Width.WORD line (h0 rfl) (hrm rfl)
    exact ⟨l, by simp [printSlot, hl, immWidth]⟩
  case RMDW =>
    obtain ⟨l, hl⟩ := printRMSlot_some decode Width.DWORD line (h0 rfl) (hrm rfl)
    exact ⟨l, by simp [printSlot, hl, immWidth]⟩
  case RMQW =>
    obtain ⟨l, hl⟩ := printRMSlot_some decode Width.QWORD line (h0 rfl) (hrm rfl)
    exact ⟨l, by simp [printSlot, hl, immWidth]⟩
  case MEM =>
    obtain ⟨l, hl⟩ := printRMSlot_some decode Width.NONE line (h0 rfl) (hrm rfl)
    exact ⟨l, by simp [printSlot, hl, immWidth]⟩
  case DB =>
    have hi : offset + 1 ≤ decode.length := by simpa [immWidth] using himm
    obtain ⟨b0, e0⟩ := rdSome decode offset (by omega)
    simp [printSlot, immWidth, e0]
  case DW =>
    have hi : offset + 2 ≤ decode.length := by simpa [immWidth] using himm
    obtain ⟨b0, e0⟩ := rdSome decode offset (by omega)
    obtain ⟨b1, e1⟩ := rdSome decode (offset + 1) (by omega)
    simp [printSlot, immWidth, e0, e1]
  case DEREFBYTEATDW =>
    have hi : offset + 2 ≤ decode.length := by simpa [immWidth] using himm
    obtain ⟨b0, e0⟩ := rdSome decode offset (by omega)
    obtain ⟨b1, e1⟩ := rdSome decode (offset + 1) (by omega)
    simp [printSlot, immWidth, e0, e1]
  case DEREFWORDATDW =>
    have hi : offset + 2 ≤ decode.length := by simpa [immWidth] using himm
    obtain ⟨b0, e0⟩ := rdSome decode offset (by omega)
    obtain ⟨b1, e1⟩ := rdSome decode (offset + 1) (by omega)
    simp [printSlot, immWidth, e0, e1]
  case DDW =>
    have hi : offset + 4 ≤ decode.length := by simpa [immWidth] using himm
    obtain ⟨b0, e0⟩ := rdSome decode offset (by omega)
    obtain ⟨b1, e1⟩ := rdSome decode (offset + 1) (by omega)
    obtain ⟨b2, e2⟩ := rdSome decode (offset + 2) (by omega)
    obtain ⟨b3, e3⟩ := rdSome decode (offset + 3) (by omega)
    simp [printSlot, immWidth, e0, e1, e2, e3]
  case RB =>
    obtain ⟨b0, e0⟩ := rdSome decode 0 (h0 rfl)
    obtain ⟨nm, hnm⟩ := lookup_some rb ((b0.val >>> 3) &&& 0b111)
      (by simpa [rb] using and7_lt _)
    simp [printSlot, immWidth, e0, hnm]
  case RW =>
    obtain ⟨b0, e0⟩ := rdSome decode 0 (h0 rfl)
    obtain ⟨nm, hnm⟩ := lookup_some rw ((b0.val >>> 3) &&& 0b111)
      (by simpa [rw] using and7_lt _)
    simp [printSlot, immWidth, e0, hnm]
  case SEG =>
    obtain ⟨b0, e0⟩ := rdSome decode 0 (h0 rfl)
    by_cases hs : (b0.val >>> 3) &&& 0b111 < Segment.END
    · obtain ⟨nm, hnm⟩ := lookup_some segments ((b0.val >>> 3) &&& 0b111)
        (by simpa [segments, Segment.END] using hs)
      simp [printSlot, immWidth, e0, hnm, hs]
    · simp [printSlot, immWidth, e0, hs]
  case CSEG =>
    obtain ⟨nm, hnm⟩ := lookup_some segments num (by simpa [segments] using hnum.2.2 rfl)
    simp [printSlot, immWidth, hnm]
  case REGB =>
    obtain ⟨nm, hnm⟩ := lookup_some rb num (by simpa [rb] using hnum.1 rfl)
    simp [printSlot, immWidth, hnm]
  case REGW =>
    obtain ⟨nm, hnm⟩ := lookup_some rw num (by simpa [rw] using hnum.2.1 rfl)
    simp [printSlot, immWidth, hnm]
  case STREG =>
    obtain ⟨b0, e0⟩ := rdSome decode 0 (h0 rfl)
    simp [printSlot, immWidth, e0]
  all_goals simp [printSlot, immWidth]

theorem printDescriptionLoop_some (ds : List D) (decode : List Byte) (offset : Nat)
    (first : Bool) (line : Line)
    (h0 : ∀ d ∈ ds, readsByte0 d.type = true → 1 ≤ decode.length)
    (hrm : ∀ d ∈ ds, isRMType d.type = true → ∀ b, decode[0]? = some b → rmLen b ≤ decode.length)
    (himm : getLenLoop ds offset ≤ decode.length)
    (hnum : ∀ d ∈ ds, d.numOK) :
    ∃ l, printDescriptionLoop ds decode offset first line = some (getLenLoop ds offset, l) := by
  induction ds generalizing offset first line with
  | nil => exact ⟨line, rfl⟩
  | cons d ds ih =>
    have hstep : getLenLoop (d :: ds) offset = getLenLoop ds (offset + immWidth d.type) := by
      rw [getLenLoop_eq, getLenLoop_eq]
      simp only [List.map_cons, List.sum_cons]
      omega
    rw [hstep] at himm ⊢
    have h0r : ∀ e ∈ ds, readsByte0 e.type = true → 1 ≤ decode.length :=
      fun e he => h0 e (List.mem_cons_of_mem _ he)
    have hrmr : ∀ e ∈ ds, isRMType e.type = true →
        ∀ b, decode[0]? = some b → rmLen b ≤ decode.length :=
      fun e he => hrm e (List.mem_cons_of_mem _ he)
    have hnumr : ∀ e ∈ ds, e.numOK := fun e he => hnum e (List.mem_cons_of_mem _ he)
    rw [printDescriptionLoop]
    by_cases hn : d.type = DType.NONE
    · rw [if_pos hn]
      have : immWidth d.type = 0 := by rw [hn]; rfl
      rw [this] at himm ⊢
      exact ih offset first line h0r hrmr himm hnumr
    · rw [if_neg hn]
      have hle : offset + immWidth d.type ≤ decode.length := by
        have := getLenLoop_eq ds (offset + immWidth d.type)
        omega
      obtain ⟨l, hl⟩ := printSlot_some d decode offset
        (if first = true then line.appendStr " " else line.appendStr ", ")
        (h0 d (List.mem_cons_self _ _)) (hrm d (List.mem_cons_self _ _)) hle
        (hnum d (List.mem_cons_self _ _))
      obtain ⟨l2, hl2⟩ := ih (offset + immWidth d.type) false l h0r hrmr himm hnumr
      exact ⟨l2, by simp [hl, hl2]⟩

/-! ## The raw byte loops of `printOP` -/

theorem drop_take_succ (decode : List Byte) (n k : Nat) (b : Byte) (hb : decode[n]? = some b) :
    (decode.drop n).take (k + 1) = b :: (decode.drop (n + 1)).take k := by
  obtain ⟨hn, hv⟩ := List.getElem?_eq_some_iff.1 hb
  rw [List.drop_eq_getElem_cons hn, List.take_succ_cons, hv]

theorem printRawLoop_eq (decode : List Byte) (decodeOffset k i : Nat) (line : Line)
    (h : decodeOffset + i + k ≤ decode.length) :
    printRawLoop decode decodeOffset k i line =
      some (rawField ((decode.drop (decodeOffset + i)).take k) line) := by
  induction k generalizing i line with
  | zero => simp [printRawLoop, rawField]
  | succ k ih =>
    obtain ⟨b, hb⟩ := rdSome decode (decodeOffset + i) (by omega)
    rw [printRawLoop, hb, drop_take_succ decode _ k b hb]
    simp only [Option.bind_eq_bind, Option.some_bind]
    rw [ih (i + 1) _ (by omega)]
    rfl

theorem printDBLoop_eq (decode : List Byte) (decodeOffset k i : Nat) (line : Line)
    (h : decodeOffset + i + k ≤ decode.length) :
    printDBLoop decode decodeOffset k i line =
      some (dbField ((decode.drop (decodeOffset + i)).take k) line) := by
  induction k generalizing i line with
  | zero => simp [printDBLoop, dbField]
  | succ k ih =>
    obtain ⟨b, hb⟩ := rdSome decode (decodeOffset + i) (by omega)
    rw [printDBLoop, hb, drop_take_succ decode _ k b hb]
    simp only [Option.bind_eq_bind, Option.some_bind]
    rw [ih (i + 1) _ (by omega)]
    rfl

/-! ## The length of a matched instruction -/

theorem isRMType_needs (t : DType) (h : isRMType t = true) : needsAddressingByte t := by
  cases t <;> simp [isRMType, needsAddressingByte] at h ⊢

theorem readsByte0_cases (t : DType) (h : readsByte0 t = true) :
    needsAddressingByte t ∨ t = DType.STREG := by
  cases t <;> simp [readsByte0, isRMType, needsAddressingByte] at h ⊢

/-- A matched descriptor with an extension, or with a slot that needs the
addressing byte, has a byte after its opcode. -/
theorem Matches.byte_after {op : Op} {win : List Byte} (hm : Matches op win)
    (h : op.opExt ≠ OPExt.NONE ∨ ∃ d ∈ op.description.d, needsAddressingByte d.type) :
    op.codeSz + 1 ≤ win.length := by
  by_cases hext : op.opExt = OPExt.NONE
  · rcases h with h | h
    · exact absurd hext h
    · exact hm.2.2 hext h
  · obtain ⟨b, hb, _⟩ := hm.2.1 hext
    have := (List.getElem?_eq_some_iff.1 hb).1
    omega

/-- The length pass on the bytes after a matched opcode: it reads inside the
buffer, and its parts are bounded. -/
theorem getLen_matched (op : Op) (win : List Byte) (hok : op.description.slotsOK)
    (hm : Matches op win) :
    ∃ k len, getRMOffset op.description (win.drop op.codeSz) = some k ∧
      getLen op.description (win.drop op.codeSz) = some len ∧
      len = getLenLoop op.description.d k ∧ k ≤ len ∧ len ≤ 15 ∧
      ((∃ d ∈ op.description.d, isRMType d.type = true) →
        ∃ b, (win.drop op.codeSz)[0]? = some b ∧ rmLen b = k) ∧
      ((∃ d ∈ op.description.d, d.type = DType.STREG) → 1 ≤ k) := by
  obtain ⟨h3, hord, _⟩ := hok
  have key : ∃ k, getRMOffsetLoop op.description.d (win.drop op.codeSz) = some k ∧
      ((∃ d ∈ op.description.d, isRMType d.type = true) →
        ∃ b, (win.drop op.codeSz)[0]? = some b ∧ rmLen b = k) ∧
      ((∃ d ∈ op.description.d, d.type = DType.STREG) → 1 ≤ k) := by
    by_cases hex : ∃ d ∈ op.description.d, isRMType d.type = true
    · have hbyte : op.codeSz + 1 ≤ win.length := by
        obtain ⟨d, hd, hrm⟩ := hex
        exact hm.byte_after (Or.inr ⟨d, hd, isRMType_needs _ hrm⟩)
      obtain ⟨b, hb⟩ := rdSome (win.drop op.codeSz) 0 (by simp only [List.length_drop]; omega)
      refine ⟨rmLen b, ?_, fun _ => ⟨b, hb, rfl⟩, fun _ => (rmLen_bounds b).1⟩
      rw [getRMOffsetLoop_rm _ _ hord hex, hb]
      rfl
    · have hno : ∀ d ∈ op.description.d, isRMType d.type = false := by
        intro d hd
        by_contra hc
        exact hex ⟨d, hd, by simpa using hc⟩
      obtain ⟨k, hk, hk1⟩ := getRMOffsetLoop_noRM op.description.d (win.drop op.codeSz) hno
      refine ⟨k, hk, fun h => absurd h hex, ?_⟩
      rintro ⟨d, hd, hst⟩
      have := hk1 ⟨d, hd, Or.inr hst⟩
      omega
  obtain ⟨k, hk, hk1, hk2⟩ := key
  have hk3 := getRMOffsetLoop_le _ _ _ hk
  have hsum := immSum_le op.description.d
  have heq := getLenLoop_eq op.description.d k
  refine ⟨k, getLenLoop op.description.d k, hk, ?_, rfl, by omega, by omega, hk1, hk2⟩
  rw [getLen, getRMOffset, hk]
  rfl

/-! ## One step of the sweep -/

theorem printOP_fit (decode : List Byte) (decodeOffset execOffset : Nat) (op : Op)
    (line : Line) (len : Nat) (hlt : decode.length < 2 ^ 32)
    (hcs : decodeOffset + op.codeSz ≤ decode.length)
    (hlen : getLen op.description (decode.drop (decodeOffset + op.codeSz)) = some len)
    (hfit : len ≤ decode.length - decodeOffset - op.codeSz) :
    printOP decode decodeOffset execOffset op line =
      (printDescription op.description (decode.drop (decodeOffset + op.codeSz))
        (headerLine decode decodeOffset execOffset op len line)).bind
        (fun l => some (decodeOffset + len + op.codeSz, l)) := by
  have hmod : (decodeOffset + op.codeSz) % 2 ^ 32 = decodeOffset + op.codeSz :=
    Nat.mod_eq_of_lt (by omega)
  have hnot : ¬ len > decode.length - (decodeOffset + op.codeSz) := by omega
  have hraw := printRawLoop_eq decode decodeOffset (len + op.codeSz) 0
    ((line.appendNum ⟨(execOffset + decodeOffset) % 2 ^ 32, NumType.HEX4⟩).appendStr ":  ")
    (by omega)
  rw [printOP, hmod, hlen]
  simp only [Option.bind_eq_bind, Option.some_bind, if_neg hnot, hraw]
  rfl

theorem printOP_overrun (decode : List Byte) (decodeOffset execOffset : Nat) (op : Op)
    (line : Line) (len : Nat) (hlt : decode.length < 2 ^ 32)
    (hoff : decodeOffset < decode.length)
    (hcs : decodeOffset + op.codeSz ≤ decode.length)
    (hlen : getLen op.description (decode.drop (decodeOffset + op.codeSz)) = some len)
    (hover : decode.length - decodeOffset - op.codeSz < len) :
    printOP decode decodeOffset execOffset op line =
      some (decodeOffset + len,
        overrunLine decode decodeOffset execOffset (decode.length - decodeOffset - op.codeSz)
          line) := by
  have hmod : (decodeOffset + op.codeSz) % 2 ^ 32 = decodeOffset + op.codeSz :=
    Nat.mod_eq_of_lt (by omega)
  have hrem : decode.length - (decodeOffset + op.codeSz) =
      decode.length - decodeOffset - op.codeSz := by omega
  have hyes : len > decode.length - decodeOffset - op.codeSz := hover
  obtain ⟨b, hb⟩ := rdSome decode decodeOffset hoff
  have hraw := printRawLoop_eq decode decodeOffset (decode.length - decodeOffset - op.codeSz) 0
    ((line.appendNum ⟨(execOffset + decodeOffset) % 2 ^ 32, NumType.HEX4⟩).appendStr ":  ")
    (by omega)
  rw [printOP, hmod, hlen, hrem]
  simp only [Option.bind_eq_bind, Option.some_bind, if_pos hyes, hraw, Nat.add_zero, hb]
  by_cases h0 : decode.length - decodeOffset - op.codeSz = 0
  · simp [h0, printDBLoop, overrunLine, hb, dbField, rawField]
  · have hdb := fun l => printDBLoop_eq decode decodeOffset
      (decode.length - decodeOffset - op.codeSz - 1) 1 l (by omega)
    simp [h0, hdb, overrunLine, hb]

theorem decStep_matched (decode : List Byte) (execOffset decodeOffset : Nat) (op : Op)
    (h : getOP (decode.drop decodeOffset) (decode.length - decodeOffset) = some (some op)) :
    decStep decode execOffset decodeOffset =
      (printOP decode decodeOffset execOffset op Line.empty).bind
        (fun r => some (r.2, r.1 % 2 ^ 32)) := by
  rw [decStep, h]
  rfl

/-- What a matched step does: the length pass succeeds, and the step is either
a full decoded line or an overrun line. -/
theorem decStep_of_match (decode : List Byte) (execOffset decodeOffset : Nat) (op : Op)
    (hlt : decode.length < 2 ^ 32) (hoff : decodeOffset < decode.length)
    (h : getOP (decode.drop decodeOffset) (decode.length - decodeOffset) = some (some op)) :
    ∃ len, getLen op.description (decode.drop (decodeOffset + op.codeSz)) = some len ∧
      1 ≤ op.codeSz ∧ decodeOffset + op.codeSz ≤ decode.length ∧ len ≤ 15 ∧
      ((len ≤ decode.length - decodeOffset - op.codeSz ∧
        ∃ l, printDescription op.description (decode.drop (decodeOffset + op.codeSz))
            (headerLine decode decodeOffset execOffset op len Line.empty) = some l ∧
          decStep decode execOffset decodeOffset = some (l, decodeOffset + len + op.codeSz)) ∨
       (decode.length - decodeOffset - op.codeSz < len ∧
        decStep decode execOffset decodeOffset =
          some (overrunLine decode decodeOffset execOffset
            (decode.length - decodeOffset - op.codeSz) Line.empty,
            (decodeOffset + len) % 2 ^ 32))) := by
  have hwin : (decode.drop decodeOffset).length = decode.length - decodeOffset :=
    List.length_drop _ _
  have h2 := h
  rw [← hwin] at h2
  obtain ⟨hmem, hm⟩ := getOP_some_matches _ _ h2
  have hcode := ops_codeOK op hmem
  have hslots := ops_slotsOK op hmem
  obtain ⟨k, len, hk, hlen, hleq, hkle, hl15, hrm, hst⟩ := getLen_matched op _ hslots hm
  rw [List.drop_drop] at hk hlen hrm
  have hcs : decodeOffset + op.codeSz ≤ decode.length := by
    have := hm.1.1
    omega
  have h1 : 1 ≤ op.codeSz := by
    rcases hcode with ⟨h1 | h1, _⟩ <;> omega
  have hafter : (decode.drop (decodeOffset + op.codeSz)).length =
      decode.length - decodeOffset - op.codeSz := by
    rw [List.length_drop]; omega
  refine ⟨len, hlen, h1, hcs, hl15, ?_⟩
  by_cases hfit : len ≤ decode.length - decodeOffset - op.codeSz
  · left
    refine ⟨hfit, ?_⟩
    -- the operands are rendered inside the buffer
    have hbyte : (∃ d ∈ op.description.d, readsByte0 d.type = true) →
        1 ≤ (decode.drop (decodeOffset + op.codeSz)).length := by
      rintro ⟨d, hd, hr⟩
      rcases readsByte0_cases _ hr with hn | hs
      · have := hm.byte_after (Or.inr ⟨d, hd, hn⟩)
        omega
      · have := hst ⟨d, hd, hs⟩
        omega
    obtain ⟨l, hl⟩ := printDescriptionLoop_some op.description.d
      (decode.drop (decodeOffset + op.codeSz)) k true
      (headerLine decode decodeOffset execOffset op len Line.empty)
      (fun d hd hr => hbyte ⟨d, hd, hr⟩)
      (fun d hd hr b hb => by
        obtain ⟨b2, hb2, hk2⟩ := hrm ⟨d, hd, hr⟩
        rw [hb] at hb2
        cases hb2
        omega)
      (by omega) hslots.2.2
    have hpd : printDescription op.description (decode.drop (decodeOffset + op.codeSz))
        (headerLine decode decodeOffset execOffset op len Line.empty) = some l := by
      rw [printDescription, hk]
      simp only [Option.bind_eq_bind, Option.some_bind, hl]
    refine ⟨l, hpd, ?_⟩
    rw [decStep_matched _ _ _ _ h, printOP_fit _ _ _ _ _ len hlt hcs hlen hfit, hpd]
    simp only [Option.some_bind]
    rw [Nat.mod_eq_of_lt (by omega)]
  · right
    refine ⟨by omega, ?_⟩
    rw [decStep_matched _ _ _ _ h,
      printOP_overrun _ _ _ _ _ len hlt hoff hcs hlen (by omega)]
    simp only [Option.some_bind]

/-! ## Formatting and the line buffer -/

theorem hexFixed_length (w v : Nat) : (hexFixed w v).length = w := by
  induction w generalizing v with
  | zero => rfl
  | succ w ih => simp [hexFixed, ih]

theorem hexWidth_le (fuel w v : Nat) (hw : 1 ≤ w) (hv : v < 16 ^ w) : hexWidth fuel v ≤ w := by
  induction fuel generalizing w v with
  | zero => exact hw
  | succ fuel ih =>
    rw [hexWidth]
    by_cases h : v < 16
    · rw [if_pos h]; exact hw
    · rw [if_neg h]
      obtain ⟨u, rfl⟩ : ∃ u, w = u + 1 := ⟨w - 1, by omega⟩
      have hu : 1 ≤ u := by
        rcases Nat.eq_zero_or_pos u with h0 | h0
        · subst h0; simp at hv; omega
        · exact h0
      have hdiv : v / 16 < 16 ^ u := by
        rw [Nat.div_lt_iff_lt_mul (by norm_num)]
        rw [pow_succ] at hv
        exact hv
      have := ih u (v / 16) hu hdiv
      omega

/-- A value that fits `w` hexadecimal digits is printed with exactly `w` digits. -/
theorem fmtHex_eq (w v : Nat) (hw : 1 ≤ w) (hv : v < 16 ^ w) : fmtHex w v = hexFixed w v := by
  rw [fmtHex, Nat.max_eq_left (hexWidth_le 8 w v hw hv)]

theorem fmtHex_length (w v : Nat) (hw : 1 ≤ w) (hv : v < 16 ^ w) : (fmtHex w v).length = w := by
  rw [fmtHex_eq w v hw hv, hexFixed_length]

theorem fmtHex2_byte (b : Byte) : (fmtHex 2 b.val).length = 2 :=
  fmtHex_length 2 b.val (by norm_num) (by have := b.isLt; omega)

theorem fmtHex8_byte (b : Byte) : (fmtHex 8 b.val).length = 8 :=
  fmtHex_length 8 b.val (by norm_num) (by have := b.isLt; omega)

theorem fmtHex8_mod (v : Nat) : (fmtHex 8 (v % 2 ^ 32)).length = 8 :=
  fmtHex_length 8 _ (by norm_num) (by
    have : v % 2 ^ 32 < 2 ^ 32 := Nat.mod_lt _ (by norm_num)
    have h : (16 : Nat) ^ 8 = 2 ^ 32 := by norm_num
    omega)

theorem Line.appendChars_eq (line : Line) (s : List Char)
    (h : line.text.length + s.length ≤ 256) : line.appendChars s = ⟨line.text ++ s⟩ := by
  have : min s.length (256 - line.text.length) = s.length := Nat.min_eq_left (by omega)
  simp only [Line.appendChars, Line.len, this, List.take_length]

theorem Line.appendStr_eq (line : Line) (s : String)
    (h : line.text.length + s.toList.length ≤ 256) :
    line.appendStr s = ⟨line.text ++ s.toList⟩ :=
  Line.appendChars_eq line s.toList h

theorem Line.appendNum_eq (line : Line) (num : Num)
    (h : line.text.length + num.format.length ≤ 256) :
    line.appendNum num = ⟨line.text ++ num.format⟩ :=
  Line.appendChars_eq line num.format h

theorem Line.appendPad_eq (line : Line) (i : Nat) (h1 : line.text.length < i) (h2 : i < 256) :
    line.appendPad i = ⟨line.text ++ List.replicate (i - line.text.length) ' '⟩ := by
  simp [Line.appendPad, Line.len, h1, h2]

theorem format_HEX4 (v : Nat) : (Num.mk v NumType.HEX4).format = "0x".toList ++ fmtHex 8 v := rfl
theorem format_HEX2 (v : Nat) : (Num.mk v NumType.HEX2).format = "0x".toList ++ fmtHex 4 v := rfl
theorem format_HEX1 (v : Nat) : (Num.mk v NumType.HEX1).format = "0x".toList ++ fmtHex 2 v := rfl
theorem format_HEX1_NO_DECORATION (v : Nat) :
    (Num.mk v NumType.HEX1_NO_DECORATION).format = fmtHex 2 v := rfl

/-! ## The fallback branches of `dec` -/

theorem dbLine_eq (b : Byte) :
    ((((((Line.empty.appendNum ⟨b.val, .HEX4⟩).appendStr ":  ").appendNum
        ⟨b.val, .HEX1_NO_DECORATION⟩).appendStr " ; ").appendPad 36).appendStr "DB "
        |>.appendNum ⟨b.val, .HEX1⟩) = ⟨dbLineText b⟩ := by
  have h2 := fmtHex2_byte b
  have h8 := fmtHex8_byte b
  simp [Line.empty, Line.appendNum_eq, Line.appendStr_eq, Line.appendPad_eq, dbLineText,
    format_HEX4, format_HEX1_NO_DECORATION, format_HEX1, h8, h2]

theorem fpuLine0_eq (op1 op2 : Byte) :
    (((((((Line.empty.appendNum ⟨op1.val, .HEX4⟩).appendStr ":  ").appendNum
        ⟨op1.val, .HEX1_NO_DECORATION⟩).appendStr " ").appendNum
        ⟨op2.val, .HEX1_NO_DECORATION⟩).appendStr " ; ").appendPad 36).appendStr "FPU RESERVED"
      = ⟨fpuLineText op1 op2 []⟩ := by
  have h2 := fmtHex2_byte op1
  have h8 := fmtHex8_byte op1
  have h2b := fmtHex2_byte op2
  simp [Line.empty, Line.appendNum_eq, Line.appendStr_eq, Line.appendPad_eq, fpuLineText,
    format_HEX4, format_HEX1_NO_DECORATION, h8, h2, h2b]

theorem fpuLine1_eq (op1 op2 d1 : Byte) :
    (((((((((Line.empty.appendNum ⟨op1.val, .HEX4⟩).appendStr ":  ").appendNum
        ⟨op1.val, .HEX1_NO_DECORATION⟩).appendStr " ").appendNum
        ⟨op2.val, .HEX1_NO_DECORATION⟩).appendStr " ").appendNum
        ⟨d1.val, .HEX1_NO_DECORATION⟩).appendStr " ; ").appendPad 36).appendStr "FPU RESERVED"
      = ⟨fpuLineText op1 op2 [d1]⟩ := by
  have h2 := fmtHex2_byte op1
  have h8 := fmtHex8_byte op1
  have h2b := fmtHex2_byte op2
  have h2c := fmtHex2_byte d1
  simp [Line.empty, Line.appendNum_eq, Line.appendStr_eq, Line.appendPad_eq, fpuLineText,
    format_HEX4, format_HEX1_NO_DECORATION, h8, h2, h2b, h2c]

theorem fpuLine2_eq (op1 op2 d1 d2 : Byte) :
    (((((((((((Line.empty.appendNum ⟨op1.val, .HEX4⟩).appendStr ":  ").appendNum
        ⟨op1.val, .HEX1_NO_DECORATION⟩).appendStr " ").appendNum
        ⟨op2.val, .HEX1_NO_DECORATION⟩).appendStr " ").appendNum
        ⟨d1.val, .HEX1_NO_DECORATION⟩).appendStr " ").appendNum
        ⟨d2.val, .HEX1_NO_DECORATION⟩).appendStr " ; ").appendPad 36).appendStr "FPU RESERVED"
      = ⟨fpuLineText op1 op2 [d1, d2]⟩ := by
  have h2 := fmtHex2_byte op1
  have h8 := fmtHex8_byte op1
  have h2b := fmtHex2_byte op2
  have h2c := fmtHex2_byte d1
  have h2d := fmtHex2_byte d2
  simp [Line.empty, Line.appendNum_eq, Line.appendStr_eq, Line.appendPad_eq, fpuLineText,
    format_HEX4, format_HEX1_NO_DECORATION, h8, h2, h2b, h2c, h2d]

/-- The single byte fallback step. -/
theorem decStep_db (decode : List Byte) (execOffset decodeOffset : Nat) (op1 : Byte)
    (hlt : decode.length < 2 ^ 32)
    (hnone : getOP (decode.drop decodeOffset) (decode.length - decodeOffset) = some none)
    (hb : decode[decodeOffset]? = some op1)
    (hnot : ¬ (decode.length - decodeOffset ≥ 2 ∧ op1.val ≥ 0xD8 ∧ op1.val ≤ 0xDF)) :
    decStep decode execOffset decodeOffset = some (⟨dbLineText op1⟩, decodeOffset + 1) := by
  have hoff := (List.getElem?_eq_some_iff.1 hb).1
  rw [decStep, hnone]
  simp only [Option.bind_eq_bind, Option.some_bind, hb, if_neg hnot]
  rw [dbLine_eq, Nat.mod_eq_of_lt (by omega)]

/-- The FPU fallback step. -/
theorem decStep_fpu (decode : List Byte) (execOffset decodeOffset : Nat) (op1 op2 : Byte)
    (hlt : decode.length < 2 ^ 32)
    (hnone : getOP (decode.drop decodeOffset) (decode.length - decodeOffset) = some none)
    (hb : decode[decodeOffset]? = some op1)
    (hb2 : decode[decodeOffset + 1]? = some op2)
    (hfpu : op1.val ≥ 0xD8 ∧ op1.val ≤ 0xDF) :
    decStep decode execOffset decodeOffset =
      some (⟨fpuLineText op1 op2 ((decode.drop (decodeOffset + 2)).take
          (fpuExtra op2 (decode.length - decodeOffset)))⟩,
        decodeOffset + 2 + fpuExtra op2 (decode.length - decodeOffset)) ∧
      decodeOffset + 2 + fpuExtra op2 (decode.length - decodeOffset) ≤ decode.length := by
  have hoff := (List.getElem?_eq_some_iff.1 hb2).1
  have hyes : decode.length - decodeOffset ≥ 2 ∧ op1.val ≥ 0xD8 ∧ op1.val ≤ 0xDF :=
    ⟨by omega, hfpu⟩
  rw [decStep, hnone]
  simp only [Option.bind_eq_bind, Option.some_bind, hb, hb2, if_pos hyes]
  by_cases h1 : op2.val >>> 6 = 0b01 ∧ decode.length - decodeOffset ≥ 3
  · obtain ⟨d1, hd1⟩ := rdSome decode (decodeOffset + 2) (by omega)
    have hk : fpuExtra op2 (decode.length - decodeOffset) = 1 := by
      rw [fpuExtra, if_pos h1]
    have ht := drop_take_succ decode (decodeOffset + 2) 0 d1 hd1
    simp only [List.take_zero, Nat.zero_add] at ht
    rw [hk, ht, if_pos h1, hd1]
    simp only [Option.some_bind]
    rw [fpuLine1_eq, Nat.mod_eq_of_lt (by omega)]
    exact ⟨rfl, by omega⟩
  · rw [if_neg h1]
    by_cases h2 : op2.val >>> 6 = 0b10 ∧ decode.length - decodeOffset ≥ 4
    · obtain ⟨d1, hd1⟩ := rdSome decode (decodeOffset + 2) (by omega)
      obtain ⟨d2, hd2⟩ := rdSome decode (decodeOffset + 3) (by omega)
      have hk : fpuExtra op2 (decode.length - decodeOffset) = 2 := by
        rw [fpuExtra, if_neg h1, if_pos h2]
      have ht := drop_take_succ decode (decodeOffset + 2) 1 d1 hd1
      have ht2 := drop_take_succ decode (decodeOffset + 3) 0 d2 hd2
      simp only [List.take_zero, Nat.zero_add] at ht ht2
      rw [hk, ht, ht2, if_pos h2, hd1, hd2]
      simp only [Option.some_bind]
      rw [fpuLine2_eq, Nat.mod_eq_of_lt (by omega)]
      exact ⟨rfl, by omega⟩
    · have hk : fpuExtra op2 (decode.length - decodeOffset) = 0 := by
        rw [fpuExtra, if_neg h1, if_neg h2]
      rw [hk, if_neg h2, fpuLine0_eq, Nat.mod_eq_of_lt (by omega)]
      exact ⟨rfl, by omega⟩

/-- Every step from a cursor inside the buffer reads inside the buffer. -/
theorem decStep_isSome (decode : List Byte) (execOffset decodeOffset : Nat)
    (hlt : decode.length < 2 ^ 32) (hoff : decodeOffset < decode.length) :
    ∃ r, decStep decode execOffset decodeOffset = some r := by
  have hwin : (decode.drop decodeOffset).length = decode.length - decodeOffset :=
    List.length_drop _ _
  obtain ⟨r, hr⟩ := getOP_isSome (decode.drop decodeOffset)
  rw [hwin] at hr
  cases r with
  | some op =>
    obtain ⟨len, _, _, _, _, hcase⟩ := decStep_of_match decode execOffset decodeOffset op
      hlt hoff hr
    rcases hcase with ⟨_, l, _, hstep⟩ | ⟨_, hstep⟩
    · exact ⟨_, hstep⟩
    · exact ⟨_, hstep⟩
  | none =>
    obtain ⟨op1, hb⟩ := rdSome decode decodeOffset hoff
    by_cases hfpu : decode.length - decodeOffset ≥ 2 ∧ op1.val ≥ 0xD8 ∧ op1.val ≤ 0xDF
    · obtain ⟨op2, hb2⟩ := rdSome decode (decodeOffset + 1) (by omega)
      exact ⟨_, (decStep_fpu decode execOffset decodeOffset op1 op2 hlt hr hb hb2 hfpu.2).1⟩
    · exact ⟨_, decStep_db decode execOffset decodeOffset op1 hlt hr hb hfpu⟩

/-- Every step from a cursor inside the buffer moves the cursor forward. -/
theorem decStep_progress (decode : List Byte) (execOffset decodeOffset : Nat)
    (hsize : decode.length + 16 ≤ 2 ^ 32) (hoff : decodeOffset < decode.length) :
    ∃ line next, decStep decode execOffset decodeOffset = some (line, next) ∧
      decodeOffset < next := by
  have hlt : decode.length < 2 ^ 32 := by omega
  have hwin : (decode.drop decodeOffset).length = decode.length - decodeOffset :=
    List.length_drop _ _
  obtain ⟨r, hr⟩ := getOP_isSome (decode.drop decodeOffset)
  rw [hwin] at hr
  cases r with
  | some op =>
    obtain ⟨len, _, h1, _, _, hcase⟩ := decStep_of_match decode execOffset decodeOffset op
      hlt hoff hr
    rcases hcase with ⟨_, l, _, hstep⟩ | ⟨hover, hstep⟩
    · exact ⟨l, _, hstep, by omega⟩
    · rw [Nat.mod_eq_of_lt (by omega)] at hstep
      exact ⟨_, _, hstep, by omega⟩
  | none =>
    obtain ⟨op1, hb⟩ := rdSome decode decodeOffset hoff
    by_cases hfpu : decode.length - decodeOffset ≥ 2 ∧ op1.val ≥ 0xD8 ∧ op1.val ≤ 0xDF
    · obtain ⟨op2, hb2⟩ := rdSome decode (decodeOffset + 1) (by omega)
      exact ⟨_, _, (decStep_fpu decode execOffset decodeOffset op1 op2 hlt hr hb hb2
        hfpu.2).1, by omega⟩
    · exact ⟨_, _, decStep_db decode execOffset decodeOffset op1 hlt hr hb hfpu, by omega⟩

/-- The loop finishes, without a read outside the buffer, as soon as the fuel
covers the bytes that are left. -/
theorem decLoop_finishes (decode : List Byte) (execOffset : Nat)
    (hsize : decode.length + 16 ≤ 2 ^ 32) (fuel decodeOffset : Nat)
    (hfuel : decode.length ≤ decodeOffset + fuel) :
    ∃ lines, decLoop decode execOffset fuel decodeOffset = Outcome.finished lines := by
  induction fuel generalizing decodeOffset with
  | zero =>
    have : ¬ decodeOffset < decode.length := by omega
    exact ⟨[], by rw [decLoop, if_neg this]⟩
  | succ fuel ih =>
    by_cases hoff : decodeOffset < decode.length
    · obtain ⟨line, next, hstep, hnext⟩ := decStep_progress decode execOffset decodeOffset
        hsize hoff
      obtain ⟨lines, hl⟩ := ih next (by omega)
      exact ⟨line :: lines, by rw [decLoop, if_pos hoff, hstep]; simp only [hl, Outcome.cons]⟩
    · exact ⟨[], by rw [decLoop, if_neg hoff]⟩

/-- Fuel beyond the bytes that are left does not change the result. -/
theorem decLoop_fuel (decode : List Byte) (execOffset : Nat)
    (hsize : decode.length + 16 ≤ 2 ^ 32) (fuel fuel2 decodeOffset : Nat)
    (hfuel : decode.length ≤ decodeOffset + fuel) (hfuel2 : decode.length ≤ decodeOffset + fuel2) :
    decLoop decode execOffset fuel decodeOffset = decLoop decode execOffset fuel2 decodeOffset := by
  induction fuel generalizing decodeOffset fuel2 with
  | zero =>
    have : ¬ decodeOffset < decode.length := by omega
    cases fuel2 <;> simp only [decLoop, if_neg this]
  | succ fuel ih =>
    by_cases hoff : decodeOffset < decode.length
    · obtain ⟨line, next, hstep, hnext⟩ := decStep_progress decode execOffset decodeOffset
        hsize hoff
      cases fuel2 with
      | zero => omega
      | succ fuel2 =>
        simp only [decLoop, if_pos hoff, hstep]
        rw [ih fuel2 next (by omega) (by omega)]
    · cases fuel2 <;> simp only [decLoop, if_neg hoff]

/-! ## Descriptor round trip -/

theorem firstDiffers_skip (op : Op) (hok : op.codeOK) (win : List Byte)
    (h : firstDiffers op win = true) : getOPBody op win win.length = some false := by
  by_cases hlen : op.codeSz ≤ win.length
  · apply getOPBody_differ op hok win hlen
    intro hc
    obtain ⟨hsz, hcl⟩ := hok
    obtain ⟨u, hu⟩ : ∃ u, op.codeSz = u + 1 :=
      ⟨op.codeSz - 1, by rcases hsz with h1 | h1 <;> omega⟩
    cases hcode : op.code with
    | nil => rw [hcode] at hcl; cases hcl
    | cons c cs =>
      cases win with
      | nil => simp [firstDiffers, hcode] at h
      | cons w ws =>
        rw [hcode, hu, List.take_succ_cons, List.take_succ_cons] at hc
        have hcw : w = c := (List.cons.inj hc).1
        subst hcw
        simp [firstDiffers, hcode] at h
  · exact getOPBody_short op hok win hlen

theorem getOPFast_eq (tbl : List Op) (hok : ∀ op ∈ tbl, op.codeOK) (win : List Byte) :
    getOPFast tbl win win.length = getOPLoop tbl win win.length := by
  induction tbl with
  | nil => rfl
  | cons op rest ih =>
    have ih2 := ih (fun o ho => hok o (List.mem_cons_of_mem _ ho))
    rw [getOPFast, getOPLoop]
    by_cases h : firstDiffers op win = true
    · rw [if_pos h, firstDiffers_skip op (hok op (List.mem_cons_self _ _)) win h]
      exact ih2
    · rw [if_neg h, ih2]

theorem roundTrip_part1 : (ops.take 200).all roundTripCheck = true := by decide!

theorem roundTrip_part2 : ((ops.drop 200).take 150).all roundTripCheck = true := by decide!

theorem roundTrip_part3 : (ops.drop 350).all roundTripCheck = true := by decide!

theorem roundTrip_all (op : Op) (hop : op ∈ ops) : roundTripCheck op = true := by
  have h1 : ops = ops.take 200 ++ ((ops.drop 200).take 150 ++ (ops.drop 200).drop 150) := by
    rw [List.take_append_drop, List.take_append_drop]
  rw [h1] at hop
  rcases List.mem_append.1 hop with h | h
  · exact List.all_eq_true.1 roundTrip_part1 op h
  · rcases List.mem_append.1 h with h | h
    · exact List.all_eq_true.1 roundTrip_part2 op h
    · rw [List.drop_drop] at h
      exact List.all_eq_true.1 roundTrip_part3 op h

theorem Outcome.cons_ne_fault (line : Line) (r : Outcome) (h : r ≠ Outcome.fault) :
    Outcome.cons line r ≠ Outcome.fault := by
  cases r with
  | finished lines => intro hc; cases hc
  | fault => exact absurd rfl h
  | timeout => intro hc; cases hc

theorem decLoop_no_fault (decode : List Byte) (execOffset : Nat)
    (hlt : decode.length < 2 ^ 32) (fuel decodeOffset : Nat) :
    decLoop decode execOffset fuel decodeOffset ≠ Outcome.fault := by
  induction fuel generalizing decodeOffset with
  | zero =>
    rw [decLoop]
    split <;> intro hc <;> cases hc
  | succ fuel ih =>
    by_cases hoff : decodeOffset < decode.length
    · obtain ⟨⟨line, next⟩, hstep⟩ := decStep_isSome decode execOffset decodeOffset hlt hoff
      rw [decLoop, if_pos hoff, hstep]
      exact Outcome.cons_ne_fault line _ (ih next)
    · rw [decLoop, if_neg hoff]
      intro hc
      cases hc

/-! ## The claims -/

/-- C1: the sweep never reads outside the buffer.  With every read of the
buffer (and of the name tables) modelled as a checked read, a step started at
any cursor inside the buffer returns a result, and neither the loop, from any
cursor and with any fuel, nor `dec` ends in `Outcome.fault`.  The buffer length
is one the 32-bit cursor of `dec` can hold. -/
theorem C1_reads_in_bounds (decode : List Byte) (execOffset : Nat)
    (hlt : decode.length < 2 ^ 32) :
    (∀ decodeOffset, decodeOffset < decode.length →
      ∃ r, decStep decode execOffset decodeOffset = some r) ∧
    (∀ fuel decodeOffset, decLoop decode execOffset fuel decodeOffset ≠ Outcome.fault) ∧
    dec decode execOffset ≠ Outcome.fault :=
  ⟨fun decodeOffset hoff => decStep_isSome decode execOffset decodeOffset hlt hoff,
    decLoop_no_fault decode execOffset hlt, decLoop_no_fault decode execOffset hlt _ _⟩

/-- C1 on a six byte buffer with a matched instruction, an FPU register form and a trailing unmatched byte. -/
theorem C1_reads_in_bounds_witness :
    ([0x8D, 0x46, 0x10, 0xD9, 0xC8, 0x0F] : List Byte).length < 2 ^ 32 ∧
    dec [0x8D, 0x46, 0x10, 0xD9, 0xC8, 0x0F] 0x100 ≠ Outcome.fault :=
  ⟨by decide, (C1_reads_in_bounds [0x8D, 0x46, 0x10, 0xD9, 0xC8, 0x0F] 0x100 (by decide)).2.2⟩

/-- C2: the sweep terminates and every step moves the cursor forward.  For a
buffer whose length leaves the 32-bit cursor the room an overrun step may take
past the end (at most 15 bytes), the step at any cursor inside the buffer,
whatever its kind (matched instruction, length overrun, FPU fallback, single
byte fallback), returns a new cursor strictly greater than the old one; `dec`
finishes with a list of lines, and any fuel of at least the buffer length
gives that same result. -/
theorem C2_progress_and_termination (decode : List Byte) (execOffset : Nat)
    (hsize : decode.length + 16 ≤ 2 ^ 32) :
    (∀ decodeOffset, decodeOffset < decode.length →
      ∃ line next, decStep decode execOffset decodeOffset = some (line, next) ∧
        decodeOffset < next) ∧
    (∃ lines, dec decode execOffset = Outcome.finished lines) ∧
    (∀ fuel, decode.length ≤ fuel →
      decLoop decode execOffset fuel 0 = dec decode execOffset) :=
  ⟨fun decodeOffset hoff => decStep_progress decode execOffset decodeOffset hsize hoff,
    decLoop_finishes decode execOffset hsize decode.length 0 (by omega),
    fun fuel hfuel =>
      decLoop_fuel decode execOffset hsize fuel decode.length 0 (by omega) (by omega)⟩

/-- C2 on a five byte buffer that takes an overrun step, a matched step and an FPU fallback step. -/
theorem C2_progress_and_termination_witness :
    ([0x0F, 0x02, 0x40, 0xD9, 0x48] : List Byte).length + 16 ≤ 2 ^ 32 ∧
    ∃ lines, dec [0x0F, 0x02, 0x40, 0xD9, 0x48] 0x100 = Outcome.finished lines :=
  ⟨by decide, (C2_progress_and_termination [0x0F, 0x02, 0x40, 0xD9, 0x48] 0x100
    (by decide)).2.1⟩

/-- C3: on every window `getOP` reads inside the window and returns the table
entry of smallest index that satisfies the three matching conditions
(`Matches`: opcode bytes present and equal; for an extension kind other than
`NONE` a following byte with the discriminant in bits 5-3 and the mode the FPU
form asks for; without extension, one more byte when a slot needs an
addressing byte); it returns no entry exactly when no table entry satisfies
them, in particular on the empty window. -/
theorem C3_getOP_first_match (win : List Byte) :
    ∃ r, getOP win win.length = some r ∧
      (∀ op, r = some op ↔
        ∃ i : Nat, ops[i]? = some op ∧ Matches op win ∧
          ∀ (j : Nat) (o : Op), j < i → ops[j]? = some o → ¬ Matches o win) ∧
      (r = none ↔ ∀ (i : Nat) (o : Op), ops[i]? = some o → ¬ Matches o win) ∧
      (win = [] → r = none) := by
  rcases getOPLoop_spec ops ops_codeOK win with ⟨i, o, hi, hmo, hmin, hres⟩ | ⟨hnone, hres⟩
  · refine ⟨some o, hres, ?_, ?_, ?_⟩
    · intro op
      constructor
      · intro h
        cases h
        exact ⟨i, hi, hmo, hmin⟩
      · rintro ⟨i2, hi2, hm2, hmin2⟩
        rcases Nat.lt_trichotomy i i2 with hlt | heq | hgt
        · exact absurd hmo (hmin2 i o hlt hi)
        · subst heq
          rw [hi] at hi2
          exact hi2
        · exact absurd hm2 (hmin i2 op hgt hi2)
    · constructor
      · intro h
        cases h
      · intro h
        exact absurd hmo (h i o hi)
    · intro hw
      subst hw
      have hmem : o ∈ ops := (List.getElem?_eq_some_iff.1 hi).2 ▸ List.getElem_mem _
      have hcode := ops_codeOK o hmem
      have := hmo.1.1
      rcases hcode with ⟨h1 | h1, _⟩ <;> simp [h1] at this
  · refine ⟨none, hres, ?_, ?_, fun _ => rfl⟩
    · intro op
      constructor
      · intro h
        cases h
      · rintro ⟨i2, hi2, hm2, _⟩
        have hmem : op ∈ ops := (List.getElem?_eq_some_iff.1 hi2).2 ▸ List.getElem_mem _
        exact absurd hm2 (hnone op hmem)
    · constructor
      · intro _ i o hi
        have hmem : o ∈ ops := (List.getElem?_eq_some_iff.1 hi).2 ▸ List.getElem_mem _
        exact hnone o hmem
      · intro _
        rfl

/-- C4 (as stated, refuted): the minimal sequence `[0x72, 0x00]` of the table
entry `JC` is matched to the earlier entry `JB` with the same opcode byte, not
to `JC` itself. -/
theorem C4_alias_counterexample :
    Op.mk1 0x72 "JC" I_DB ∈ ops ∧
    minimalSeq (Op.mk1 0x72 "JC" I_DB) = [0x72, 0x00] ∧
    getOP [0x72, 0x00] 2 = some (some (Op.mk1 0x72 "JB" I_DB)) ∧
    Op.mk1 0x72 "JB" I_DB ≠ Op.mk1 0x72 "JC" I_DB := by
  decide!

/-- C4 (amended): for every descriptor `op` of the table, `getOP` on the
minimal byte sequence of `op` returns a table entry `o` with the same opcode
bytes, extension kind and discriminant, and the consumed length
`o.codeSz + getLen` equals the length of the minimal sequence; `o` is `op`
itself except for the 15 entries of `shadowedOps` (14 conditional jump aliases
and `XCHG AX, AX` on `0x90`), which repeat the opcode of an earlier entry. -/
theorem C4_round_trip_up_to_alias (op : Op) (hop : op ∈ ops) :
    ∃ o len, getOP (minimalSeq op) (minimalSeq op).length = some (some o) ∧ o ∈ ops ∧
      o.codeSz = op.codeSz ∧ o.code.take o.codeSz = op.code.take op.codeSz ∧
      o.opExt = op.opExt ∧ o.n = op.n ∧
      getLen o.description ((minimalSeq op).drop o.codeSz) = some len ∧
      o.codeSz + len = (minimalSeq op).length ∧
      (o = op ↔ op ∉ shadowedOps) := by
  have h := roundTrip_all op hop
  rw [roundTripCheck, getOPFast_eq ops ops_codeOK] at h
  cases hres : getOPLoop ops (minimalSeq op) (minimalSeq op).length with
  | none => rw [hres] at h; cases h
  | some r =>
    cases r with
    | none => rw [hres] at h; cases h
    | some o =>
      rw [hres] at h
      simp only [Bool.and_eq_true, beq_iff_eq, decide_eq_true_eq, bne_iff_ne, ne_eq,
        sameKey] at h
      obtain ⟨⟨⟨⟨hk1, hk2, hk3, hk4⟩, hlen⟩, hle⟩, hsh⟩ := h
      refine ⟨o, (minimalSeq op).length - o.codeSz, hres, (getOP_some_matches _ _ hres).1,
        hk1, hk2, hk3, hk4, hlen, by omega, ?_⟩
      by_cases heq : o = op
      · simp only [heq, true_iff]
        intro hc
        apply hsh
        simp [heq, hc]
      · simp only [heq, false_iff, not_not]
        by_contra hc
        apply hsh
        simp [heq, hc]

/-- C4 (amended) on the table entry `LGDT`. -/
theorem C4_round_trip_up_to_alias_witness :
    Op.mk2x 0x0F 0x01 "LGDT" R_MEM OPExt.N 2 ∈ ops ∧
    ∃ o len, getOP (minimalSeq (Op.mk2x 0x0F 0x01 "LGDT" R_MEM OPExt.N 2))
        (minimalSeq (Op.mk2x 0x0F 0x01 "LGDT" R_MEM OPExt.N 2)).length = some (some o) ∧
      o ∈ ops ∧
      o.codeSz = (Op.mk2x 0x0F 0x01 "LGDT" R_MEM OPExt.N 2).codeSz ∧
      o.code.take o.codeSz = (Op.mk2x 0x0F 0x01 "LGDT" R_MEM OPExt.N 2).code.take
        (Op.mk2x 0x0F 0x01 "LGDT" R_MEM OPExt.N 2).codeSz ∧
      o.opExt = (Op.mk2x 0x0F 0x01 "LGDT" R_MEM OPExt.N 2).opExt ∧
      o.n = (Op.mk2x 0x0F 0x01 "LGDT" R_MEM OPExt.N 2).n ∧
      getLen o.description ((minimalSeq (Op.mk2x 0x0F 0x01 "LGDT" R_MEM OPExt.N 2)).drop
        o.codeSz) = some len ∧
      o.codeSz + len = (minimalSeq (Op.mk2x 0x0F 0x01 "LGDT" R_MEM OPExt.N 2)).length ∧
      (o = Op.mk2x 0x0F 0x01 "LGDT" R_MEM OPExt.N 2 ↔
        Op.mk2x 0x0F 0x01 "LGDT" R_MEM OPExt.N 2 ∉ shadowedOps) :=
  ⟨by decide!, C4_round_trip_up_to_alias _ (by decide!)⟩

/-- C5: a matched step whose computed length fits.  If `getOP` matches `op`
at the cursor `c` and `getLen` for the bytes after the opcode is at most
`size - c - codeSz`, the step emits the full decoded line (address, the raw
bytes of the instruction, the mnemonic between columns 36 and 50, then the
operands rendered by `printDescription`) and sets the cursor to
`c + codeSz + getLen`, which is at most the buffer length. -/
theorem C5_matched_step (decode : List Byte) (execOffset c : Nat) (op : Op) (len : Nat)
    (hlt : decode.length < 2 ^ 32)
    (hop : getOP (decode.drop c) (decode.length - c) = some (some op))
    (hlen : getLen op.description (decode.drop (c + op.codeSz)) = some len)
    (hfit : len ≤ decode.length - c - op.codeSz) :
    ∃ line, printDescription op.description (decode.drop (c + op.codeSz))
        (headerLine decode c execOffset op len Line.empty) = some line ∧
      decStep decode execOffset c = some (line, c + op.codeSz + len) ∧
      c + op.codeSz + len ≤ decode.length := by
  have hwin : (decode.drop c).length = decode.length - c := List.length_drop _ _
  have hop2 := hop
  rw [← hwin] at hop2
  obtain ⟨hmem, hm⟩ := getOP_some_matches _ _ hop2
  have hcs := hm.1.1
  have h1 : 1 ≤ op.codeSz := by
    rcases ops_codeOK op hmem with ⟨h1 | h1, _⟩ <;> omega
  have hc : c < decode.length := by omega
  obtain ⟨len2, hlen2, _, hle, _, hcase⟩ := decStep_of_match decode execOffset c op hlt hc hop
  rw [hlen] at hlen2
  cases hlen2
  rcases hcase with ⟨_, l, hpd, hstep⟩ | ⟨hover, _⟩
  · exact ⟨l, hpd, by rw [hstep]; congr 2; omega, by omega⟩
  · omega

/-- C5 on the buffer `B8 34 12` (`MOV AX, 0x1234`) at cursor 0. -/
theorem C5_matched_step_witness :
    ([0xB8, 0x34, 0x12] : List Byte).length < 2 ^ 32 ∧
    getOP (([0xB8, 0x34, 0x12] : List Byte).drop 0) (([0xB8, 0x34, 0x12] : List Byte).length - 0)
      = some (some (Op.mk1 0xB8 "MOV" REG_AX_DW)) ∧
    getLen (Op.mk1 0xB8 "MOV" REG_AX_DW).description
      (([0xB8, 0x34, 0x12] : List Byte).drop (0 + (Op.mk1 0xB8 "MOV" REG_AX_DW).codeSz)) = some 2 ∧
    2 ≤ ([0xB8, 0x34, 0x12] : List Byte).length - 0 - (Op.mk1 0xB8 "MOV" REG_AX_DW).codeSz ∧
    ∃ line, printDescription (Op.mk1 0xB8 "MOV" REG_AX_DW).description
        (([0xB8, 0x34, 0x12] : List Byte).drop (0 + (Op.mk1 0xB8 "MOV" REG_AX_DW).codeSz))
        (headerLine [0xB8, 0x34, 0x12] 0 0x100 (Op.mk1 0xB8 "MOV" REG_AX_DW) 2 Line.empty)
          = some line ∧
      decStep [0xB8, 0x34, 0x12] 0x100 0 =
        some (line, 0 + (Op.mk1 0xB8 "MOV" REG_AX_DW).codeSz + 2) ∧
      0 + (Op.mk1 0xB8 "MOV" REG_AX_DW).codeSz + 2 ≤ ([0xB8, 0x34, 0x12] : List Byte).length :=
  ⟨by decide, by decide!, by decide!, by decide!,
    C5_matched_step [0xB8, 0x34, 0x12] 0x100 0 (Op.mk1 0xB8 "MOV" REG_AX_DW) 2
      (by decide) (by decide!) (by decide!) (by decide!)⟩

/-- C6 (code evaluated at the failing input): on the buffer `0F 02 40` the
two byte opcode `LAR` matches at cursor 0 with computed length 2 while one byte
is left after the opcode; the overrun step returns the cursor 2, which is below
the buffer length 3, and the sweep goes on to emit a second line for the byte
`40`. -/
theorem C6_overrun_cursor_inside_buffer :
    getOP [0x0F, 0x02, 0x40] 3 = some (some (Op.mk2 0x0F 0x02 "LAR" R_RW_RMW)) ∧
    getLen R_RW_RMW [0x40] = some 2 ∧
    decStep [0x0F, 0x02, 0x40] 0x100 0 =
      some (⟨"0x00000100:  0F ;                   DB 0x0F".toList⟩, 2) ∧
    dec [0x0F, 0x02, 0x40] 0x100 = Outcome.finished
      [⟨"0x00000100:  0F ;                   DB 0x0F".toList⟩,
       ⟨"0x00000102:  40 ;                   INC            AX".toList⟩] := by
  decide!

/-- C7 (code evaluated at the failing inputs): on the buffer `B8 34` the
descriptor `MOV AX, imm16` overruns and the line lists only the byte `B8`, not
the two bytes from the cursor to the end of the buffer; on the buffer `B8` the
overrun line has no raw byte and no `DB` at all. -/
theorem C7_overrun_line_drops_bytes :
    getOP [0xB8, 0x34] 2 = some (some (Op.mk1 0xB8 "MOV" REG_AX_DW)) ∧
    decStep [0xB8, 0x34] 0x100 0 =
      some (⟨"0x00000100:  B8 ;                   DB 0xB8".toList⟩, 2) ∧
    getOP [0xB8] 1 = some (some (Op.mk1 0xB8 "MOV" REG_AX_DW)) ∧
    decStep [0xB8] 0x100 0 = some (⟨"0x00000100:  ".toList⟩, 2) := by
  decide!

/-- C8: the single byte fallback.  When `getOP` returns no descriptor at the
cursor `c` and the byte `b` there is outside `0xD8..0xDF` or fewer than two
bytes are left, the step consumes exactly one byte, and its line has the one
byte `b` as raw byte field (two hexadecimal digits) and the text `DB 0x`
followed by the same two digits, starting at column 36. -/
theorem C8_single_byte_fallback (decode : List Byte) (execOffset c : Nat) (b : Byte)
    (hlt : decode.length < 2 ^ 32)
    (hnone : getOP (decode.drop c) (decode.length - c) = some none)
    (hb : decode[c]? = some b)
    (hnot : b.val < 0xD8 ∨ 0xDF < b.val ∨ decode.length - c < 2) :
    decStep decode execOffset c =
      some (⟨"0x".toList ++ fmtHex 8 b.val ++ ":  ".toList ++ fmtHex 2 b.val ++ " ; ".toList ++
        List.replicate 18 ' ' ++ "DB ".toList ++ "0x".toList ++ fmtHex 2 b.val⟩, c + 1) ∧
      (fmtHex 2 b.val).length = 2 :=
  ⟨decStep_db decode execOffset c b hlt hnone hb (by omega), fmtHex2_byte b⟩

/-- C8 on the buffer `26` at cursor 0. -/
theorem C8_single_byte_fallback_witness :
    ([0x26] : List Byte).length < 2 ^ 32 ∧
    getOP (([0x26] : List Byte).drop 0) (([0x26] : List Byte).length - 0) = some none ∧
    ([0x26] : List Byte)[0]? = some 0x26 ∧
    ((0x26 : Byte).val < 0xD8 ∨ 0xDF < (0x26 : Byte).val ∨ ([0x26] : List Byte).length - 0 < 2) ∧
    decStep [0x26] 0x100 0 =
      some (⟨"0x".toList ++ fmtHex 8 (0x26 : Byte).val ++ ":  ".toList ++
        fmtHex 2 (0x26 : Byte).val ++ " ; ".toList ++ List.replicate 18 ' ' ++ "DB ".toList ++
        "0x".toList ++ fmtHex 2 (0x26 : Byte).val⟩, 0 + 1) ∧
      (fmtHex 2 (0x26 : Byte).val).length = 2 :=
  ⟨by decide, by decide!, by decide, by decide,
    C8_single_byte_fallback [0x26] 0x100 0 0x26 (by decide) (by decide!) (by decide)
      (by decide)⟩

/-- C9 (as stated, refuted): on the buffer `D9 48` no descriptor matches, the
first byte is in `0xD8..0xDF`, two bytes are left and the mode bits of the
second byte are 01, yet the step consumes 2 bytes, not 3. -/
theorem C9_fpu_counterexample :
    getOP [0xD9, 0x48] 2 = some none ∧ (0x48 : Byte).val >>> 6 = 0b01 ∧
    decStep [0xD9, 0x48] 0x100 0 =
      some (⟨"0x000000D9:  D9 48 ;                FPU RESERVED".toList⟩, 2) := by
  decide!

/-- C9 (amended): the FPU fallback.  When `getOP` returns no descriptor at the
cursor `c`, the byte there is in `0xD8..0xDF` and a second byte `op2` follows,
the step consumes `2 + k` bytes inside the buffer, where `k = fpuExtra op2 rem`
is 1 for mode 01 when at least 3 bytes are left, 2 for mode 10 when at least 4
bytes are left, and 0 otherwise; the line lists the consumed bytes and ends
with the tag `FPU RESERVED` at column 36. -/
theorem C9_fpu_fallback (decode : List Byte) (execOffset c : Nat) (op1 op2 : Byte)
    (hlt : decode.length < 2 ^ 32)
    (hnone : getOP (decode.drop c) (decode.length - c) = some none)
    (hb1 : decode[c]? = some op1) (hb2 : decode[c + 1]? = some op2)
    (hrange : 0xD8 ≤ op1.val ∧ op1.val ≤ 0xDF) :
    decStep decode execOffset c =
      some (⟨fpuLineText op1 op2 ((decode.drop (c + 2)).take (fpuExtra op2 (decode.length - c)))⟩,
        c + 2 + fpuExtra op2 (decode.length - c)) ∧
    c + 2 + fpuExtra op2 (decode.length - c) ≤ decode.length ∧
    fpuExtra op2 (decode.length - c) =
      (if op2.val >>> 6 = 0b01 ∧ decode.length - c ≥ 3 then 1
       else if op2.val >>> 6 = 0b10 ∧ decode.length - c ≥ 4 then 2 else 0) ∧
    ∃ pre, pre.length = 36 ∧
      fpuLineText op1 op2 ((decode.drop (c + 2)).take (fpuExtra op2 (decode.length - c))) =
        pre ++ "FPU RESERVED".toList := by
  obtain ⟨h1, h2⟩ := decStep_fpu decode execOffset c op1 op2 hlt hnone hb1 hb2 hrange
  refine ⟨h1, h2, rfl, ?_⟩
  have hk : fpuExtra op2 (decode.length - c) ≤ 2 := by
    unfold fpuExtra
    split
    · omega
    · split <;> omega
  have hlen : ((decode.drop (c + 2)).take (fpuExtra op2 (decode.length - c))).length =
      fpuExtra op2 (decode.length - c) := by
    rw [List.length_take, List.length_drop]
    omega
  generalize (decode.drop (c + 2)).take (fpuExtra op2 (decode.length - c)) = disp at hlen
  refine ⟨_, ?_, rfl⟩
  have e8 := fmtHex8_byte op1
  have e2 := fmtHex2_byte op1
  have e2b := fmtHex2_byte op2
  have hsum : ((disp.map (fun d => " ".toList ++ fmtHex 2 d.val)).flatten).length =
      3 * disp.length := by
    clear hlen
    induction disp with
    | nil => rfl
    | cons d ds ih =>
      have := fmtHex2_byte d
      simp only [List.map_cons, List.flatten_cons, List.length_append, ih, List.length_cons]
      simp [this]
      omega
  simp only [List.length_append, List.length_replicate, e8, e2, e2b, hsum]
  simp
  omega

/-- C9 (amended) on the buffer `D9 48 01 90` at cursor 0: mode 01 with four bytes left. -/
theorem C9_fpu_fallback_witness :
    ([0xD9, 0x48, 0x01, 0x90] : List Byte).length < 2 ^ 32 ∧
    getOP (([0xD9, 0x48, 0x01, 0x90] : List Byte).drop 0)
      (([0xD9, 0x48, 0x01, 0x90] : List Byte).length - 0) = some none ∧
    ([0xD9, 0x48, 0x01, 0x90] : List Byte)[0]? = some 0xD9 ∧
    ([0xD9, 0x48, 0x01, 0x90] : List Byte)[0 + 1]? = some 0x48 ∧
    (0xD8 ≤ (0xD9 : Byte).val ∧ (0xD9 : Byte).val ≤ 0xDF) ∧
    decStep [0xD9, 0x48, 0x01, 0x90] 0x100 0 =
      some (⟨fpuLineText 0xD9 0x48 ((([0xD9, 0x48, 0x01, 0x90] : List Byte).drop (0 + 2)).take
          (fpuExtra 0x48 (([0xD9, 0x48, 0x01, 0x90] : List Byte).length - 0)))⟩,
        0 + 2 + fpuExtra 0x48 (([0xD9, 0x48, 0x01, 0x90] : List Byte).length - 0)) :=
  ⟨by decide, by decide!, by decide, by decide, by decide,
    (C9_fpu_fallback [0xD9, 0x48, 0x01, 0x90] 0x100 0 0xD9 0x48 (by decide) (by decide!)
      (by decide) (by decide) (by decide)).1⟩

/-- C10 (code evaluated at the failing inputs): with base offset `0x100` the
single byte fallback line for the buffer `26` and the FPU fallback line for
the buffer `D9 48` begin with the value of the byte at the cursor (`0x00000026`,
`0x000000D9`) in the address field, not with `0x00000100`, while the matched
line for `90` and the overrun line for `B8` begin with `0x00000100`. -/
theorem C10_fallback_address_is_byte_value :
    decStep [0x26] 0x100 0 =
      some (⟨"0x00000026:  26 ;                   DB 0x26".toList⟩, 1) ∧
    decStep [0xD9, 0x48] 0x100 0 =
      some (⟨"0x000000D9:  D9 48 ;                FPU RESERVED".toList⟩, 2) ∧
    decStep [0x90] 0x100 0 =
      some (⟨"0x00000100:  90 ;                   NOP           ".toList⟩, 1) ∧
    decStep [0xB8] 0x100 0 = some (⟨"0x00000100:  ".toList⟩, 2) := by
  decide!

/-! ## Descriptions and table buckets -/

theorem allDescriptions_slotsOK : ∀ description ∈ allDescriptions, description.slotsOK := by
  decide!

theorem firstDiffers_head (op : Op) (w : Byte) (ws : List Byte) :
    firstDiffers op (w :: ws) = firstDiffers op [w] := by
  unfold firstDiffers
  cases op.code <;> rfl

/-- On a window that starts with the byte `w` the matcher loop only has to look
at the entries whose first opcode byte is `w`. -/
theorem getOPLoop_filter (tbl : List Op) (hok : ∀ op ∈ tbl, op.codeOK) (w : Byte)
    (ws : List Byte) :
    getOPLoop tbl (w :: ws) (ws.length + 1) =
      getOPLoop (tbl.filter (fun o => !firstDiffers o [w])) (w :: ws) (ws.length + 1) := by
  induction tbl with
  | nil => rfl
  | cons op rest ih =>
    have ih2 := ih (fun o ho => hok o (List.mem_cons_of_mem _ ho))
    by_cases h : firstDiffers op [w] = true
    · have hskip := firstDiffers_skip op (hok op (List.mem_cons_self _ _)) (w :: ws)
        (by rw [firstDiffers_head]; exact h)
      rw [List.length_cons] at hskip
      rw [getOPLoop, hskip, List.filter_cons_of_neg (by simp [h])]
      exact ih2
    · rw [List.filter_cons_of_pos (by simp [h]), getOPLoop, getOPLoop, ih2]

theorem getOP_bucket (w : Byte) (ws : List Byte) :
    getOP (w :: ws) (ws.length + 1) =
      getOPLoop (ops.filter (fun o => !firstDiffers o [w])) (w :: ws) (ws.length + 1) :=
  getOPLoop_filter ops ops_codeOK w ws

theorem drop_eq_cons (decode : List Byte) (n : Nat) (b : Byte) (hb : decode[n]? = some b) :
    decode.drop n = b :: decode.drop (n + 1) ∧
      decode.length - n = (decode.drop (n + 1)).length + 1 := by
  obtain ⟨hn, hv⟩ := List.getElem?_eq_some_iff.1 hb
  refine ⟨by rw [List.drop_eq_getElem_cons hn, hv], ?_⟩
  rw [List.length_drop]
  omega

theorem bucket_90 : ops.filter (fun o => !firstDiffers o [0x90]) =
    [Op.mk1 0x90 "NOP" Description.none, Op.mk1 0x90 "XCHG" REG_AX_AX] := by decide!

theorem getOP_90 (ws : List Byte) :
    getOP (0x90 :: ws) (ws.length + 1) = some (some (Op.mk1 0x90 "NOP" Description.none)) := by
  rw [getOP_bucket, bucket_90]
  simp [getOPLoop, getOPBody, Op.mk1, memcmpNe, isRValidOrNone, isRValidOrNoneLoop,
    Description.none, isRValidType]

/-! ## The length pass, slot by slot -/

theorem immSum_count (ds : List D) :
    (ds.map (fun d => immWidth d.type)).sum =
      1 * ds.countP (fun d => d.type = DType.DB) +
      2 * ds.countP (fun d => d.type = DType.DW ∨ d.type = DType.DEREFBYTEATDW ∨
        d.type = DType.DEREFWORDATDW) +
      4 * ds.countP (fun d => d.type = DType.DDW) := by
  induction ds with
  | nil => rfl
  | cons d ds ih =>
    obtain ⟨t, num⟩ := d
    simp only [List.map_cons, List.sum_cons, ih, List.countP_cons]
    cases t <;> simp [immWidth] <;> omega

/-- With a byte after the opcode `getRMOffset` always returns. -/
theorem getRMOffsetLoop_cons (ds : List D) (b : Byte) (rest : List Byte) :
    ∃ k, getRMOffsetLoop ds (b :: rest) = some k ∧
      ((∀ d ∈ ds, isRMType d.type = false ∧ d.type ≠ DType.ST ∧ d.type ≠ DType.STREG) →
        k = 0) := by
  induction ds with
  | nil => exact ⟨0, rfl, fun _ => rfl⟩
  | cons d ds ih =>
    rw [getRMOffsetLoop]
    by_cases h1 : isRMType d.type = true
    · rw [if_pos h1]
      refine ⟨(getDispMemWidth (b.val &&& 0b111) (R_Type.cast (b.val >>> 6))).toNat + 1,
        by simp, fun h => ?_⟩
      have := (h d (List.mem_cons_self _ _)).1
      rw [h1] at this
      cases this
    · rw [if_neg h1]
      by_cases h2 : d.type = DType.ST ∨ d.type = DType.STREG
      · rw [if_pos h2]
        refine ⟨1, rfl, fun h => ?_⟩
        have := h d (List.mem_cons_self _ _)
        rcases h2 with h2 | h2
        · exact absurd h2 this.2.1
        · exact absurd h2 this.2.2
      · rw [if_neg h2]
        obtain ⟨k, hk, hk0⟩ := ih
        exact ⟨k, hk, fun h => hk0 (fun e he => h e (List.mem_cons_of_mem _ he))⟩

theorem shiftRight6_lt (b : Byte) : b.val >>> 6 < 4 := by
  have := b.isLt
  rw [Nat.shiftRight_eq_div_pow]
  omega

/-- The addressing length announced by the addressing byte `b`, by cases on
its mode and r/m bits. -/
theorem rmLen_cases (b : Byte) :
    rmLen b = 1 + (if b.val >>> 6 = 0b11 then 0
      else if b.val >>> 6 = 0b00 then (if b.val &&& 0b111 = 0b110 then 2 else 0)
      else if b.val >>> 6 = 0b01 then 1 else 2) := by
  have h := shiftRight6_lt b
  unfold rmLen
  generalize b.val >>> 6 = m at h
  generalize b.val &&& 0b111 = rm
  interval_cases m
  · by_cases hr : rm = 6 <;> simp [R_Type.cast, getDispMemWidth, Width.toNat, hr]
  · simp [R_Type.cast, getDispMemWidth, Width.toNat]
  · simp [R_Type.cast, getDispMemWidth, Width.toNat]
  · simp [R_Type.cast, getDispMemWidth, Width.toNat]

/-! ## Matched steps on buffers with known opcode bytes -/

/-- A matched step whose length fits, in terms of the operand renderer. -/
theorem decStep_fit (decode : List Byte) (execOffset c : Nat) (op : Op) (len : Nat)
    (hlt : decode.length < 2 ^ 32)
    (hop : getOP (decode.drop c) (decode.length - c) = some (some op))
    (hlen : getLen op.description (decode.drop (c + op.codeSz)) = some len)
    (hfit : c + op.codeSz + len ≤ decode.length) :
    decStep decode execOffset c =
      (printDescription op.description (decode.drop (c + op.codeSz))
        (headerLine decode c execOffset op len Line.empty)).bind
        (fun l => some (l, c + len + op.codeSz)) := by
  rw [decStep_matched _ _ _ _ hop, printOP_fit decode c execOffset op Line.empty len hlt
    (by omega) hlen (by omega)]
  cases printDescription op.description (decode.drop (c + op.codeSz))
      (headerLine decode c execOffset op len Line.empty) with
  | none => rfl
  | some l =>
    simp only [Option.some_bind]
    rw [Nat.mod_eq_of_lt (by omega)]

theorem word_le (lo hi : Byte) : (lo.val + (hi.val <<< 8)) % 2 ^ 16 = hi.val * 256 + lo.val := by
  have h1 := lo.isLt
  have h2 := hi.isLt
  rw [Nat.shiftLeft_eq]
  omega

theorem fmtHex4_word (lo hi : Byte) : (fmtHex 4 (hi.val * 256 + lo.val)).length = 4 :=
  fmtHex_length 4 _ (by norm_num) (by have h1 := lo.isLt; have h2 := hi.isLt; omega)

theorem bucket_B8 : ops.filter (fun o => !firstDiffers o [0xB8]) =
    [Op.mk1 0xB8 "MOV" REG_AX_DW] := by decide!

theorem getOP_B8 (ws : List Byte) :
    getOP (0xB8 :: ws) (ws.length + 1) = some (some (Op.mk1 0xB8 "MOV" REG_AX_DW)) := by
  rw [getOP_bucket, bucket_B8]
  simp [getOPLoop, getOPBody, Op.mk1, memcmpNe, isRValidOrNone, isRValidOrNoneLoop,
    REG_AX_DW, isRValidType]

theorem bucket_CD : ops.filter (fun o => !firstDiffers o [0xCD]) =
    [Op.mk1 0xCD "INT" I_DB] := by decide!

theorem getOP_CD (ws : List Byte) :
    getOP (0xCD :: ws) (ws.length + 1) = some (some (Op.mk1 0xCD "INT" I_DB)) := by
  rw [getOP_bucket, bucket_CD]
  simp [getOPLoop, getOPBody, Op.mk1, memcmpNe, isRValidOrNone, isRValidOrNoneLoop,
    I_DB, isRValidType]

theorem bucket_80 : ops.filter (fun o => !firstDiffers o [0x80]) =
    [Op.mk1x 0x80 "ADC" R_RMB_DB OPExt.N 2, Op.mk1x 0x80 "ADD" R_RMB_DB OPExt.N 0,
     Op.mk1x 0x80 "AND" R_RMB_DB OPExt.N 4, Op.mk1x 0x80 "CMP" R_RMB_DB OPExt.N 7,
     Op.mk1x 0x80 "OR" R_RMB_DB OPExt.N 1, Op.mk1x 0x80 "SBB" R_RMB_DB OPExt.N 3,
     Op.mk1x 0x80 "SUB" R_RMB_DB OPExt.N 5, Op.mk1x 0x80 "XOR" R_RMB_DB OPExt.N 6] := by
  decide!

theorem getOP_80_7 (b : Byte) (ws : List Byte) (hn : (b.val >>> 3) &&& 0b111 = 7) :
    getOP (0x80 :: b :: ws) (ws.length + 2) =
      some (some (Op.mk1x 0x80 "CMP" R_RMB_DB OPExt.N 7)) := by
  have h := getOP_bucket 0x80 (b :: ws)
  rw [List.length_cons] at h
  have hlen : ¬ ws.length + 1 + 1 < 2 := by omega
  rw [h, bucket_80]
  simp [getOPLoop, getOPBody, Op.mk1x, memcmpNe, hn, hlen]

theorem format_DEC (v : Nat) : (Num.mk v NumType.DEC).format = fmtDec v := rfl

theorem bucket_D8 : ops.filter (fun o => !firstDiffers o [0xD8]) =
    [Op.mk1x 0xD8 "FADD" R_RMDW OPExt.FPU_XY 0, Op.mk1x 0xD8 "FADD" F_ST_STREG OPExt.FPU_11 0,
     Op.mk1x 0xD8 "FMUL" R_RMDW OPExt.FPU_XY 1, Op.mk1x 0xD8 "FMUL" F_ST_STREG OPExt.FPU_11 1,
     Op.mk1x 0xD8 "FCOM" R_RMDW OPExt.FPU_XY 2, Op.mk1x 0xD8 "FCOM" F_STREG OPExt.FPU_11 2,
     Op.mk1x 0xD8 "FCOMP" R_RMDW OPExt.FPU_XY 3, Op.mk1x 0xD8 "FCOMP" F_STREG OPExt.FPU_11 3,
     Op.mk1x 0xD8 "FSUB" R_RMDW OPExt.FPU_XY 4, Op.mk1x 0xD8 "FSUB" F_ST_STREG OPExt.FPU_11 4,
     Op.mk1x 0xD8 "FSUBR" R_RMDW OPExt.FPU_XY 5, Op.mk1x 0xD8 "FSUBR" F_ST_STREG OPExt.FPU_11 5,
     Op.mk1x 0xD8 "FDIV" R_RMDW OPExt.FPU_XY 6, Op.mk1x 0xD8 "FDIV" F_ST_STREG OPExt.FPU_11 6,
     Op.mk1x 0xD8 "FDIVR" R_RMDW OPExt.FPU_XY 7, Op.mk1x 0xD8 "FDIVR" F_ST_STREG OPExt.FPU_11 7] := by
  decide!

theorem getOP_D8_reg0 (b : Byte) (ws : List Byte) (hmode : b.val >>> 6 = 0b11)
    (hn : (b.val >>> 3) &&& 0b111 = 0) :
    getOP (0xD8 :: b :: ws) (ws.length + 2) =
      some (some (Op.mk1x 0xD8 "FADD" F_ST_STREG OPExt.FPU_11 0)) := by
  have h := getOP_bucket 0xD8 (b :: ws)
  rw [List.length_cons] at h
  have hlen : ¬ ws.length + 1 + 1 < 2 := by omega
  rw [h, bucket_D8]
  simp [getOPLoop, getOPBody, Op.mk1x, memcmpNe, hn, hmode, hlen]

/-- The step on the buffer `D8 b` for a byte `b` with mode 11 and bits 5-3
zero: the register form of `FADD`. -/
theorem fadd_reg_step (b : Byte) (execOffset : Nat) (hmode : b.val >>> 6 = 0b11)
    (hn : (b.val >>> 3) &&& 0b111 = 0) :
    decStep [0xD8, b] execOffset 0 =
      some (⟨"0x".toList ++ fmtHex 8 (execOffset % 2 ^ 32) ++ ":  ".toList ++ "D8 ".toList ++
        fmtHex 2 b.val ++ " ".toList ++ "; ".toList ++ List.replicate 15 ' ' ++
        "FADD".toList ++ List.replicate 10 ' ' ++ " ST, ST".toList ++
        fmtDec (b.val &&& 0b111)⟩, 2) := by
  have hop : getOP (([0xD8, b] : List Byte).drop 0) (([0xD8, b] : List Byte).length - 0)
      = some (some (Op.mk1x 0xD8 "FADD" F_ST_STREG OPExt.FPU_11 0)) :=
    getOP_D8_reg0 b [] hmode hn
  have hlen : getLen (Op.mk1x 0xD8 "FADD" F_ST_STREG OPExt.FPU_11 0).description
      (([0xD8, b] : List Byte).drop
        (0 + (Op.mk1x 0xD8 "FADD" F_ST_STREG OPExt.FPU_11 0).codeSz)) = some 1 := by
    simp [getLen, getRMOffset, getRMOffsetLoop, getLenLoop, Op.mk1x, F_ST_STREG, isRMType]
  have h8 : (fmtHex 8 (execOffset % 4294967296)).length = 8 := fmtHex8_mod execOffset
  have h2 := fmtHex2_byte b
  have hD8 : fmtHex 2 (0xD8 : Byte).val = "D8".toList := by decide
  have hdec : (fmtDec (b.val &&& 7)).length = 1 := by
    have h7 : b.val &&& 7 < 8 := and7_lt b.val
    generalize b.val &&& 7 = r at h7
    interval_cases r <;> decide
  rw [decStep_fit _ _ _ _ 1 (by simp) hop hlen (by simp [Op.mk1x])]
  simp [headerLine, Op.mk1x, rawField, printDescription, getRMOffset, getRMOffsetLoop,
    printDescriptionLoop, printSlot, F_ST_STREG, isRMType,
    Line.empty, Line.appendNum_eq, Line.appendStr_eq, Line.appendPad_eq, format_HEX4,
    format_HEX1_NO_DECORATION, format_DEC, h8, h2, hD8, hdec]

/-! ## The claims on lengths, gating and the worked examples -/

theorem fmtHex2_90 : fmtHex 2 (0x90 : Byte).val = "90".toList := by decide

theorem dec_90 : dec [0x90] 0x100 =
    Outcome.finished [⟨"0x00000100:  90 ;                   NOP           ".toList⟩] := by
  decide!

theorem getLen_none (decode : List Byte) : getLen Description.none decode = some 0 := by
  simp [getLen, getRMOffset, getRMOffsetLoop, getLenLoop, Description.none, isRMType]

theorem printDescription_none (decode : List Byte) (line : Line) :
    printDescription Description.none decode line = some line := by
  simp [printDescription, getRMOffset, getRMOffsetLoop, printDescriptionLoop, Description.none,
    isRMType]

/-- C14: the NOP example, generalised.  In a buffer whose length the 32-bit
cursor can hold, at any cursor `c` where the byte is `0x90` the matcher selects
`NOP` (not the later `XCHG AX, AX` entry on the same opcode) and the step
consumes exactly one byte; its line is the address `execOffset + c` modulo
`2 ^ 32` as eight hexadecimal digits, the raw byte `90`, the mnemonic `NOP` at
column 36 and blanks up to column 50, with nothing after them.  For the buffer
`90` at base `0x100` the sweep prints that single line with address
`0x00000100`. -/
theorem C14_nop_step (decode : List Byte) (execOffset c : Nat)
    (hlt : decode.length < 2 ^ 32) (hb : decode[c]? = some 0x90) :
    getOP (decode.drop c) (decode.length - c) =
      some (some (Op.mk1 0x90 "NOP" Description.none)) ∧
    decStep decode execOffset c =
      some (⟨"0x".toList ++ fmtHex 8 ((execOffset + c) % 2 ^ 32) ++ ":  ".toList ++
        "90 ".toList ++ "; ".toList ++ List.replicate 18 ' ' ++ "NOP".toList ++
        List.replicate 11 ' '⟩, c + 1) ∧
    dec [0x90] 0x100 =
      Outcome.finished [⟨"0x00000100:  90 ;                   NOP           ".toList⟩] := by
  obtain ⟨hd, hl⟩ := drop_eq_cons decode c _ hb
  have hc := (List.getElem?_eq_some_iff.1 hb).1
  have hop : getOP (decode.drop c) (decode.length - c) =
      some (some (Op.mk1 0x90 "NOP" Description.none)) := by
    rw [hd, hl]
    exact getOP_90 _
  refine ⟨hop, ?_, dec_90⟩
  have h8 : (fmtHex 8 ((execOffset + c) % 4294967296)).length = 8 :=
    fmtHex8_mod (execOffset + c)
  rw [decStep_matched _ _ _ _ hop,
    printOP_fit decode c execOffset (Op.mk1 0x90 "NOP" Description.none) Line.empty 0 hlt
      (by simpa [Op.mk1] using hc) (getLen_none _) (Nat.zero_le _)]
  have hdesc : (Op.mk1 0x90 "NOP" Description.none).description = Description.none := rfl
  rw [hdesc, printDescription_none]
  simp [headerLine, hd, Op.mk1, rawField, Line.empty, Line.appendNum_eq,
    Line.appendStr_eq, Line.appendPad_eq, format_HEX4, format_HEX1_NO_DECORATION, h8,
    fmtHex2_90]
  omega

/-- C14 on the buffer `8D C0 90` at cursor 2. -/
theorem C14_nop_step_witness :
    ([0x8D, 0xC0, 0x90] : List Byte).length < 2 ^ 32 ∧
    ([0x8D, 0xC0, 0x90] : List Byte)[2]? = some 0x90 ∧
    decStep [0x8D, 0xC0, 0x90] 0x100 2 =
      some (⟨"0x".toList ++ fmtHex 8 ((0x100 + 2) % 2 ^ 32) ++ ":  ".toList ++
        "90 ".toList ++ "; ".toList ++ List.replicate 18 ' ' ++ "NOP".toList ++
        List.replicate 11 ' '⟩, 2 + 1) :=
  ⟨by decide, by decide,
    (C14_nop_step [0x8D, 0xC0, 0x90] 0x100 2 (by decide) (by decide)).2.1⟩

/-- C11: the length computation.  For every description and every byte after
the opcode, `getRMOffset` returns the addressing bytes `k` and `getLen` returns
`k` plus 1 for each `DB` slot, 2 for each `DW`, `DEREFBYTEATDW` or
`DEREFWORDATDW` slot and 4 for each `DDW` slot, and nothing for any other slot
(so `REGB`, `REGW`, `CSEG` and `CONSTBYTE` slots contribute no byte); `k` is 0
when the description has no register-or-memory, memory-only or FPU stack
slot.  On any window, `getLen` is `getRMOffset` plus those widths. -/
theorem C11_getLen_formula (description : Description) (b : Byte) (rest : List Byte) :
    (∃ k, getRMOffset description (b :: rest) = some k ∧
      getLen description (b :: rest) =
        some (k + 1 * description.d.countP (fun d => d.type = DType.DB) +
          2 * description.d.countP (fun d => d.type = DType.DW ∨
            d.type = DType.DEREFBYTEATDW ∨ d.type = DType.DEREFWORDATDW) +
          4 * description.d.countP (fun d => d.type = DType.DDW)) ∧
      ((∀ d ∈ description.d, isRMType d.type = false ∧ d.type ≠ DType.ST ∧
          d.type ≠ DType.STREG) → k = 0)) ∧
    (∀ decode, getLen description decode =
      (getRMOffset description decode).map (fun k =>
        k + 1 * description.d.countP (fun d => d.type = DType.DB) +
          2 * description.d.countP (fun d => d.type = DType.DW ∨
            d.type = DType.DEREFBYTEATDW ∨ d.type = DType.DEREFWORDATDW) +
          4 * description.d.countP (fun d => d.type = DType.DDW))) := by
  have hall : ∀ decode, getLen description decode =
      (getRMOffset description decode).map (fun k =>
        k + 1 * description.d.countP (fun d => d.type = DType.DB) +
          2 * description.d.countP (fun d => d.type = DType.DW ∨
            d.type = DType.DEREFBYTEATDW ∨ d.type = DType.DEREFWORDATDW) +
          4 * description.d.countP (fun d => d.type = DType.DDW)) := by
    intro decode
    rw [getLen]
    cases hk : getRMOffset description decode with
    | none => rfl
    | some k =>
      simp only [Option.bind_eq_bind, Option.some_bind, Option.map_some']
      rw [getLenLoop_eq, immSum_count]
      congr 1
      omega
  refine ⟨?_, hall⟩
  obtain ⟨k, hk, hk0⟩ := getRMOffsetLoop_cons description.d b rest
  refine ⟨k, hk, ?_, hk0⟩
  rw [hall, getRMOffset, hk]
  rfl

/-- C12: the addressing length.  For every description the source declares
that has a register-or-memory or memory-only slot, and every addressing byte
`b` with mode `b >> 6` and r/m `b & 7`, `getRMOffset` returns `1 + d` with
`d = 0` for mode 11, `d = 2` for mode 00 with r/m 110, `d = 0` for mode 00
with another r/m, `d = 1` for mode 01 and `d = 2` for mode 10. -/
theorem C12_getRMOffset_cases (description : Description)
    (hdecl : description ∈ allDescriptions)
    (hslot : ∃ d ∈ description.d, d.type = DType.RMB ∨ d.type = DType.RMW ∨
      d.type = DType.RMDW ∨ d.type = DType.RMQW ∨ d.type = DType.MEM)
    (b : Byte) (rest : List Byte) :
    getRMOffset description (b :: rest) =
      some (1 + (if b.val >>> 6 = 0b11 then 0
        else if b.val >>> 6 = 0b00 then (if b.val &&& 0b111 = 0b110 then 2 else 0)
        else if b.val >>> 6 = 0b01 then 1 else 2)) := by
  obtain ⟨d, hd, ht⟩ := hslot
  have hrm : isRMType d.type = true := by
    rcases ht with h | h | h | h | h <;> simp [isRMType, h]
  rw [getRMOffset, getRMOffsetLoop_rm description.d (b :: rest)
    (allDescriptions_slotsOK description hdecl).2.1 ⟨d, hd, hrm⟩, ← rmLen_cases]
  simp

/-- C12 on the declared description `R_RMW_DW` and the addressing byte `0x46`
(mode 01): one displacement byte. -/
theorem C12_getRMOffset_cases_witness :
    R_RMW_DW ∈ allDescriptions ∧
    (∃ d ∈ R_RMW_DW.d, d.type = DType.RMB ∨ d.type = DType.RMW ∨
      d.type = DType.RMDW ∨ d.type = DType.RMQW ∨ d.type = DType.MEM) ∧
    getRMOffset R_RMW_DW ((0x46 : Byte) :: [0x10, 0x34, 0x12]) =
      some (1 + (if (0x46 : Byte).val >>> 6 = 0b11 then 0
        else if (0x46 : Byte).val >>> 6 = 0b00 then
          (if (0x46 : Byte).val &&& 0b111 = 0b110 then 2 else 0)
        else if (0x46 : Byte).val >>> 6 = 0b01 then 1 else 2)) :=
  ⟨by decide!, ⟨⟨DType.RMW, 0⟩, by decide!, Or.inr (Or.inl rfl)⟩,
    C12_getRMOffset_cases R_RMW_DW (by decide!)
      ⟨⟨DType.RMW, 0⟩, by decide!, Or.inr (Or.inl rfl)⟩ 0x46 [0x10, 0x34, 0x12]⟩

/-- C13: extension gating.  For every window and every descriptor `op` that
`getOP` returns with an extension kind other than `NONE`, the byte `b` at
offset `codeSz` exists, bits 5-3 of `b` equal `op.n`, the mode bits of `b` are
not 11 when the kind is the FPU memory form `FPU_XY`, and they are 11 when the
kind is the FPU register form `FPU_11`. -/
theorem C13_extension_gating (win : List Byte) (op : Op)
    (hop : getOP win win.length = some (some op)) (hext : op.opExt ≠ OPExt.NONE) :
    ∃ b : Byte, win[op.codeSz]? = some b ∧ (b.val >>> 3) &&& 0b111 = op.n ∧
      (op.opExt = OPExt.FPU_XY → b.val >>> 6 ≠ 0b11) ∧
      (op.opExt = OPExt.FPU_11 → b.val >>> 6 = 0b11) :=
  (getOP_some_matches win op hop).2.2.1 hext

/-- C13 on the window `D8 C1`: the register form of `FADD` is returned. -/
theorem C13_extension_gating_witness :
    getOP ([0xD8, 0xC1] : List Byte) ([0xD8, 0xC1] : List Byte).length =
      some (some (Op.mk1x 0xD8 "FADD" F_ST_STREG OPExt.FPU_11 0)) ∧
    (Op.mk1x 0xD8 "FADD" F_ST_STREG OPExt.FPU_11 0).opExt ≠ OPExt.NONE ∧
    ∃ b : Byte, ([0xD8, 0xC1] : List Byte)[(Op.mk1x 0xD8 "FADD" F_ST_STREG
        OPExt.FPU_11 0).codeSz]? = some b ∧
      (b.val >>> 3) &&& 0b111 = (Op.mk1x 0xD8 "FADD" F_ST_STREG OPExt.FPU_11 0).n ∧
      ((Op.mk1x 0xD8 "FADD" F_ST_STREG OPExt.FPU_11 0).opExt = OPExt.FPU_XY →
        b.val >>> 6 ≠ 0b11) ∧
      ((Op.mk1x 0xD8 "FADD" F_ST_STREG OPExt.FPU_11 0).opExt = OPExt.FPU_11 →
        b.val >>> 6 = 0b11) :=
  ⟨by decide!, by decide,
    C13_extension_gating [0xD8, 0xC1] (Op.mk1x 0xD8 "FADD" F_ST_STREG OPExt.FPU_11 0)
      (by decide!) (by decide)⟩

theorem fmtHex2_B8 : fmtHex 2 (0xB8 : Byte).val = "B8".toList := by decide

theorem dec_B8_example : dec [0xB8, 0x34, 0x12] 0x100 = Outcome.finished
    [⟨"0x00000100:  B8 34 12 ;             MOV            AX, WORD 0x1234".toList⟩] := by
  decide!

/-- C15: the `MOV AX, imm16` example, generalised.  For all bytes `lo`, `hi` and
every base offset the buffer `B8 lo hi` decodes to exactly one line, consuming
its 3 bytes: address, the three raw bytes, the mnemonic `MOV` at column 36 and,
from column 50 on, the operands `AX, WORD 0x` followed by the four uppercase
hexadecimal digits of `hi * 256 + lo`.  For `B8 34 12` at base `0x100` the
operands are `AX, WORD 0x1234`. -/
theorem C15_mov_ax_imm16 (lo hi : Byte) (execOffset : Nat) :
    decStep [0xB8, lo, hi] execOffset 0 =
      some (⟨"0x".toList ++ fmtHex 8 (execOffset % 2 ^ 32) ++ ":  ".toList ++ "B8 ".toList ++
        fmtHex 2 lo.val ++ " ".toList ++ fmtHex 2 hi.val ++ " ".toList ++ "; ".toList ++
        List.replicate 12 ' ' ++ "MOV".toList ++ List.replicate 11 ' ' ++
        " AX, WORD 0x".toList ++ hexFixed 4 (hi.val * 256 + lo.val)⟩, 3) ∧
    dec [0xB8, lo, hi] execOffset =
      Outcome.finished [⟨"0x".toList ++ fmtHex 8 (execOffset % 2 ^ 32) ++ ":  ".toList ++
        "B8 ".toList ++ fmtHex 2 lo.val ++ " ".toList ++ fmtHex 2 hi.val ++ " ".toList ++
        "; ".toList ++ List.replicate 12 ' ' ++ "MOV".toList ++ List.replicate 11 ' ' ++
        " AX, WORD 0x".toList ++ hexFixed 4 (hi.val * 256 + lo.val)⟩] ∧
    dec [0xB8, 0x34, 0x12] 0x100 = Outcome.finished
      [⟨"0x00000100:  B8 34 12 ;             MOV            AX, WORD 0x1234".toList⟩] := by
  have hop : getOP (([0xB8, lo, hi] : List Byte).drop 0) (([0xB8, lo, hi] : List Byte).length - 0)
      = some (some (Op.mk1 0xB8 "MOV" REG_AX_DW)) := getOP_B8 [lo, hi]
  have hlen : getLen (Op.mk1 0xB8 "MOV" REG_AX_DW).description
      (([0xB8, lo, hi] : List Byte).drop (0 + (Op.mk1 0xB8 "MOV" REG_AX_DW).codeSz)) = some 2 := by
    simp [getLen, getRMOffset, getRMOffsetLoop, getLenLoop, Op.mk1, REG_AX_DW, isRMType]
  have h8 : (fmtHex 8 (execOffset % 4294967296)).length = 8 := fmtHex8_mod execOffset
  have h2a := fmtHex2_byte lo
  have h2b := fmtHex2_byte hi
  have h4 := fmtHex4_word lo hi
  have h4e : fmtHex 4 (hi.val * 256 + lo.val) = hexFixed 4 (hi.val * 256 + lo.val) :=
    fmtHex_eq 4 _ (by norm_num) (by have h1 := lo.isLt; have h2 := hi.isLt; omega)
  have hw : (lo.val + (hi.val <<< 8)) % 65536 = hi.val * 256 + lo.val := word_le lo hi
  have hstep : decStep [0xB8, lo, hi] execOffset 0 =
      some (⟨"0x".toList ++ fmtHex 8 (execOffset % 2 ^ 32) ++ ":  ".toList ++ "B8 ".toList ++
        fmtHex 2 lo.val ++ " ".toList ++ fmtHex 2 hi.val ++ " ".toList ++ "; ".toList ++
        List.replicate 12 ' ' ++ "MOV".toList ++ List.replicate 11 ' ' ++
        " AX, WORD 0x".toList ++ hexFixed 4 (hi.val * 256 + lo.val)⟩, 3) := by
    rw [decStep_fit _ _ _ _ 2 (by simp) hop hlen (by simp [Op.mk1])]
    simp [headerLine, Op.mk1, rawField, printDescription, getRMOffset, getRMOffsetLoop,
      printDescriptionLoop, printSlot, REG_AX_DW, isRMType, rw, Reg.AX, hw,
      Line.empty, Line.appendNum_eq, Line.appendStr_eq, Line.appendPad_eq, format_HEX4,
      format_HEX2, format_HEX1_NO_DECORATION, h8, h2a, h2b, h4, fmtHex2_B8]
    exact h4e
  refine ⟨hstep, ?_, dec_B8_example⟩
  simp [dec, decLoop, hstep, Outcome.cons]

theorem fmtHex2_CD : fmtHex 2 (0xCD : Byte).val = "CD".toList := by decide

theorem dec_CD_example : dec [0xCD, 0x21] 0x100 = Outcome.finished
    [⟨"0x00000100:  CD 21 ;                INT            BYTE 0x21".toList⟩] := by
  decide!

/-- C16: the `INT imm8` example, generalised.  For every byte `v` and every
base offset the buffer `CD v` decodes to exactly one line, consuming its 2
bytes: address, the two raw bytes, the mnemonic `INT` at column 36 and, from
column 50 on, the operand `BYTE 0x` followed by the two uppercase hexadecimal
digits of `v`.  For `CD 21` at base `0x100` the operand is `BYTE 0x21`. -/
theorem C16_int_imm8 (v : Byte) (execOffset : Nat) :
    decStep [0xCD, v] execOffset 0 =
      some (⟨"0x".toList ++ fmtHex 8 (execOffset % 2 ^ 32) ++ ":  ".toList ++ "CD ".toList ++
        fmtHex 2 v.val ++ " ".toList ++ "; ".toList ++ List.replicate 15 ' ' ++
        "INT".toList ++ List.replicate 11 ' ' ++ " BYTE 0x".toList ++ hexFixed 2 v.val⟩, 2) ∧
    dec [0xCD, v] execOffset =
      Outcome.finished [⟨"0x".toList ++ fmtHex 8 (execOffset % 2 ^ 32) ++ ":  ".toList ++
        "CD ".toList ++ fmtHex 2 v.val ++ " ".toList ++ "; ".toList ++
        List.replicate 15 ' ' ++ "INT".toList ++ List.replicate 11 ' ' ++
        " BYTE 0x".toList ++ hexFixed 2 v.val⟩] ∧
    dec [0xCD, 0x21] 0x100 = Outcome.finished
      [⟨"0x00000100:  CD 21 ;                INT            BYTE 0x21".toList⟩] := by
  have hop : getOP (([0xCD, v] : List Byte).drop 0) (([0xCD, v] : List Byte).length - 0)
      = some (some (Op.mk1 0xCD "INT" I_DB)) := getOP_CD [v]
  have hlen : getLen (Op.mk1 0xCD "INT" I_DB).description
      (([0xCD, v] : List Byte).drop (0 + (Op.mk1 0xCD "INT" I_DB).codeSz)) = some 1 := by
    simp [getLen, getRMOffset, getRMOffsetLoop, getLenLoop, Op.mk1, I_DB, isRMType]
  have h8 : (fmtHex 8 (execOffset % 4294967296)).length = 8 := fmtHex8_mod execOffset
  have h2 := fmtHex2_byte v
  have h2e : fmtHex 2 v.val = hexFixed 2 v.val :=
    fmtHex_eq 2 _ (by norm_num) (by have h1 := v.isLt; omega)
  have hstep : decStep [0xCD, v] execOffset 0 =
      some (⟨"0x".toList ++ fmtHex 8 (execOffset % 2 ^ 32) ++ ":  ".toList ++ "CD ".toList ++
        fmtHex 2 v.val ++ " ".toList ++ "; ".toList ++ List.replicate 15 ' ' ++
        "INT".toList ++ List.replicate 11 ' ' ++ " BYTE 0x".toList ++ hexFixed 2 v.val⟩, 2) := by
    rw [decStep_fit _ _ _ _ 1 (by simp) hop hlen (by simp [Op.mk1])]
    simp [headerLine, Op.mk1, rawField, printDescription, getRMOffset, getRMOffsetLoop,
      printDescriptionLoop, printSlot, I_DB, isRMType,
      Line.empty, Line.appendNum_eq, Line.appendStr_eq, Line.appendPad_eq, format_HEX4,
      format_HEX1, format_HEX1_NO_DECORATION, h8, h2, fmtHex2_CD]
    exact h2e
  refine ⟨hstep, ?_, dec_CD_example⟩
  simp [dec, decLoop, hstep, Outcome.cons]

/-- C18: the opcode extension example, generalised.  On every window of at
least two bytes whose first byte is `0x80` and whose second byte has bits 5-3
equal to 7, `getOP` returns the `CMP` descriptor with slots `RMB`, `DB` (not
`ADC`, `ADD`, `AND` or another entry on opcode `0x80`); the buffer
`80 3E 34 12 00` at base `0x100` decodes to one `CMP` line that consumes all 5
bytes. -/
theorem C18_cmp_extension (b : Byte) (rest : List Byte)
    (hn : (b.val >>> 3) &&& 0b111 = 7) :
    getOP (0x80 :: b :: rest) (0x80 :: b :: rest).length =
      some (some (Op.mk1x 0x80 "CMP" R_RMB_DB OPExt.N 7)) ∧
    decStep [0x80, 0x3E, 0x34, 0x12, 0x00] 0x100 0 =
      some (⟨"0x00000100:  80 3E 34 12 00 ;       CMP            BYTE [0x1234], BYTE 0x00".toList⟩,
        5) ∧
    dec [0x80, 0x3E, 0x34, 0x12, 0x00] 0x100 = Outcome.finished
      [⟨"0x00000100:  80 3E 34 12 00 ;       CMP            BYTE [0x1234], BYTE 0x00".toList⟩] :=
  ⟨getOP_80_7 b rest hn, by decide!, by decide!⟩

/-- C18 on the window `80 3E 34 12 00`. -/
theorem C18_cmp_extension_witness :
    ((0x3E : Byte).val >>> 3) &&& 0b111 = 7 ∧
    getOP (0x80 :: 0x3E :: [0x34, 0x12, 0x00]) (0x80 :: 0x3E :: [0x34, 0x12, 0x00]).length =
      some (some (Op.mk1x 0x80 "CMP" R_RMB_DB OPExt.N 7)) :=
  ⟨by decide, (C18_cmp_extension 0x3E [0x34, 0x12, 0x00] (by decide)).1⟩

theorem dec_D8_example : dec [0xD8, 0xC1] 0x100 = Outcome.finished
    [⟨"0x00000100:  D8 C1 ;                FADD           ST, ST1".toList⟩] := by
  decide!

/-- C17: the `FADD` register form example, generalised.  For every `i` in
`0..7` and every base offset the buffer `D8 (C0 + i)` is matched to the register
form descriptor of `FADD` (`FPU_11`, slots `ST`, `STREG`), not to the memory
form on the same opcode and discriminant, and decodes to exactly one line that
consumes its 2 bytes, with mnemonic `FADD` at column 36 and, from column 50 on,
the operands `ST, ST` followed by the decimal digit `i`.  For `D8 C1` at base
`0x100` the operands are `ST, ST1`. -/
theorem C17_fadd_register_form (i : Fin 8) (execOffset : Nat) :
    getOP [0xD8, (⟨0xC0 + i.val, by omega⟩ : Byte)] 2 =
      some (some (Op.mk1x 0xD8 "FADD" F_ST_STREG OPExt.FPU_11 0)) ∧
    dec [0xD8, (⟨0xC0 + i.val, by omega⟩ : Byte)] execOffset =
      Outcome.finished [⟨"0x".toList ++ fmtHex 8 (execOffset % 2 ^ 32) ++ ":  ".toList ++
        "D8 ".toList ++ fmtHex 2 (0xC0 + i.val) ++ " ".toList ++ "; ".toList ++
        List.replicate 15 ' ' ++ "FADD".toList ++ List.replicate 10 ' ' ++
        " ST, ST".toList ++ [Nat.digitChar i.val]⟩] ∧
    dec [0xD8, 0xC1] 0x100 = Outcome.finished
      [⟨"0x00000100:  D8 C1 ;                FADD           ST, ST1".toList⟩] := by
  have key : ∀ b : Byte, b.val >>> 6 = 0b11 → (b.val >>> 3) &&& 0b111 = 0 →
      dec [0xD8, b] execOffset =
        Outcome.finished [⟨"0x".toList ++ fmtHex 8 (execOffset % 2 ^ 32) ++ ":  ".toList ++
          "D8 ".toList ++ fmtHex 2 b.val ++ " ".toList ++ "; ".toList ++
          List.replicate 15 ' ' ++ "FADD".toList ++ List.replicate 10 ' ' ++
          " ST, ST".toList ++ fmtDec (b.val &&& 0b111)⟩] := by
    intro b hmode hn
    simp [dec, decLoop, fadd_reg_step b execOffset hmode hn, Outcome.cons]
  refine ⟨?_, ?_, dec_D8_example⟩
  · fin_cases i <;> decide!
  · fin_cases i
    all_goals
      rw [key _ (by decide) (by decide)]
      rfl

/-- C19: register operands.  For every addressing byte `b` with mode 11, a
byte width register-or-memory slot (`RMB`) appends exactly the name at index
`b & 7` of the byte register table `rb` (AL, CL, DL, BL, AH, CH, DH, BH) and a
word width slot (`RMW`) exactly the name at index `b & 7` of the word register
table `rw` (AX, CX, DX, BX, SP, BP, SI, DI): no width keyword and no brackets
are added, and no byte is consumed. -/
theorem C19_register_operands (b : Byte) (rest : List Byte) (num offset : Nat) (line : Line)
    (hmode : b.val >>> 6 = 0b11) :
    (∃ nm, rb[b.val &&& 0b111]? = some nm ∧
      printSlot ⟨DType.RMB, num⟩ (b :: rest) offset line = some (offset, line.appendStr nm)) ∧
    (∃ nm, rw[b.val &&& 0b111]? = some nm ∧
      printSlot ⟨DType.RMW, num⟩ (b :: rest) offset line = some (offset, line.appendStr nm)) ∧
    rb = ["AL", "CL", "DL", "BL", "AH", "CH", "DH", "BH"] ∧
    rw = ["AX", "CX", "DX", "BX", "SP", "BP", "SI", "DI"] := by
  obtain ⟨n1, hn1⟩ := lookup_some rb (b.val &&& 0b111) (by simpa [rb] using and7_lt b.val)
  obtain ⟨n2, hn2⟩ := lookup_some rw (b.val &&& 0b111) (by simpa [rw] using and7_lt b.val)
  refine ⟨⟨n1, hn1, ?_⟩, ⟨n2, hn2, ?_⟩, rfl, rfl⟩
  · simp [printSlot, printRMSlot, printRM, hmode, R_Type.cast, hn1]
  · simp [printSlot, printRMSlot, printRM, hmode, R_Type.cast, hn2]

/-- C19 on the addressing byte `0xC3` (mode 11, r/m 3): `BL` and `BX`. -/
theorem C19_register_operands_witness :
    (0xC3 : Byte).val >>> 6 = 0b11 ∧
    (∃ nm, rb[(0xC3 : Byte).val &&& 0b111]? = some nm ∧
      printSlot ⟨DType.RMB, 0⟩ ((0xC3 : Byte) :: []) 1 Line.empty =
        some (1, Line.empty.appendStr nm)) :=
  ⟨by decide, (C19_register_operands 0xC3 [] 0 1 Line.empty (by decide)).1⟩

/-- C20: register field operands.  For every addressing byte `b`, a register
only slot `RB` appends the name at index `(b >> 3) & 7` of the byte register
table and a slot `RW` the name at that index of the word register table,
consuming no byte; for two addressing bytes that agree on bits 5-3 the slot
renders the same, whatever their other bits and whatever bytes follow. -/
theorem C20_register_field_operands (b : Byte) (rest : List Byte) (num offset : Nat)
    (line : Line) :
    (∃ nm, rb[(b.val >>> 3) &&& 0b111]? = some nm ∧
      printSlot ⟨DType.RB, num⟩ (b :: rest) offset line = some (offset, line.appendStr nm)) ∧
    (∃ nm, rw[(b.val >>> 3) &&& 0b111]? = some nm ∧
      printSlot ⟨DType.RW, num⟩ (b :: rest) offset line = some (offset, line.appendStr nm)) ∧
    (∀ (b2 : Byte) (rest2 : List Byte),
      (b2.val >>> 3) &&& 0b111 = (b.val >>> 3) &&& 0b111 →
      printSlot ⟨DType.RB, num⟩ (b2 :: rest2) offset line =
        printSlot ⟨DType.RB, num⟩ (b :: rest) offset line ∧
      printSlot ⟨DType.RW, num⟩ (b2 :: rest2) offset line =
        printSlot ⟨DType.RW, num⟩ (b :: rest) offset line) := by
  obtain ⟨n1, hn1⟩ := lookup_some rb ((b.val >>> 3) &&& 0b111)
    (by simpa [rb] using and7_lt _)
  obtain ⟨n2, hn2⟩ := lookup_some rw ((b.val >>> 3) &&& 0b111)
    (by simpa [rw] using and7_lt _)
  refine ⟨⟨n1, hn1, ?_⟩, ⟨n2, hn2, ?_⟩, ?_⟩
  · simp [printSlot, hn1]
  · simp [printSlot, hn2]
  · intro b2 rest2 h
    simp [printSlot, h]

/-! ## The line buffer as an append-only text -/

theorem Line.appendStr_chars (line : Line) (s : String) :
    line.appendStr s = line.appendChars s.toList := rfl

theorem Line.appendNum_chars (line : Line) (num : Num) :
    line.appendNum num = line.appendChars num.format := rfl

/-- Two writes to a line are one write of the concatenated text, also when the
line fills up. -/
theorem Line.appendChars_appendChars (line : Line) (s t : List Char) :
    (line.appendChars s).appendChars t = line.appendChars (s ++ t) := by
  simp only [Line.appendChars, Line.len, List.length_append, List.length_take, Line.mk.injEq,
    List.append_assoc, List.append_cancel_left_eq]
  rw [List.take_append_eq_append_take]
  congr 1
  · apply List.take_eq_take.2
    omega
  · apply List.take_eq_take.2
    omega

theorem Line.appendChars_nil (line : Line) : line.appendChars [] = line := by
  simp [Line.appendChars]

theorem Line.empty_appendChars (s : List Char) : (Line.empty.appendChars s).text = s.take 256 := by
  simp only [Line.appendChars, Line.len, Line.empty, List.length_nil, List.nil_append]
  apply List.take_eq_take.2
  omega

theorem Line.appendChars_take (line : Line) (s : List Char) :
    line.appendChars (s.take 256) = line.appendChars s := by
  simp only [Line.appendChars, Line.len, List.length_take, Line.mk.injEq,
    List.append_cancel_left_eq, List.take_take]
  apply List.take_eq_take.2
  omega

/-! ## Operand rendering -/

theorem fmtHex2_digits (v : Nat) (hv : v < 256) : fmtHex 2 v = hex2 v := by
  rw [fmtHex_eq 2 v (by norm_num) (by norm_num; omega)]
  simp [hexFixed, hex2]

theorem fmtHex4_digits (v : Nat) (hv : v < 65536) : fmtHex 4 v = hex4 v := by
  rw [fmtHex_eq 4 v (by norm_num) (by norm_num; omega)]
  simp [hexFixed, hex4, Nat.div_div_eq_div_mul]

theorem fmtHex8_digits (v : Nat) (hv : v < 2 ^ 32) : fmtHex 8 v = hex8 v := by
  rw [fmtHex_eq 8 v (by norm_num) (by norm_num; omega)]
  simp [hexFixed, hex8, Nat.div_div_eq_div_mul]

theorem word_le2 (lo hi : Byte) : (lo.val + (hi.val <<< 8)) % 2 ^ 16 = lo.val + 256 * hi.val := by
  rw [word_le]; omega

theorem word_lt (lo hi : Byte) : lo.val + 256 * hi.val < 65536 := by
  have h1 := lo.isLt
  have h2 := hi.isLt
  omega

theorem modNames_length (E : String) (r : Nat) (h : modNames[r]? = some E) :
    E.toList.length ≤ 7 := by
  have hm : E ∈ modNames := List.getElem?_mem h
  have hall : ∀ s ∈ modNames, s.toList.length ≤ 7 := by decide
  exact hall E hm

theorem rmSlot_printSlot (t : DType) (w : Width) (W : String)
    (h : (t, w, W) ∈ rmSlotKeywords) (num : Nat) (decode : List Byte) (offset : Nat)
    (line : Line) :
    getWidthName w = W ∧ W.toList.length ≤ 5 ∧
    printSlot ⟨t, num⟩ decode offset line =
      (printRMSlot decode w line).bind (fun l => some (offset, l)) := by
  simp only [rmSlotKeywords, List.mem_cons, Prod.mk.injEq, List.mem_singleton, List.not_mem_nil,
    or_false] at h
  rcases h with ⟨rfl, rfl, rfl⟩ | ⟨rfl, rfl, rfl⟩ | ⟨rfl, rfl, rfl⟩ | ⟨rfl, rfl, rfl⟩ |
    ⟨rfl, rfl, rfl⟩ <;>
  · refine ⟨rfl, by decide, ?_⟩
    simp only [printSlot]
    cases printRMSlot decode _ line <;> rfl

theorem printRMSlot_cons (b : Byte) (rest : List Byte) (w : Width) (line : Line) :
    printRMSlot (b :: rest) w line =
      printRM rest (b.val &&& 0b111) w (R_Type.cast (b.val >>> 6)) line := by
  simp [printRMSlot]

theorem printRM_mode00 (cDecode : List Byte) (rm : Nat) (w : Width) (line : Line) (E : String)
    (hE : modNames[rm]? = some E) (hrm : rm ≠ 0b110) :
    printRM cDecode rm w (R_Type.cast 0b00) line =
      some (line.appendChars ((getWidthName w).toList ++ " [".toList ++ E.toList ++
        "]".toList)) := by
  simp [printRM, R_Type.cast, hrm, hE, getDispMemWidth, Line.appendStr_chars,
    Line.appendChars_appendChars]

theorem printRM_mode01 (d1 : Byte) (tail : List Byte) (rm : Nat) (w : Width) (line : Line)
    (E : String) (hE : modNames[rm]? = some E) :
    printRM (d1 :: tail) rm w (R_Type.cast 0b01) line =
      some (line.appendChars ((getWidthName w).toList ++ " [".toList ++ E.toList ++
        " + ".toList ++ "0x".toList ++ hex2 d1.val ++ "]".toList)) := by
  simp [printRM, R_Type.cast, hE, getDispMemWidth, Line.appendStr_chars, Line.appendNum_chars,
    Line.appendChars_appendChars, format_HEX1, fmtHex2_digits d1.val d1.isLt]

theorem printRM_mode10 (d1 d2 : Byte) (tail : List Byte) (rm : Nat) (w : Width) (line : Line)
    (E : String) (hE : modNames[rm]? = some E) :
    printRM (d1 :: d2 :: tail) rm w (R_Type.cast 0b10) line =
      some (line.appendChars ((getWidthName w).toList ++ " [".toList ++ E.toList ++
        " + ".toList ++ "0x".toList ++ hex4 (d1.val + 256 * d2.val) ++ "]".toList)) := by
  have hw := word_le2 d1 d2
  have hd := fmtHex4_digits _ (word_lt d1 d2)
  norm_num at hw
  simp [printRM, R_Type.cast, hE, getDispMemWidth, Line.appendStr_chars, Line.appendNum_chars,
    Line.appendChars_appendChars, format_HEX2, hw, hd]

theorem printRM_direct (b1 b2 : Byte) (tail : List Byte) (w : Width) (line : Line) :
    printRM (b1 :: b2 :: tail) 0b110 w (R_Type.cast 0b00) line =
      some (line.appendChars ((getWidthName w).toList ++ " [".toList ++ "0x".toList ++
        hex4 (b1.val + 256 * b2.val) ++ "]".toList)) := by
  have hw := word_le2 b1 b2
  have hd := fmtHex4_digits _ (word_lt b1 b2)
  norm_num at hw
  simp [printRM, R_Type.cast, Line.appendStr_chars, Line.appendNum_chars,
    Line.appendChars_appendChars, format_HEX2, hw, hd]

/-- C21: indexed memory operands.  For every register-or-memory or memory-only
slot type `t` with width keyword `W` (`BYTE`, `WORD`, `DWORD`, `QWORD`, or `MEM`
for the memory-only slot) and every addressing byte `b`, with `E` the entry at
index `b & 7` of `modNames` (BX + SI, BX + DI, BP + SI, BP + DI, SI, DI, BP,
BX): in mode 00 with r/m other than 110 the slot appends `W [E]`; in mode 01
it appends `W [E + 0xNN]` with `NN` the two hexadecimal digits of the byte after
the addressing byte; in mode 10 it appends `W [E + 0xNNNN]` with `NNNN` the four
hexadecimal digits of the little-endian value of the two bytes after the
addressing byte.  The slot leaves the immediate offset as it is.  The line is
one with room for the operand in its 256 characters. -/
theorem C21_indexed_memory_operands (t : DType) (w : Width) (W : String)
    (htw : (t, w, W) ∈ rmSlotKeywords) (b : Byte) (rest : List Byte) (num offset : Nat)
    (line : Line) (hroom : line.text.length + 24 ≤ 256) :
    ∃ E, modNames[b.val &&& 0b111]? = some E ∧
      (b.val >>> 6 = 0b00 → b.val &&& 0b111 ≠ 0b110 →
        printSlot ⟨t, num⟩ (b :: rest) offset line =
          some (offset, ⟨line.text ++ W.toList ++ " [".toList ++ E.toList ++ "]".toList⟩)) ∧
      (b.val >>> 6 = 0b01 → ∀ (d1 : Byte) (tail : List Byte), rest = d1 :: tail →
        printSlot ⟨t, num⟩ (b :: rest) offset line =
          some (offset, ⟨line.text ++ W.toList ++ " [".toList ++ E.toList ++ " + 0x".toList ++
            hex2 d1.val ++ "]".toList⟩)) ∧
      (b.val >>> 6 = 0b10 → ∀ (d1 d2 : Byte) (tail : List Byte), rest = d1 :: d2 :: tail →
        printSlot ⟨t, num⟩ (b :: rest) offset line =
          some (offset, ⟨line.text ++ W.toList ++ " [".toList ++ E.toList ++ " + 0x".toList ++
            hex4 (d1.val + 256 * d2.val) ++ "]".toList⟩)) ∧
      modNames = ["BX + SI", "BX + DI", "BP + SI", "BP + DI", "SI", "DI", "BP", "BX"] := by
  obtain ⟨E, hE⟩ := lookup_some modNames (b.val &&& 0b111)
    (by simpa [modNames] using and7_lt b.val)
  have hEl : E.length ≤ 7 := modNames_length E _ hE
  refine ⟨E, hE, ?_, ?_, ?_, rfl⟩
  · intro hmode hrm
    obtain ⟨hW, hWl, hp⟩ := rmSlot_printSlot t w W htw num (b :: rest) offset line
    have hWl2 : W.length ≤ 5 := hWl
    rw [hp, printRMSlot_cons, hmode, printRM_mode00 _ _ _ _ E hE hrm, hW,
      Line.appendChars_eq _ _ (by simp; omega)]
    simp
  · intro hmode d1 tail hrest
    subst hrest
    obtain ⟨hW, hWl, hp⟩ := rmSlot_printSlot t w W htw num (b :: d1 :: tail) offset line
    have hWl2 : W.length ≤ 5 := hWl
    rw [hp, printRMSlot_cons, hmode, printRM_mode01 _ _ _ _ _ E hE, hW,
      Line.appendChars_eq _ _ (by simp [hex2]; omega)]
    simp
  · intro hmode d1 d2 tail hrest
    subst hrest
    obtain ⟨hW, hWl, hp⟩ := rmSlot_printSlot t w W htw num (b :: d1 :: d2 :: tail) offset line
    have hWl2 : W.length ≤ 5 := hWl
    rw [hp, printRMSlot_cons, hmode, printRM_mode10 _ _ _ _ _ _ E hE, hW,
      Line.appendChars_eq _ _ (by simp [hex4]; omega)]
    simp

/-- C21 on a `WORD` slot, the addressing byte `0x46` (mode 01, r/m 110) and the
displacement byte `0x10`: the operand is `WORD [BP + 0x10]`. -/
theorem C21_indexed_memory_operands_witness :
    (DType.RMW, Width.WORD, "WORD") ∈ rmSlotKeywords ∧ Line.empty.text.length + 24 ≤ 256 ∧
    printSlot ⟨DType.RMW, 0⟩ [0x46, 0x10] 1 Line.empty =
      some (1, ⟨"WORD [BP + 0x10]".toList⟩) := by
  obtain ⟨E, hE, _, h01, _, _⟩ := C21_indexed_memory_operands DType.RMW Width.WORD "WORD"
    (by decide) 0x46 [0x10] 0 1 Line.empty (by decide)
  have hE2 : E = "BP" := by
    have : modNames[(0x46 : Byte).val &&& 0b111]? = some "BP" := by decide
    rw [this] at hE
    exact (Option.some.inj hE).symm
  subst hE2
  exact ⟨by decide, by decide, by rw [h01 (by decide) 0x10 [] rfl]; decide⟩

/-- C22: direct memory operands.  For every register-or-memory or memory-only
slot type `t` with width keyword `W` and every addressing byte `b` with mode 00
and r/m 110, followed by the bytes `b1`, `b2`, the slot appends `W [0xNNNN]`
with `NNNN` the four hexadecimal digits of `b1 + 256 * b2` and no base register
term; an absolute memory slot `DEREFBYTEATDW` appends `BYTE [0xNNNN]` and
`DEREFWORDATDW` appends `WORD [0xNNNN]`, with `NNNN` the four hexadecimal digits
of the little-endian value of the two bytes at the slot's offset, and moves the
offset on by 2.  The line is one with room for the operand. -/
theorem C22_direct_memory_operands (t : DType) (w : Width) (W : String)
    (htw : (t, w, W) ∈ rmSlotKeywords) (num offset : Nat) (line : Line)
    (hroom : line.text.length + 16 ≤ 256) :
    (∀ (b b1 b2 : Byte) (tail : List Byte), b.val >>> 6 = 0b00 → b.val &&& 0b111 = 0b110 →
      printSlot ⟨t, num⟩ (b :: b1 :: b2 :: tail) offset line =
        some (offset, ⟨line.text ++ W.toList ++ " [0x".toList ++ hex4 (b1.val + 256 * b2.val) ++
          "]".toList⟩)) ∧
    (∀ (decode : List Byte) (lo hi : Byte), decode[offset]? = some lo →
      decode[offset + 1]? = some hi →
      printSlot ⟨DType.DEREFBYTEATDW, num⟩ decode offset line =
        some (offset + 2, ⟨line.text ++ "BYTE [0x".toList ++ hex4 (lo.val + 256 * hi.val) ++
          "]".toList⟩) ∧
      printSlot ⟨DType.DEREFWORDATDW, num⟩ decode offset line =
        some (offset + 2, ⟨line.text ++ "WORD [0x".toList ++ hex4 (lo.val + 256 * hi.val) ++
          "]".toList⟩)) := by
  constructor
  · intro b b1 b2 tail hmode hrm
    obtain ⟨hW, hWl, hp⟩ := rmSlot_printSlot t w W htw num (b :: b1 :: b2 :: tail) offset line
    have hWl2 : W.length ≤ 5 := hWl
    rw [hp, printRMSlot_cons, hmode, hrm, printRM_direct, hW,
      Line.appendChars_eq _ _ (by simp [hex4]; omega)]
    simp
  · intro decode lo hi h0 h1
    have hw := word_le2 lo hi
    have hd := fmtHex4_digits _ (word_lt lo hi)
    norm_num at hw
    constructor
    · simp only [printSlot, h0, h1, Option.bind_eq_bind, Option.some_bind, Line.appendStr_chars,
        Line.appendNum_chars, Line.appendChars_appendChars, format_HEX2]
      norm_num [hw, hd]
      rw [Line.appendChars_eq _ _ (by simp [hex4]; omega)]
    · simp only [printSlot, h0, h1, Option.bind_eq_bind, Option.some_bind, Line.appendStr_chars,
        Line.appendNum_chars, Line.appendChars_appendChars, format_HEX2]
      norm_num [hw, hd]
      rw [Line.appendChars_eq _ _ (by simp [hex4]; omega)]

/-- C22 on a `WORD` slot and the bytes `3E 34 12` (mode 00, r/m 110, address
`0x1234`): the operand is `WORD [0x1234]`. -/
theorem C22_direct_memory_operands_witness :
    (DType.RMW, Width.WORD, "WORD") ∈ rmSlotKeywords ∧ Line.empty.text.length + 16 ≤ 256 ∧
    printSlot ⟨DType.RMW, 0⟩ [0x3E, 0x34, 0x12] 1 Line.empty =
      some (1, ⟨"WORD [0x1234]".toList⟩) :=
  ⟨by decide, by decide, by
    rw [(C22_direct_memory_operands DType.RMW Width.WORD "WORD" (by decide) 0 1 Line.empty
      (by decide)).1 0x3E 0x34 0x12 [] (by decide) (by decide)]
    decide⟩

theorem dword_lt (b0 b1 b2 b3 : Byte) :
    b0.val + 2 ^ 8 * b1.val + 2 ^ 16 * b2.val + 2 ^ 24 * b3.val < 2 ^ 32 := by
  have h0 := b0.isLt
  have h1 := b1.isLt
  have h2 := b2.isLt
  have h3 := b3.isLt
  omega

theorem dword_le (b0 b1 b2 b3 : Byte) :
    (b0.val + (b1.val <<< 8) + (b2.val <<< 16) + (b3.val <<< 24)) % 2 ^ 32 =
      (b0.val + 2 ^ 8 * b1.val + 2 ^ 16 * b2.val + 2 ^ 24 * b3.val) % 2 ^ 32 := by
  simp only [Nat.shiftLeft_eq]
  congr 1
  ring

/-- C23: immediate rendering.  A byte immediate slot (`DB`) appends `BYTE 0x`
and the two hexadecimal digits of the byte at the slot's offset; a word
immediate slot (`DW`) appends `WORD 0x` and the four hexadecimal digits of
`b0 + 2^8 * b1`; a dword immediate slot (`DDW`) appends `DWORD 0x` and the eight
hexadecimal digits of `(b0 + 2^8 * b1 + 2^16 * b2 + 2^24 * b3) mod 2^32`; the
offset moves on by 1, 2 and 4.  A constant literal slot (`CONSTBYTE`) appends
the decimal digits of the embedded constant, without `0x` and without a width
keyword, and leaves the offset; the constant is one that `%d` prints without a
sign, and every constant literal slot the source declares holds 1.  The line
is one with room for the operand. -/
theorem C23_immediate_rendering (decode : List Byte) (num offset : Nat) (line : Line)
    (hroom : line.text.length + 16 ≤ 256) :
    (∀ b0 : Byte, decode[offset]? = some b0 →
      printSlot ⟨DType.DB, num⟩ decode offset line =
        some (offset + 1, ⟨line.text ++ "BYTE 0x".toList ++ hex2 b0.val⟩)) ∧
    (∀ b0 b1 : Byte, decode[offset]? = some b0 → decode[offset + 1]? = some b1 →
      printSlot ⟨DType.DW, num⟩ decode offset line =
        some (offset + 2, ⟨line.text ++ "WORD 0x".toList ++ hex4 (b0.val + 2 ^ 8 * b1.val)⟩)) ∧
    (∀ b0 b1 b2 b3 : Byte, decode[offset]? = some b0 → decode[offset + 1]? = some b1 →
      decode[offset + 2]? = some b2 → decode[offset + 3]? = some b3 →
      printSlot ⟨DType.DDW, num⟩ decode offset line =
        some (offset + 4, ⟨line.text ++ "DWORD 0x".toList ++
          hex8 ((b0.val + 2 ^ 8 * b1.val + 2 ^ 16 * b2.val + 2 ^ 24 * b3.val) % 2 ^ 32)⟩)) ∧
    (num < 2 ^ 31 → line.text.length + (Nat.toDigits 10 num).length ≤ 256 →
      printSlot ⟨DType.CONSTBYTE, num⟩ decode offset line =
        some (offset, ⟨line.text ++ Nat.toDigits 10 num⟩)) ∧
    (∀ description ∈ allDescriptions, ∀ d ∈ description.d, d.type = DType.CONSTBYTE →
      d.num = 1 ∧ Nat.toDigits 10 d.num = ['1']) := by
  refine ⟨?_, ?_, ?_, ?_, by decide⟩
  · intro b0 h0
    simp only [printSlot, h0, Option.bind_eq_bind, Option.some_bind, Line.appendStr_chars,
      Line.appendNum_chars, Line.appendChars_appendChars, format_HEX1,
      fmtHex2_digits b0.val b0.isLt]
    rw [Line.appendChars_eq _ _ (by simp [hex2]; omega)]
    simp
  · intro b0 b1 h0 h1
    have hw := word_le2 b0 b1
    have hd := fmtHex4_digits _ (word_lt b0 b1)
    simp only [printSlot, h0, h1, Option.bind_eq_bind, Option.some_bind, Line.appendStr_chars,
      Line.appendNum_chars, Line.appendChars_appendChars, format_HEX2, hw, hd]
    rw [Line.appendChars_eq _ _ (by simp [hex4]; omega)]
    simp
  · intro b0 b1 b2 b3 h0 h1 h2 h3
    have hw := dword_le b0 b1 b2 b3
    have hd := fmtHex8_digits _ (Nat.mod_lt (b0.val + 2 ^ 8 * b1.val + 2 ^ 16 * b2.val +
      2 ^ 24 * b3.val) (by norm_num : 2 ^ 32 > 0))
    simp only [printSlot, h0, h1, h2, h3, Option.bind_eq_bind, Option.some_bind,
      Line.appendStr_chars, Line.appendNum_chars, Line.appendChars_appendChars, format_HEX4,
      hw, hd]
    rw [Line.appendChars_eq _ _ (by simp [hex8]; omega)]
    simp
  · intro hnum hlen
    simp only [printSlot, Line.appendNum_chars, format_DEC, fmtDec, if_pos hnum]
    rw [Line.appendChars_eq _ _ hlen]

/-- C23 on the bytes `21 34 12 78 56`: `BYTE 0x21` at offset 0, `WORD 0x1234` and
`DWORD 0x56781234` at offset 1. -/
theorem C23_immediate_rendering_witness :
    Line.empty.text.length + 16 ≤ 256 ∧
    printSlot ⟨DType.DB, 0⟩ [0x21, 0x34, 0x12, 0x78, 0x56] 0 Line.empty =
      some (1, ⟨"BYTE 0x21".toList⟩) :=
  ⟨by decide, by
    rw [(C23_immediate_rendering [0x21, 0x34, 0x12, 0x78, 0x56] 0 0 Line.empty (by decide)).1
      0x21 rfl]
    decide⟩

/-- C24: segment register rendering.  For every addressing byte `b` with
`s = (b >> 3) & 7`, a segment register slot (`SEG`) appends the entry at index
`s` of the four entry table `segments` (ES, CS, SS, DS) when `s < 4` and `?`
when `s` is 4 to 7; it leaves the offset as it is. -/
theorem C24_segment_rendering (b : Byte) (rest : List Byte) (num offset : Nat) (line : Line) :
    (b.val >>> 3) &&& 0b111 < 8 ∧
    ((b.val >>> 3) &&& 0b111 < 4 →
      ∃ nm, segments[(b.val >>> 3) &&& 0b111]? = some nm ∧
        printSlot ⟨DType.SEG, num⟩ (b :: rest) offset line = some (offset, line.appendStr nm)) ∧
    (4 ≤ (b.val >>> 3) &&& 0b111 →
      printSlot ⟨DType.SEG, num⟩ (b :: rest) offset line = some (offset, line.appendStr "?")) ∧
    segments = ["ES", "CS", "SS", "DS"] ∧
    (∀ text : List Char, text.length + 2 ≤ 256 →
      printSlot ⟨DType.SEG, num⟩ [0xD8] offset ⟨text⟩ = some (offset, ⟨text ++ "DS".toList⟩) ∧
      printSlot ⟨DType.SEG, num⟩ [0xE0] offset ⟨text⟩ = some (offset, ⟨text ++ "?".toList⟩)) := by
  refine ⟨and7_lt _, ?_, ?_, rfl, ?_⟩
  · intro hs
    obtain ⟨nm, hnm⟩ := lookup_some segments ((b.val >>> 3) &&& 0b111)
      (by simpa [segments] using hs)
    refine ⟨nm, hnm, ?_⟩
    have hs2 : (b.val >>> 3) &&& 7 < Segment.END := hs
    simp only [printSlot, List.getElem?_cons_zero, Option.bind_eq_bind, Option.some_bind,
      if_pos hs2, hnm]
  · intro hs
    have hs2 : ¬ (b.val >>> 3) &&& 7 < Segment.END := by
      simp only [Segment.END]; omega
    simp only [printSlot, List.getElem?_cons_zero, Option.bind_eq_bind, Option.some_bind,
      if_neg hs2]
  · intro text htext
    constructor
    · have h1 : segments[((0xD8 : Byte).val >>> 3) &&& 7]? = some "DS" := by decide
      have h2 : ((0xD8 : Byte).val >>> 3) &&& 7 < Segment.END := by decide
      simp only [printSlot, List.getElem?_cons_zero, Option.bind_eq_bind, Option.some_bind,
        if_pos h2, h1]
      rw [Line.appendStr_eq _ _ (by simpa using htext)]
    · have h2 : ¬ ((0xE0 : Byte).val >>> 3) &&& 7 < Segment.END := by decide
      simp only [printSlot, List.getElem?_cons_zero, Option.bind_eq_bind, Option.some_bind,
        if_neg h2]
      rw [Line.appendStr_eq _ _ (by simp; omega)]

/-! ## The renderer only appends -/

theorem Line.empty_text : Line.empty.text = [] := rfl

theorem printRM_append (cDecode : List Byte) (rm : Nat) (w : Width) (disp : R_Type)
    (line : Line) :
    printRM cDecode rm w disp line =
      (printRM cDecode rm w disp Line.empty).map (fun l => line.appendChars l.text) := by
  unfold printRM
  by_cases h1 : disp = R_Type.NODISP ∧ rm = 0b110
  · simp only [if_pos h1]
    rcases cDecode[0]? with _ | c0 <;> rcases cDecode[1]? with _ | c1 <;>
    simp [Line.appendStr_chars, Line.appendNum_chars, Line.appendChars_appendChars,
      Line.empty_appendChars, Line.appendChars_take]
  · simp only [if_neg h1]
    by_cases h2 : disp = R_Type.REG
    · simp only [if_pos h2]
      by_cases h3 : w = Width.BYTE
      · simp only [if_pos h3]
        rcases rb[rm]? with _ | n1 <;>
        simp [Line.appendStr_chars, Line.empty_appendChars, Line.appendChars_take]
      · simp only [if_neg h3]
        rcases rw[rm]? with _ | n1 <;>
        simp [Line.appendStr_chars, Line.empty_appendChars, Line.appendChars_take]
    · simp only [if_neg h2]
      generalize getDispMemWidth rm disp = wd
      rcases modNames[rm]? with _ | n3
      · rfl
      · by_cases h4 : wd = Width.BYTE
        · simp only [if_pos h4]
          rcases cDecode[0]? with _ | c0 <;>
          simp [Line.appendStr_chars, Line.appendNum_chars, Line.appendChars_appendChars,
            Line.empty_appendChars, Line.appendChars_take]
        · simp only [if_neg h4]
          by_cases h5 : wd = Width.WORD
          · simp only [if_pos h5]
            rcases cDecode[0]? with _ | c0 <;> rcases cDecode[1]? with _ | c1 <;>
            simp [Line.appendStr_chars, Line.appendNum_chars, Line.appendChars_appendChars,
              Line.empty_appendChars, Line.appendChars_take]
          · simp only [if_neg h5]
            simp [Line.appendStr_chars, Line.appendNum_chars, Line.appendChars_appendChars,
              Line.empty_appendChars, Line.appendChars_take]

theorem printRMSlot_append (decode : List Byte) (w : Width) (line : Line) :
    printRMSlot decode w line =
      (printRMSlot decode w Line.empty).map (fun l => line.appendChars l.text) := by
  unfold printRMSlot
  rcases decode[0]? with _ | b
  · rfl
  · simp only [Option.bind_eq_bind, Option.some_bind]
    exact printRM_append _ _ _ _ _

/-- Every slot appends its operand text to the line, whatever the line holds. -/
theorem printSlot_append (d : D) (decode : List Byte) (offset : Nat) (line : Line) :
    printSlot d decode offset line =
      (printSlot d decode offset Line.empty).map (fun r => (r.1, line.appendChars r.2.text)) := by
  obtain ⟨t, num⟩ := d
  cases t
  case RMB =>
    simp only [printSlot]
    rw [printRMSlot_append]
    rcases printRMSlot decode Width.BYTE Line.empty with _ | l <;> rfl
  case RMW =>
    simp only [printSlot]
    rw [printRMSlot_append]
    rcases printRMSlot decode Width.WORD Line.empty with _ | l <;> rfl
  case RMDW =>
    simp only [printSlot]
    rw [printRMSlot_append]
    rcases printRMSlot decode Width.DWORD Line.empty with _ | l <;> rfl
  case RMQW =>
    simp only [printSlot]
    rw [printRMSlot_append]
    rcases printRMSlot decode Width.QWORD Line.empty with _ | l <;> rfl
  case MEM =>
    simp only [printSlot]
    rw [printRMSlot_append]
    rcases printRMSlot decode Width.NONE Line.empty with _ | l <;> rfl
  case SEG =>
    simp only [printSlot]
    rcases decode[0]? with _ | b
    · rfl
    · simp only [Option.bind_eq_bind, Option.some_bind]
      split_ifs
      · rcases segments[b.val >>> 3 &&& 7]? with _ | nm <;>
        simp only [Option.bind_eq_bind, Option.some_bind, Option.none_bind, Option.map_some',
        Option.map_none', Line.appendStr_chars, Line.appendNum_chars,
        Line.appendChars_appendChars, Line.empty_appendChars, Line.appendChars_take,
        Line.empty_text, Line.appendChars_nil]
      · simp only [Option.bind_eq_bind, Option.some_bind, Option.none_bind, Option.map_some',
        Option.map_none', Line.appendStr_chars, Line.appendNum_chars,
        Line.appendChars_appendChars, Line.empty_appendChars, Line.appendChars_take,
        Line.empty_text, Line.appendChars_nil]
  case RB =>
    simp only [printSlot]
    rcases decode[0]? with _ | b
    · rfl
    · simp only [Option.bind_eq_bind, Option.some_bind]
      rcases rb[b.val >>> 3 &&& 7]? with _ | nm <;>
      simp only [Option.bind_eq_bind, Option.some_bind, Option.none_bind, Option.map_some',
        Option.map_none', Line.appendStr_chars, Line.appendNum_chars,
        Line.appendChars_appendChars, Line.empty_appendChars, Line.appendChars_take,
        Line.empty_text, Line.appendChars_nil]
  case RW =>
    simp only [printSlot]
    rcases decode[0]? with _ | b
    · rfl
    · simp only [Option.bind_eq_bind, Option.some_bind]
      rcases rw[b.val >>> 3 &&& 7]? with _ | nm <;>
      simp only [Option.bind_eq_bind, Option.some_bind, Option.none_bind, Option.map_some',
        Option.map_none', Line.appendStr_chars, Line.appendNum_chars,
        Line.appendChars_appendChars, Line.empty_appendChars, Line.appendChars_take,
        Line.empty_text, Line.appendChars_nil]
  case DB =>
    simp only [printSlot]
    rcases decode[offset]? with _ | b0 <;>
    simp only [Option.bind_eq_bind, Option.some_bind, Option.none_bind, Option.map_some',
        Option.map_none', Line.appendStr_chars, Line.appendNum_chars,
        Line.appendChars_appendChars, Line.empty_appendChars, Line.appendChars_take,
        Line.empty_text, Line.appendChars_nil]
  case DW =>
    simp only [printSlot]
    rcases decode[offset]? with _ | b0 <;> rcases decode[offset + 1]? with _ | b1 <;>
    simp only [Option.bind_eq_bind, Option.some_bind, Option.none_bind, Option.map_some',
        Option.map_none', Line.appendStr_chars, Line.appendNum_chars,
        Line.appendChars_appendChars, Line.empty_appendChars, Line.appendChars_take,
        Line.empty_text, Line.appendChars_nil]
  case DEREFBYTEATDW =>
    simp only [printSlot]
    rcases decode[offset]? with _ | b0 <;> rcases decode[offset + 1]? with _ | b1 <;>
    simp only [Option.bind_eq_bind, Option.some_bind, Option.none_bind, Option.map_some',
        Option.map_none', Line.appendStr_chars, Line.appendNum_chars,
        Line.appendChars_appendChars, Line.empty_appendChars, Line.appendChars_take,
        Line.empty_text, Line.appendChars_nil]
  case DEREFWORDATDW =>
    simp only [printSlot]
    rcases decode[offset]? with _ | b0 <;> rcases decode[offset + 1]? with _ | b1 <;>
    simp only [Option.bind_eq_bind, Option.some_bind, Option.none_bind, Option.map_some',
        Option.map_none', Line.appendStr_chars, Line.appendNum_chars,
        Line.appendChars_appendChars, Line.empty_appendChars, Line.appendChars_take,
        Line.empty_text, Line.appendChars_nil]
  case DDW =>
    simp only [printSlot]
    rcases decode[offset]? with _ | b0 <;> rcases decode[offset + 1]? with _ | b1 <;>
    rcases decode[offset + 2]? with _ | b2 <;> rcases decode[offset + 3]? with _ | b3 <;>
    simp only [Option.bind_eq_bind, Option.some_bind, Option.none_bind, Option.map_some',
        Option.map_none', Line.appendStr_chars, Line.appendNum_chars,
        Line.appendChars_appendChars, Line.empty_appendChars, Line.appendChars_take,
        Line.empty_text, Line.appendChars_nil]
  case REGB =>
    simp only [printSlot]
    rcases rb[num]? with _ | nm <;>
    simp only [Option.bind_eq_bind, Option.some_bind, Option.none_bind, Option.map_some',
        Option.map_none', Line.appendStr_chars, Line.appendNum_chars,
        Line.appendChars_appendChars, Line.empty_appendChars, Line.appendChars_take,
        Line.empty_text, Line.appendChars_nil]
  case REGW =>
    simp only [printSlot]
    rcases rw[num]? with _ | nm <;>
    simp only [Option.bind_eq_bind, Option.some_bind, Option.none_bind, Option.map_some',
        Option.map_none', Line.appendStr_chars, Line.appendNum_chars,
        Line.appendChars_appendChars, Line.empty_appendChars, Line.appendChars_take,
        Line.empty_text, Line.appendChars_nil]
  case CSEG =>
    simp only [printSlot]
    rcases segments[num]? with _ | nm <;>
    simp only [Option.bind_eq_bind, Option.some_bind, Option.none_bind, Option.map_some',
        Option.map_none', Line.appendStr_chars, Line.appendNum_chars,
        Line.appendChars_appendChars, Line.empty_appendChars, Line.appendChars_take,
        Line.empty_text, Line.appendChars_nil]
  case STREG =>
    simp only [printSlot]
    rcases decode[0]? with _ | b <;>
    simp only [Option.bind_eq_bind, Option.some_bind, Option.none_bind, Option.map_some',
        Option.map_none', Line.appendStr_chars, Line.appendNum_chars,
        Line.appendChars_appendChars, Line.empty_appendChars, Line.appendChars_take,
        Line.empty_text, Line.appendChars_nil]
  all_goals
    simp only [printSlot, Option.map_some', Line.appendStr_chars, Line.appendNum_chars,
      Line.appendChars_appendChars, Line.empty_appendChars, Line.appendChars_take,
      Line.empty_text, Line.appendChars_nil]

theorem printSlot_offset_map (d : D) (decode : List Byte) (offset : Nat) (line : Line) :
    (printSlot d decode offset line).map Prod.fst =
      (printSlot d decode offset line).map (fun _ => offset + immWidth d.type) := by
  obtain ⟨t, num⟩ := d
  cases t
  case RMB =>
    simp only [printSlot]
    rcases printRMSlot decode Width.BYTE line with _ | l <;> rfl
  case RMW =>
    simp only [printSlot]
    rcases printRMSlot decode Width.WORD line with _ | l <;> rfl
  case RMDW =>
    simp only [printSlot]
    rcases printRMSlot decode Width.DWORD line with _ | l <;> rfl
  case RMQW =>
    simp only [printSlot]
    rcases printRMSlot decode Width.QWORD line with _ | l <;> rfl
  case MEM =>
    simp only [printSlot]
    rcases printRMSlot decode Width.NONE line with _ | l <;> rfl
  case SEG =>
    simp only [printSlot]
    rcases decode[0]? with _ | b
    · rfl
    · simp only [Option.bind_eq_bind, Option.some_bind]
      split_ifs
      · rcases segments[b.val >>> 3 &&& 7]? with _ | nm <;> rfl
      · rfl
  case RB =>
    simp only [printSlot]
    rcases decode[0]? with _ | b
    · rfl
    · simp only [Option.bind_eq_bind, Option.some_bind]
      rcases rb[b.val >>> 3 &&& 7]? with _ | nm <;> rfl
  case RW =>
    simp only [printSlot]
    rcases decode[0]? with _ | b
    · rfl
    · simp only [Option.bind_eq_bind, Option.some_bind]
      rcases rw[b.val >>> 3 &&& 7]? with _ | nm <;> rfl
  case DB =>
    simp only [printSlot]
    rcases decode[offset]? with _ | b0 <;> rfl
  case DW =>
    simp only [printSlot]
    rcases decode[offset]? with _ | b0 <;> rcases decode[offset + 1]? with _ | b1 <;> rfl
  case DEREFBYTEATDW =>
    simp only [printSlot]
    rcases decode[offset]? with _ | b0 <;> rcases decode[offset + 1]? with _ | b1 <;> rfl
  case DEREFWORDATDW =>
    simp only [printSlot]
    rcases decode[offset]? with _ | b0 <;> rcases decode[offset + 1]? with _ | b1 <;> rfl
  case DDW =>
    simp only [printSlot]
    rcases decode[offset]? with _ | b0 <;> rcases decode[offset + 1]? with _ | b1 <;>
    rcases decode[offset + 2]? with _ | b2 <;> rcases decode[offset + 3]? with _ | b3 <;> rfl
  case REGB =>
    simp only [printSlot]
    rcases rb[num]? with _ | nm <;> rfl
  case REGW =>
    simp only [printSlot]
    rcases rw[num]? with _ | nm <;> rfl
  case CSEG =>
    simp only [printSlot]
    rcases segments[num]? with _ | nm <;> rfl
  case STREG =>
    simp only [printSlot]
    rcases decode[0]? with _ | b <;> rfl
  all_goals rfl

/-- A slot moves the immediate offset on by its immediate width. -/
theorem printSlot_offset (d : D) (decode : List Byte) (offset : Nat) (line : Line)
    (r : Nat × Line) (h : printSlot d decode offset line = some r) :
    r.1 = offset + immWidth d.type := by
  have := printSlot_offset_map d decode offset line
  rw [h] at this
  exact Option.some.inj this

theorem printDescriptionLoop_cons (d : D) (ds : List D) (decode : List Byte) (offset : Nat)
    (first : Bool) (line : Line) (hd : d.type ≠ DType.NONE) :
    printDescriptionLoop (d :: ds) decode offset first line =
      (printSlot d decode offset (line.appendStr (separator first))).bind
        (fun r => printDescriptionLoop ds decode r.1 false r.2) := by
  rw [printDescriptionLoop, if_neg hd]
  cases first <;> rfl

theorem printDescriptionLoop_skip (d : D) (ds : List D) (decode : List Byte) (offset : Nat)
    (first : Bool) (line : Line) (hd : d.type = DType.NONE) :
    printDescriptionLoop (d :: ds) decode offset first line =
      printDescriptionLoop ds decode offset first line := by
  rw [printDescriptionLoop, if_pos hd]

/-- The offset the loop of `printDescription` ends with is the one the loop of
`getLen` computes. -/
theorem printDescriptionLoop_offset (ds : List D) (decode : List Byte) (offset : Nat)
    (first : Bool) (line : Line) (r : Nat × Line)
    (h : printDescriptionLoop ds decode offset first line = some r) :
    r.1 = getLenLoop ds offset := by
  induction ds generalizing offset first line with
  | nil =>
    simp only [printDescriptionLoop, Option.some.injEq] at h
    subst h; rfl
  | cons d ds ih =>
    have hstep : getLenLoop (d :: ds) offset = getLenLoop ds (offset + immWidth d.type) := by
      rw [getLenLoop_eq, getLenLoop_eq]
      simp only [List.map_cons, List.sum_cons]
      omega
    by_cases hd : d.type = DType.NONE
    · rw [printDescriptionLoop_skip _ _ _ _ _ _ hd] at h
      rw [hstep, ih _ _ _ h]
      simp [immWidth, hd]
    · rw [printDescriptionLoop_cons _ _ _ _ _ _ hd] at h
      rcases hs : printSlot d decode offset (line.appendStr (separator first)) with _ | r1
      · rw [hs] at h; simp at h
      · rw [hs] at h
        simp only [Option.some_bind] at h
        rw [hstep, ih _ _ _ h, printSlot_offset _ _ _ _ _ hs]

/-- The loop of `printDescription` only appends to the line. -/
theorem printDescriptionLoop_append (ds : List D) (decode : List Byte) (offset : Nat)
    (first : Bool) (line : Line) :
    printDescriptionLoop ds decode offset first line =
      (printDescriptionLoop ds decode offset first Line.empty).map
        (fun r => (r.1, line.appendChars r.2.text)) := by
  induction ds generalizing offset first line with
  | nil => simp [printDescriptionLoop, Line.empty_text, Line.appendChars_nil]
  | cons d ds ih =>
    by_cases hd : d.type = DType.NONE
    · rw [printDescriptionLoop_skip _ _ _ _ _ _ hd, printDescriptionLoop_skip _ _ _ _ _ _ hd]
      exact ih _ _ _
    · rw [printDescriptionLoop_cons _ _ _ _ _ _ hd, printDescriptionLoop_cons _ _ _ _ _ _ hd,
        printSlot_append d decode offset (line.appendStr _),
        printSlot_append d decode offset (Line.empty.appendStr _)]
      rcases printSlot d decode offset Line.empty with _ | r1
      · rfl
      · simp only [Option.map_some', Option.some_bind]
        rw [ih _ _ (((line.appendStr (separator first)).appendChars r1.2.text)),
          ih _ _ (((Line.empty.appendStr (separator first)).appendChars r1.2.text))]
        rcases printDescriptionLoop ds decode r1.1 false Line.empty with _ | r2
        · rfl
        · simp only [Option.map_some', Line.appendStr_chars, Line.appendChars_appendChars,
            Line.empty_appendChars, Line.appendChars_take]

/-- The loop of `printDescription` over a list of slots in two parts. -/
theorem printDescriptionLoop_split (pre post : List D) (decode : List Byte) (offset : Nat)
    (first : Bool) (line : Line) :
    printDescriptionLoop (pre ++ post) decode offset first line =
      (printDescriptionLoop pre decode offset first line).bind
        (fun r => printDescriptionLoop post decode r.1
          (first && pre.all (fun d => d.type = DType.NONE)) r.2) := by
  induction pre generalizing offset first line with
  | nil => simp [printDescriptionLoop]
  | cons d ds ih =>
    by_cases hd : d.type = DType.NONE
    · rw [List.cons_append, printDescriptionLoop_skip _ _ _ _ _ _ hd,
        printDescriptionLoop_skip _ _ _ _ _ _ hd, ih]
      simp [hd]
    · rw [List.cons_append, printDescriptionLoop_cons _ _ _ _ _ _ hd,
        printDescriptionLoop_cons _ _ _ _ _ _ hd]
      rcases printSlot d decode offset (line.appendStr (separator first)) with _ | r1
      · rfl
      · simp only [Option.some_bind]
        rw [ih]
        simp [hd]

/-! ## Operands and their separators -/

theorem joinOperands_false (ts : List (List Char)) :
    joinOperands false ts = (ts.map (fun u => ", ".toList ++ u)).flatten := by
  induction ts with
  | nil => rfl
  | cons t ts ih => simp [joinOperands, separator, ih]

theorem joinOperands_intercalate (t : List Char) (ts : List (List Char)) :
    joinOperands true (t :: ts) = " ".toList ++ List.intercalate ", ".toList (t :: ts) := by
  have key : ∀ (u : List Char) (us : List (List Char)),
      List.intercalate ", ".toList (u :: us) = u ++ joinOperands false us := by
    intro u us
    induction us generalizing u with
    | nil => simp [List.intercalate, joinOperands]
    | cons v vs ih =>
      have := ih v
      simp only [List.intercalate] at this ⊢
      rw [List.intersperse_cons₂, List.flatten_cons, List.flatten_cons, this]
      simp only [joinOperands, separator, List.append_assoc]
      rfl
  rw [key]
  simp [joinOperands, separator]

theorem operandTexts_length (ds : List D) (decode : List Byte) (offset : Nat)
    (ts : List (List Char)) (h : operandTexts ds decode offset = some ts) :
    ts.length = (operandSlots ds).length := by
  induction ds generalizing offset ts with
  | nil =>
    simp only [operandTexts, Option.some.injEq] at h
    subst h; rfl
  | cons d ds ih =>
    by_cases hd : d.type = DType.NONE
    · rw [operandTexts, if_pos hd] at h
      rw [ih _ _ h]
      simp [operandSlots, hd]
    · rw [operandTexts, if_neg hd] at h
      rcases h1 : operandText d decode offset with _ | r1
      · rw [h1] at h; cases h
      · rw [h1] at h
        simp only [Option.some_bind] at h
        rcases h2 : operandTexts ds decode r1.1 with _ | us
        · rw [h2] at h; cases h
        · rw [h2] at h
          cases h
          simp [operandSlots, hd, ih _ _ h2]

/-- The loop of `printDescription` appends the operand texts with their
separators. -/
theorem printDescriptionLoop_texts (ds : List D) (decode : List Byte) (offset : Nat)
    (first : Bool) (line : Line) :
    printDescriptionLoop ds decode offset first line =
      (operandTexts ds decode offset).map
        (fun ts => (getLenLoop ds offset, line.appendChars (joinOperands first ts))) := by
  induction ds generalizing offset first line with
  | nil => simp [printDescriptionLoop, operandTexts, joinOperands, getLenLoop,
      Line.appendChars_nil]
  | cons d ds ih =>
    have hstep : getLenLoop (d :: ds) offset = getLenLoop ds (offset + immWidth d.type) := by
      rw [getLenLoop_eq, getLenLoop_eq]
      simp only [List.map_cons, List.sum_cons]
      omega
    by_cases hd : d.type = DType.NONE
    · rw [printDescriptionLoop_skip _ _ _ _ _ _ hd, operandTexts, if_pos hd, ih, hstep]
      simp [immWidth, hd]
    · rw [printDescriptionLoop_cons _ _ _ _ _ _ hd, operandTexts, if_neg hd,
        printSlot_append, operandText]
      rcases hs : printSlot d decode offset Line.empty with _ | r1
      · rfl
      · have ho := printSlot_offset _ _ _ _ _ hs
        simp only [Option.map_some', Option.some_bind]
        rw [ih, hstep, ← ho]
        rcases operandTexts ds decode r1.1 with _ | us
        · rfl
        · simp only [Option.map_some', joinOperands, Line.appendStr_chars,
            Line.appendChars_appendChars, List.append_assoc]

/-- In every declared description a slot that reads the byte after the opcode
comes with a slot that makes `getRMOffset` count that byte. -/
theorem allDescriptions_byte0 : ∀ description ∈ allDescriptions,
    (∃ d ∈ description.d, readsByte0 d.type = true) →
      (∃ d ∈ description.d, isRMType d.type = true) ∨
      (∃ d ∈ description.d, d.type = DType.ST ∨ d.type = DType.STREG) := by
  decide!

/-- With the bytes `getLen` counts inside the window, `printDescription` returns
and its immediate offset ends at `getLen`. -/
theorem printDescription_returns (description : Description)
    (hdecl : description ∈ allDescriptions) (decode : List Byte) (line : Line) (len : Nat)
    (hlen : getLen description decode = some len) (hfit : len ≤ decode.length) :
    ∃ k l, getRMOffset description decode = some k ∧
      printDescriptionLoop description.d decode k true line = some (len, l) ∧
      printDescription description decode line = some l := by
  obtain ⟨_, hord, hnum⟩ := allDescriptions_slotsOK description hdecl
  rcases hk : getRMOffset description decode with _ | k
  · simp [getLen, hk] at hlen
  · have hlen2 : len = getLenLoop description.d k := by
      simp only [getLen, hk, Option.bind_eq_bind, Option.some_bind, Option.some.injEq] at hlen
      exact hlen.symm
    have hkle : k ≤ len := by
      rw [hlen2, getLenLoop_eq]; omega
    have hrmk : (∃ d ∈ description.d, isRMType d.type = true) →
        ∃ b, decode[0]? = some b ∧ rmLen b = k := by
      intro hex
      have := getRMOffsetLoop_rm description.d decode hord hex
      rw [getRMOffset] at hk
      rw [hk] at this
      rcases hb : decode[0]? with _ | b
      · rw [hb] at this; cases this
      · rw [hb] at this
        exact ⟨b, rfl, (Option.some.inj this).symm⟩
    have h1 : (∃ d ∈ description.d, readsByte0 d.type = true) → 1 ≤ decode.length := by
      intro hex
      rcases allDescriptions_byte0 description hdecl hex with hrm | hst
      · obtain ⟨b, hb, _⟩ := hrmk hrm
        have := (List.getElem?_eq_some_iff.1 hb).1
        omega
      · by_cases hrm : ∃ d ∈ description.d, isRMType d.type = true
        · obtain ⟨b, hb, _⟩ := hrmk hrm
          have := (List.getElem?_eq_some_iff.1 hb).1
          omega
        · have hno : ∀ d ∈ description.d, isRMType d.type = false := by
            intro d hd
            by_contra hc
            exact hrm ⟨d, hd, by simpa using hc⟩
          obtain ⟨k2, hk2, hone⟩ := getRMOffsetLoop_noRM description.d decode hno
          rw [getRMOffset] at hk
          rw [hk] at hk2
          have : k = 1 := by
            rw [Option.some.inj hk2]; exact hone hst
          omega
    obtain ⟨l, hl⟩ := printDescriptionLoop_some description.d decode k true line
      (fun d hd hr => h1 ⟨d, hd, hr⟩)
      (fun d hd hr b hb => by
        obtain ⟨b2, hb2, hk2⟩ := hrmk ⟨d, hd, hr⟩
        rw [hb] at hb2
        cases hb2
        omega)
      (by omega) hnum
    refine ⟨k, l, rfl, by rw [hl, hlen2], ?_⟩
    simp [printDescription, hk, hl]

/-- C25: operand separation.  For every description, window and line:
`printDescription` leaves the line as it is when every slot is `NONE` (a
zero-operand instruction prints only the mnemonic); with the operand texts
`ts` of the `k` slots that are not `NONE`, in declaration order, it appends one
blank, the first text, and every later text with `, ` in front, which is one
blank and the texts with `, ` between neighbours, `k - 1` separators; and
whenever it returns, the operand texts exist.  For a declared description
whose bytes are inside the window it returns.  The text of an operand is what
its slot appends to any line. -/
theorem C25_operand_separation (description : Description) (decode : List Byte) (line : Line) :
    ((∀ d ∈ description.d, d.type = DType.NONE) →
      printDescription description decode line = some line) ∧
    (∀ (o : Nat) (t : List Char) (ts : List (List Char)),
      getRMOffset description decode = some o →
      operandTexts description.d decode o = some (t :: ts) →
      (t :: ts).length = (operandSlots description.d).length ∧
      printDescription description decode line =
        some (line.appendChars (" ".toList ++ t ++
          (ts.map (fun u => ", ".toList ++ u)).flatten)) ∧
      " ".toList ++ t ++ (ts.map (fun u => ", ".toList ++ u)).flatten =
        " ".toList ++ List.intercalate ", ".toList (t :: ts) ∧
      (ts.map (fun u => ", ".toList ++ u)).length = (operandSlots description.d).length - 1) ∧
    (∀ l, printDescription description decode line = some l →
      ∃ o ts, getRMOffset description decode = some o ∧
        operandTexts description.d decode o = some ts ∧
        ts.length = (operandSlots description.d).length) ∧
    (description ∈ allDescriptions → ∀ len, getLen description decode = some len →
      len ≤ decode.length → ∃ l, printDescription description decode line = some l) ∧
    (∀ (d : D) (offset : Nat) (l : Line),
      printSlot d decode offset l =
        (operandText d decode offset).map (fun r => (r.1, l.appendChars r.2))) := by
  refine ⟨?_, ?_, ?_, ?_, ?_⟩
  · intro hnone
    have hk : getRMOffsetLoop description.d decode = some 0 := by
      generalize description.d = ds at hnone
      induction ds with
      | nil => rfl
      | cons d ds ih =>
        have hd := hnone d (List.mem_cons_self _ _)
        rw [getRMOffsetLoop]
        simp only [hd, isRMType]
        simpa using ih (fun e he => hnone e (List.mem_cons_of_mem _ he))
    have hl : ∀ first, printDescriptionLoop description.d decode 0 first line = some (0, line) := by
      intro first
      generalize description.d = ds at hnone
      induction ds with
      | nil => rfl
      | cons d ds ih =>
        rw [printDescriptionLoop_skip _ _ _ _ _ _ (hnone d (List.mem_cons_self _ _))]
        exact ih (fun e he => hnone e (List.mem_cons_of_mem _ he))
    simp [printDescription, getRMOffset, hk, hl]
  · intro o t ts ho hts
    have hlen := operandTexts_length _ _ _ _ hts
    refine ⟨hlen, ?_, ?_, ?_⟩
    · simp only [printDescription, ho, Option.bind_eq_bind, Option.some_bind,
        printDescriptionLoop_texts, hts, Option.map_some', joinOperands, separator,
        joinOperands_false]
      rfl
    · rw [← joinOperands_false, ← joinOperands_intercalate]
      rfl
    · rw [← hlen]
      simp
  · intro l hl
    rcases ho : getRMOffset description decode with _ | o
    · simp [printDescription, ho] at hl
    · rcases hts : operandTexts description.d decode o with _ | ts
      · simp [printDescription, ho, printDescriptionLoop_texts, hts] at hl
      · exact ⟨o, ts, rfl, hts, operandTexts_length _ _ _ _ hts⟩
  · intro hdecl len hlen hfit
    obtain ⟨k, l, _, _, hl⟩ := printDescription_returns description hdecl decode line len hlen hfit
    exact ⟨l, hl⟩
  · intro d offset l
    rw [printSlot_append, operandText]
    rcases printSlot d decode offset Line.empty with _ | r <;> rfl

/-- C25 on the description of `IMUL RW, RMW, DW` and the bytes `C3 34 12`
(mode 11, register 0, r/m 3, immediate `0x1234`): three operands and two
separators. -/
theorem C25_operand_separation_witness :
    printDescription R_RW_RMW_DW [0xC3, 0x34, 0x12] Line.empty =
      some ⟨" AX, BX, WORD 0x1234".toList⟩ ∧
    printDescription Description.none [] Line.empty = some Line.empty := by
  have h := C25_operand_separation R_RW_RMW_DW [0xC3, 0x34, 0x12] Line.empty
  have h2 := C25_operand_separation Description.none [] Line.empty
  refine ⟨?_, h2.1 (by decide)⟩
  rw [(h.2.1 1 "AX".toList  ["BX".toList, "WORD 0x1234".toList] (by decide) (by decide)).2.1]
  decide

/-- A slot that returns has read its immediate bytes inside the window. -/
theorem printSlot_reads (d : D) (decode : List Byte) (offset : Nat) (line : Line)
    (r : Nat × Line) (h : printSlot d decode offset line = some r)
    (hw : immWidth d.type ≠ 0) :
    offset + immWidth d.type ≤ decode.length ∧
    ∀ i, i < immWidth d.type → ∃ b, decode[offset + i]? = some b := by
  have hlen : offset + immWidth d.type ≤ decode.length := by
    obtain ⟨t, num⟩ := d
    cases t
    case DB =>
      simp only [printSlot] at h
      rcases h0 : decode[offset]? with _ | b0
      · rw [h0] at h; cases h
      · have := (List.getElem?_eq_some_iff.1 h0).1
        simp only [immWidth]
        simp
        omega
    case DW =>
      rcases h0 : decode[offset + 1]? with _ | b0
      · have hnone : printSlot ⟨DType.DW, num⟩ decode offset line = none := by
          simp only [printSlot, h0]
          rcases decode[offset]? with _ | b <;> rfl
        rw [hnone] at h; cases h
      · have := (List.getElem?_eq_some_iff.1 h0).1
        simp only [immWidth]
        simp
        omega
    case DEREFBYTEATDW =>
      rcases h0 : decode[offset + 1]? with _ | b0
      · have hnone : printSlot ⟨DType.DEREFBYTEATDW, num⟩ decode offset line = none := by
          simp only [printSlot, h0]
          rcases decode[offset]? with _ | b <;> rfl
        rw [hnone] at h; cases h
      · have := (List.getElem?_eq_some_iff.1 h0).1
        simp only [immWidth]
        simp
        omega
    case DEREFWORDATDW =>
      rcases h0 : decode[offset + 1]? with _ | b0
      · have hnone : printSlot ⟨DType.DEREFWORDATDW, num⟩ decode offset line = none := by
          simp only [printSlot, h0]
          rcases decode[offset]? with _ | b <;> rfl
        rw [hnone] at h; cases h
      · have := (List.getElem?_eq_some_iff.1 h0).1
        simp only [immWidth]
        simp
        omega
    case DDW =>
      rcases h0 : decode[offset + 3]? with _ | b0
      · have hnone : printSlot ⟨DType.DDW, num⟩ decode offset line = none := by
          simp only [printSlot, h0]
          rcases decode[offset]? with _ | b <;> rcases decode[offset + 1]? with _ | b1 <;>
          rcases decode[offset + 2]? with _ | b2 <;> rfl
        rw [hnone] at h; cases h
      · have := (List.getElem?_eq_some_iff.1 h0).1
        simp only [immWidth]
        simp
        omega
    all_goals exact absurd rfl hw
  refine ⟨hlen, fun i hi => ?_⟩
  exact rdSome decode (offset + i) (by omega)

/-- C30: the renderer mirrors the length pass.  For every description, window
and line, and every slot `d` of the description that is not `NONE`, with the
slots `pre` declared before it: `printDescription` hands `d` the offset
`getRMOffset` plus the widths of the immediate and absolute-address slots in
`pre`, and a slot with an immediate width that returns has read its bytes at
that offset inside the window; the offset behind the last slot is `getLen` of
the same description and window; and for a declared description whose
bytes are inside the window the renderer returns. -/
theorem C30_renderer_mirrors_length_pass (description : Description) (decode : List Byte)
    (line : Line) :
    (∀ (pre post : List D) (d : D) (k : Nat), description.d = pre ++ d :: post →
      d.type ≠ DType.NONE → getRMOffset description decode = some k →
      printDescription description decode line =
        (printDescriptionLoop pre decode k true line).bind (fun r =>
          (printSlot d decode (k + (pre.map (fun e => immWidth e.type)).sum)
            (r.2.appendStr (separator (pre.all (fun e => e.type = DType.NONE))))).bind
            (fun r2 => (printDescriptionLoop post decode
              (k + (pre.map (fun e => immWidth e.type)).sum + immWidth d.type) false r2.2).map
              Prod.snd))) ∧
    (∀ (d : D) (offset : Nat) (l : Line) (r : Nat × Line),
      printSlot d decode offset l = some r → immWidth d.type ≠ 0 →
      r.1 = offset + immWidth d.type ∧ offset + immWidth d.type ≤ decode.length ∧
      ∀ i, i < immWidth d.type → ∃ b, decode[offset + i]? = some b) ∧
    (∀ (k : Nat) (r : Nat × Line), getRMOffset description decode = some k →
      printDescriptionLoop description.d decode k true line = some r →
      getLen description decode = some r.1 ∧
      r.1 = k + (description.d.map (fun e => immWidth e.type)).sum) ∧
    (description ∈ allDescriptions → ∀ len, getLen description decode = some len →
      len ≤ decode.length →
      ∃ k l, getRMOffset description decode = some k ∧
        printDescriptionLoop description.d decode k true line = some (len, l) ∧
        printDescription description decode line = some l) := by
  refine ⟨?_, ?_, ?_, ?_⟩
  · intro pre post d k hsplit hd hk
    simp only [printDescription, hk, Option.bind_eq_bind, Option.some_bind]
    rw [hsplit, printDescriptionLoop_split]
    rcases hpre : printDescriptionLoop pre decode k true line with _ | r
    · rfl
    · have ho := printDescriptionLoop_offset _ _ _ _ _ _ hpre
      rw [getLenLoop_eq] at ho
      simp only [Option.some_bind, Bool.true_and]
      rw [printDescriptionLoop_cons _ _ _ _ _ _ hd, ho]
      rcases hs : printSlot d decode (k + (pre.map (fun e => immWidth e.type)).sum)
        (r.2.appendStr (separator (pre.all (fun e => e.type = DType.NONE)))) with _ | r2
      · rfl
      · have ho2 := printSlot_offset _ _ _ _ _ hs
        simp only [Option.some_bind]
        rw [ho2]
        rcases printDescriptionLoop post decode
          (k + (pre.map (fun e => immWidth e.type)).sum + immWidth d.type) false r2.2 with _ | r3
        · rfl
        · rfl
  · intro d offset l r h hw
    exact ⟨printSlot_offset _ _ _ _ _ h, printSlot_reads _ _ _ _ _ h hw⟩
  · intro k r hk hr
    have ho := printDescriptionLoop_offset _ _ _ _ _ _ hr
    refine ⟨?_, by rw [ho, getLenLoop_eq]⟩
    simp [getLen, hk, ho]
  · intro hdecl len hlen hfit
    exact printDescription_returns description hdecl decode line len hlen hfit

/-- C30 on the description of `IMUL RW, RMW, DW` and the bytes `46 10 34 12`
(mode 01, displacement `0x10`): the addressing bytes end at offset 2, where the
word immediate is read, and the renderer ends at offset 4, which is `getLen`. -/
theorem C30_renderer_mirrors_length_pass_witness :
    R_RW_RMW_DW ∈ allDescriptions ∧ getLen R_RW_RMW_DW [0x46, 0x10, 0x34, 0x12] = some 4 ∧
    ∃ k l, getRMOffset R_RW_RMW_DW [0x46, 0x10, 0x34, 0x12] = some k ∧
      printDescriptionLoop R_RW_RMW_DW.d [0x46, 0x10, 0x34, 0x12] k true Line.empty =
        some (4, l) ∧
      printDescription R_RW_RMW_DW [0x46, 0x10, 0x34, 0x12] Line.empty = some l :=
  ⟨by decide, by decide,
    (C30_renderer_mirrors_length_pass R_RW_RMW_DW [0x46, 0x10, 0x34, 0x12] Line.empty).2.2.2
      (by decide) 4 (by decide) (by decide)⟩

/-! ## The layout of a decoded line -/

theorem rawText_length (bs : List Byte) : (rawText bs).length = 3 * bs.length := by
  induction bs with
  | nil => rfl
  | cons b bs ih =>
    simp only [rawText, List.map_cons, List.flatten_cons, List.length_append, List.length_cons,
      hex2, List.length_nil] at ih ⊢
    omega

theorem rawText_cons (b : Byte) (bs : List Byte) :
    rawText (b :: bs) = hex2 b.val ++ [' '] ++ rawText bs := by
  simp [rawText]

theorem rawField_text (bs : List Byte) (line : Line)
    (h : line.text.length + 3 * bs.length ≤ 256) :
    rawField bs line = ⟨line.text ++ rawText bs⟩ := by
  induction bs generalizing line with
  | nil => simp [rawField, rawText]
  | cons b bs ih =>
    have hstep : rawField (b :: bs) line =
        rawField bs ((line.appendNum ⟨b.val, NumType.HEX1_NO_DECORATION⟩).appendStr " ") := rfl
    have hl : (line.appendNum ⟨b.val, NumType.HEX1_NO_DECORATION⟩).appendStr " " =
        ⟨line.text ++ (hex2 b.val ++ [' '])⟩ := by
      rw [Line.appendNum_chars, Line.appendStr_chars, Line.appendChars_appendChars,
        format_HEX1_NO_DECORATION, fmtHex2_digits b.val b.isLt,
        Line.appendChars_eq _ _ (by simp [hex2] at h ⊢; omega)]
      rfl
    rw [hstep, hl, ih _ (by simp [hex2] at h ⊢; omega), rawText_cons]
    simp

theorem getRMOffsetLoop_bound (ds : List D) (decode : List Byte) (k : Nat)
    (h : getRMOffsetLoop ds decode = some k) : k ≤ rmOffsetBound ds := by
  induction ds with
  | nil =>
    simp only [getRMOffsetLoop, Option.some.injEq] at h
    simp [rmOffsetBound, ← h]
  | cons d ds ih =>
    rw [rmOffsetBound]
    by_cases h1 : isRMType d.type = true
    · rw [if_pos h1]
      exact getRMOffsetLoop_le _ _ _ h
    · rw [if_neg h1]
      rw [getRMOffsetLoop, if_neg h1] at h
      by_cases h2 : d.type = DType.ST ∨ d.type = DType.STREG
      · rw [if_pos h2] at h ⊢
        simp only [Option.some.injEq] at h
        omega
      · rw [if_neg h2] at h ⊢
        exact ih h

/-- No instruction of the table is longer than 6 bytes and no mnemonic longer
than 11 characters. -/
theorem ops_layout : ∀ op ∈ ops,
    op.codeSz + rmOffsetBound op.description.d +
      (op.description.d.map (fun d => immWidth d.type)).sum ≤ 6 ∧
    op.name.length ≤ 11 := by
  decide!

theorem headerText_length (decode : List Byte) (c execOffset : Nat) (op : Op) (len : Nat)
    (hL : len + op.codeSz ≤ 6) (hname : op.name.length ≤ 11)
    (hfit : c + (len + op.codeSz) ≤ decode.length) :
    (headerText decode c execOffset op len).length = 50 := by
  have hbs : ((decode.drop c).take (len + op.codeSz)).length = len + op.codeSz := by
    simp only [List.length_take, List.length_drop]; omega
  have h8 := fmtHex8_mod (execOffset + c)
  have hn : op.name.toList.length = op.name.length := rfl
  simp only [headerText, List.length_append, List.length_replicate, rawText_length, hbs, h8, hn]
  have e1 : "0x".toList.length = 2 := rfl
  have e2 : ":  ".toList.length = 3 := rfl
  have e3 : "; ".toList.length = 2 := rfl
  rw [e1, e2, e3]
  omega

/-- Every entry of the table points to a declared description. -/
theorem ops_descriptions : ∀ op ∈ ops, op.description ∈ allDescriptions := by decide!

/-- The line `printOP` has built when it starts on the operands. -/
theorem headerLine_text (decode : List Byte) (c execOffset : Nat) (op : Op) (len : Nat)
    (hL : len + op.codeSz ≤ 6) (hname : op.name.length ≤ 11)
    (hfit : c + (len + op.codeSz) ≤ decode.length) :
    headerLine decode c execOffset op len Line.empty =
      ⟨headerText decode c execOffset op len⟩ := by
  have hbs : ((decode.drop c).take (len + op.codeSz)).length = len + op.codeSz := by
    simp only [List.length_take, List.length_drop]; omega
  have h8 := fmtHex8_mod (execOffset + c)
  have hn : op.name.toList.length = op.name.length := rfl
  have e1 : "0x".toList.length = 2 := rfl
  have e2 : ":  ".toList.length = 3 := rfl
  have e3 : "; ".toList.length = 2 := rfl
  have l0 : (Line.empty.appendNum ⟨(execOffset + c) % 2 ^ 32, NumType.HEX4⟩).appendStr ":  " =
      ⟨"0x".toList ++ fmtHex 8 ((execOffset + c) % 2 ^ 32) ++ ":  ".toList⟩ := by
    rw [Line.appendNum_chars, Line.appendStr_chars, Line.appendChars_appendChars, format_HEX4,
      Line.appendChars_eq _ _ (by
        simp only [Line.empty_text, List.length_nil, List.length_append, h8, e1, e2]
        omega)]
    simp [Line.empty_text]
  have l1 : rawField ((decode.drop c).take (len + op.codeSz))
      ⟨"0x".toList ++ fmtHex 8 ((execOffset + c) % 2 ^ 32) ++ ":  ".toList⟩ =
      ⟨"0x".toList ++ fmtHex 8 ((execOffset + c) % 2 ^ 32) ++ ":  ".toList ++
        rawText ((decode.drop c).take (len + op.codeSz))⟩ :=
    rawField_text _ _ (by
      simp only [List.length_append, h8, e1, e2, hbs]
      omega)
  have l2 : (Line.mk ("0x".toList ++ fmtHex 8 ((execOffset + c) % 2 ^ 32) ++ ":  ".toList ++
        rawText ((decode.drop c).take (len + op.codeSz)))).appendStr "; " =
      ⟨"0x".toList ++ fmtHex 8 ((execOffset + c) % 2 ^ 32) ++ ":  ".toList ++
        rawText ((decode.drop c).take (len + op.codeSz)) ++ "; ".toList⟩ :=
    Line.appendStr_eq _ _ (by
      simp only [List.length_append, h8, e1, e2, e3, rawText_length, hbs]
      omega)
  have l3 : (Line.mk ("0x".toList ++ fmtHex 8 ((execOffset + c) % 2 ^ 32) ++ ":  ".toList ++
        rawText ((decode.drop c).take (len + op.codeSz)) ++ "; ".toList)).appendPad 36 =
      ⟨"0x".toList ++ fmtHex 8 ((execOffset + c) % 2 ^ 32) ++ ":  ".toList ++
        rawText ((decode.drop c).take (len + op.codeSz)) ++ "; ".toList ++
        List.replicate (36 - (15 + 3 * (len + op.codeSz))) ' '⟩ := by
    rw [Line.appendPad_eq _ _ (by
      simp only [List.length_append, h8, e1, e2, e3, rawText_length, hbs]
      omega) (by norm_num)]
    simp only [List.length_append, h8, e1, e2, e3, rawText_length, hbs, Line.mk.injEq,
      List.append_cancel_left_eq]
    congr 1
    omega
  have l4 : (Line.mk ("0x".toList ++ fmtHex 8 ((execOffset + c) % 2 ^ 32) ++ ":  ".toList ++
        rawText ((decode.drop c).take (len + op.codeSz)) ++ "; ".toList ++
        List.replicate (36 - (15 + 3 * (len + op.codeSz))) ' ')).appendStr op.name =
      ⟨"0x".toList ++ fmtHex 8 ((execOffset + c) % 2 ^ 32) ++ ":  ".toList ++
        rawText ((decode.drop c).take (len + op.codeSz)) ++ "; ".toList ++
        List.replicate (36 - (15 + 3 * (len + op.codeSz))) ' ' ++ op.name.toList⟩ :=
    Line.appendStr_eq _ _ (by
      simp only [List.length_append, List.length_replicate, h8, e1, e2, e3, rawText_length, hbs,
        hn]
      omega)
  have l5 : (Line.mk ("0x".toList ++ fmtHex 8 ((execOffset + c) % 2 ^ 32) ++ ":  ".toList ++
        rawText ((decode.drop c).take (len + op.codeSz)) ++ "; ".toList ++
        List.replicate (36 - (15 + 3 * (len + op.codeSz))) ' ' ++ op.name.toList)).appendPad 50 =
      ⟨headerText decode c execOffset op len⟩ := by
    rw [Line.appendPad_eq _ _ (by
      simp only [List.length_append, List.length_replicate, h8, e1, e2, e3, rawText_length, hbs,
        hn]
      omega) (by norm_num)]
    simp only [headerText, List.length_append, List.length_replicate, h8, e1, e2, e3,
      rawText_length, hbs, hn, Line.mk.injEq, List.append_cancel_left_eq]
    congr 1
    omega
  unfold headerLine
  rw [l0, l1, l2, l3, l4, l5]

/-- A matched step whose bytes are inside the buffer: the instruction is at
most 6 bytes long, its mnemonic at most 11 characters, and the line is the
header followed by what `printDescription` appends. -/
theorem decStep_layout (decode : List Byte) (execOffset c : Nat) (op : Op) (len : Nat)
    (hlt : decode.length < 2 ^ 32)
    (hop : getOP (decode.drop c) (decode.length - c) = some (some op))
    (hlen : getLen op.description (decode.drop (c + op.codeSz)) = some len)
    (hfit : c + op.codeSz + len ≤ decode.length) :
    len + op.codeSz ≤ 6 ∧ op.name.length ≤ 11 ∧
    ∃ operands, decStep decode execOffset c =
      some (⟨headerText decode c execOffset op len ++ operands⟩, c + len + op.codeSz) := by
  have hwin : (decode.drop c).length = decode.length - c := List.length_drop _ _
  obtain ⟨hmem, hm⟩ := getOP_some_matches (decode.drop c) op (by rw [hwin]; exact hop)
  obtain ⟨hlay, hname⟩ := ops_layout op hmem
  have hL : len + op.codeSz ≤ 6 := by
    rcases hk : getRMOffset op.description (decode.drop (c + op.codeSz)) with _ | k
    · simp [getLen, hk] at hlen
    · have hb := getRMOffsetLoop_bound _ _ _ hk
      simp only [getLen, hk, Option.bind_eq_bind, Option.some_bind, Option.some.injEq] at hlen
      rw [getLenLoop_eq] at hlen
      omega
  refine ⟨hL, hname, ?_⟩
  have hstep := decStep_fit decode execOffset c op len hlt hop hlen hfit
  rw [headerLine_text decode c execOffset op len hL hname (by omega)] at hstep
  have hdecl : op.description ∈ allDescriptions := ops_descriptions op hmem
  obtain ⟨k, l, hk, hloop, hl⟩ := printDescription_returns op.description hdecl
    (decode.drop (c + op.codeSz)) ⟨headerText decode c execOffset op len⟩ len hlen
    (by simp only [List.length_drop]; omega)
  rw [printDescriptionLoop_append] at hloop
  rcases hE : printDescriptionLoop op.description.d (decode.drop (c + op.codeSz)) k true
    Line.empty with _ | r
  · rw [hE] at hloop; cases hloop
  · rw [hE] at hloop
    simp only [Option.map_some', Option.some.injEq, Prod.mk.injEq] at hloop
    refine ⟨r.2.text.take (min r.2.text.length (256 - 50)), ?_⟩
    rw [hstep, hl, ← hloop.2]
    simp only [Option.some_bind, Line.appendChars, Line.len,
      headerText_length decode c execOffset op len hL hname (by omega)]

theorem leadText_length (decode : List Byte) (c execOffset n : Nat)
    (hfit : c + n ≤ decode.length) :
    (leadText decode c execOffset n).length = 15 + 3 * n := by
  have hbs : ((decode.drop c).take n).length = n := by
    simp only [List.length_take, List.length_drop]; omega
  have h8 := fmtHex8_mod (execOffset + c)
  have e1 : "0x".toList.length = 2 := rfl
  have e2 : ":  ".toList.length = 3 := rfl
  have e3 : "; ".toList.length = 2 := rfl
  simp only [leadText, List.length_append, rawText_length, hbs, h8, e1, e2, e3]
  omega

theorem headerText_eq (decode : List Byte) (c execOffset : Nat) (op : Op) (len : Nat) :
    headerText decode c execOffset op len =
      leadText decode c execOffset (len + op.codeSz) ++
        List.replicate (36 - (15 + 3 * (len + op.codeSz))) ' ' ++ op.name.toList ++
        List.replicate (14 - op.name.length) ' ' := rfl

/-- C26: the raw bytes field.  For every matched step at cursor `c` whose
`L = codeSz + getLen` bytes are inside the buffer, the line starts with the
address, `:  `, and then the bytes `buffer[c]`, ..., `buffer[c + L - 1]` in
order, each as two uppercase hexadecimal digits without `0x` and followed by
one blank, and then `; `; the step moves the cursor to `c + L`. -/
theorem C26_raw_bytes_field (decode : List Byte) (execOffset c : Nat) (op : Op) (len : Nat)
    (hlt : decode.length < 2 ^ 32)
    (hop : getOP (decode.drop c) (decode.length - c) = some (some op))
    (hlen : getLen op.description (decode.drop (c + op.codeSz)) = some len)
    (hfit : c + op.codeSz + len ≤ decode.length) :
    (∃ rest, decStep decode execOffset c =
      some (⟨"0x".toList ++ fmtHex 8 ((execOffset + c) % 2 ^ 32) ++ ":  ".toList ++
        rawText ((decode.drop c).take (op.codeSz + len)) ++ "; ".toList ++ rest⟩,
        c + (op.codeSz + len))) ∧
    ((decode.drop c).take (op.codeSz + len)).length = op.codeSz + len ∧
    (∀ i, i < op.codeSz + len →
      ((decode.drop c).take (op.codeSz + len))[i]? = decode[c + i]?) ∧
    (∀ bs : List Byte,
      rawText bs = (bs.map (fun b => [hexChar (b.val / 16), hexChar b.val, ' '])).flatten) := by
  obtain ⟨_, _, operands, hstep⟩ := decStep_layout decode execOffset c op len hlt hop hlen hfit
  refine ⟨⟨List.replicate (36 - (15 + 3 * (len + op.codeSz))) ' ' ++ op.name.toList ++
    List.replicate (14 - op.name.length) ' ' ++ operands, ?_⟩, ?_, ?_, ?_⟩
  · rw [hstep, headerText_eq, leadText, Nat.add_comm op.codeSz len]
    simp only [List.append_assoc, Nat.add_assoc]
  · simp only [List.length_take, List.length_drop]; omega
  · intro i hi
    rw [List.getElem?_take_of_lt hi, List.getElem?_drop]
  · intro bs
    rfl

/-- C26 on `B8 34 12` at base `0x100`: the raw bytes field is `B8 34 12 `. -/
theorem C26_raw_bytes_field_witness :
    ([0xB8, 0x34, 0x12] : List Byte).length < 2 ^ 32 ∧
    getOP (([0xB8, 0x34, 0x12] : List Byte).drop 0) (([0xB8, 0x34, 0x12] : List Byte).length - 0)
      = some (some (Op.mk1 0xB8 "MOV" REG_AX_DW)) ∧
    getLen REG_AX_DW (([0xB8, 0x34, 0x12] : List Byte).drop (0 + 1)) = some 2 ∧
    ∃ rest, decStep [0xB8, 0x34, 0x12] 0x100 0 =
      some (⟨"0x00000100:  B8 34 12 ; ".toList ++ rest⟩, 3) := by
  have hop : getOP (([0xB8, 0x34, 0x12] : List Byte).drop 0)
      (([0xB8, 0x34, 0x12] : List Byte).length - 0) =
      some (some (Op.mk1 0xB8 "MOV" REG_AX_DW)) := getOP_B8 [0x34, 0x12]
  have hlen : getLen (Op.mk1 0xB8 "MOV" REG_AX_DW).description
      (([0xB8, 0x34, 0x12] : List Byte).drop (0 + (Op.mk1 0xB8 "MOV" REG_AX_DW).codeSz)) =
      some 2 := by decide
  obtain ⟨⟨rest, h⟩, _⟩ := C26_raw_bytes_field [0xB8, 0x34, 0x12] 0x100 0
    (Op.mk1 0xB8 "MOV" REG_AX_DW) 2 (by decide) hop hlen (by decide)
  refine ⟨by decide, hop, hlen, rest, ?_⟩
  rw [h]
  have e : "0x".toList ++ fmtHex 8 ((0x100 + 0) % 2 ^ 32) ++ ":  ".toList ++
      rawText ((([0xB8, 0x34, 0x12] : List Byte).drop 0).take
        ((Op.mk1 0xB8 "MOV" REG_AX_DW).codeSz + 2)) ++ "; ".toList =
      "0x00000100:  B8 34 12 ; ".toList := by decide
  rw [e]
  rfl

/-- C27: the line layout.  For every buffer, base offset and matched step whose
`L = codeSz + getLen` bytes are inside the buffer: the text in front of the
mnemonic (address, raw bytes, `; `) is `15 + 3 * L` characters long, at most 36
(no instruction of the table is longer than 6 bytes), and is filled with blanks
to 36 characters, so the mnemonic begins at character offset 36; the mnemonic
is at most 14 characters long (at most 11 in the table) and is filled with
blanks to offset 50; what follows offset 50 is what `printDescription` appends
for the operands. -/
theorem C27_line_layout (decode : List Byte) (execOffset c : Nat) (op : Op) (len : Nat)
    (hlt : decode.length < 2 ^ 32)
    (hop : getOP (decode.drop c) (decode.length - c) = some (some op))
    (hlen : getLen op.description (decode.drop (c + op.codeSz)) = some len)
    (hfit : c + op.codeSz + len ≤ decode.length) :
    ∃ (line : Line) (operands : List Char),
      decStep decode execOffset c = some (line, c + (op.codeSz + len)) ∧
      (leadText decode c execOffset (op.codeSz + len)).length = 15 + 3 * (op.codeSz + len) ∧
      (leadText decode c execOffset (op.codeSz + len)).length ≤ 36 ∧
      op.name.length ≤ 14 ∧
      line.text = leadText decode c execOffset (op.codeSz + len) ++
        List.replicate (36 - (leadText decode c execOffset (op.codeSz + len)).length) ' ' ++
        op.name.toList ++ List.replicate (50 - (36 + op.name.length)) ' ' ++ operands ∧
      line.text.take 36 = leadText decode c execOffset (op.codeSz + len) ++
        List.replicate (36 - (leadText decode c execOffset (op.codeSz + len)).length) ' ' ∧
      (line.text.drop 36).take op.name.length = op.name.toList ∧
      (line.text.drop (36 + op.name.length)).take (50 - (36 + op.name.length)) =
        List.replicate (50 - (36 + op.name.length)) ' ' ∧
      line.text.drop 50 = operands ∧
      printDescription op.description (decode.drop (c + op.codeSz)) ⟨line.text.take 50⟩ =
        some line := by
  obtain ⟨hL, hname, operands, hstep⟩ :=
    decStep_layout decode execOffset c op len hlt hop hlen hfit
  have hP := leadText_length decode c execOffset (op.codeSz + len) (by omega)
  have hn : op.name.toList.length = op.name.length := rfl
  have htext : headerText decode c execOffset op len ++ operands =
      leadText decode c execOffset (op.codeSz + len) ++
        List.replicate (36 - (leadText decode c execOffset (op.codeSz + len)).length) ' ' ++
        op.name.toList ++ List.replicate (50 - (36 + op.name.length)) ' ' ++ operands := by
    rw [headerText_eq, hP, Nat.add_comm len op.codeSz]
    congr 3
    omega
  have hpad : (leadText decode c execOffset (op.codeSz + len) ++
      List.replicate (36 - (leadText decode c execOffset (op.codeSz + len)).length) ' ').length
      = 36 := by
    simp only [List.length_append, List.length_replicate, hP]; omega
  have hhead := headerText_length decode c execOffset op len hL hname (by omega)
  refine ⟨⟨headerText decode c execOffset op len ++ operands⟩, operands, ?_, hP, by omega,
    by omega, htext, ?_, ?_, ?_, ?_, ?_⟩
  · rw [hstep]
    simp only [Nat.add_assoc, Nat.add_comm len op.codeSz]
  · show (headerText decode c execOffset op len ++ operands).take 36 = _
    rw [htext]
    simp only [List.append_assoc]
    rw [← List.append_assoc]
    exact List.take_left' hpad
  · show ((headerText decode c execOffset op len ++ operands).drop 36).take _ = _
    rw [htext]
    simp only [List.append_assoc]
    rw [← List.append_assoc, List.drop_left' hpad]
    exact List.take_left' hn
  · show ((headerText decode c execOffset op len ++ operands).drop _).take _ = _
    rw [htext]
    simp only [List.append_assoc]
    rw [← List.append_assoc, ← List.append_assoc,
      List.drop_left' (by simp only [List.length_append, hpad, hn])]
    exact List.take_left' (List.length_replicate _ _)
  · show (headerText decode c execOffset op len ++ operands).drop 50 = _
    exact List.drop_left' hhead
  · show printDescription _ _ ⟨(headerText decode c execOffset op len ++ operands).take 50⟩ = _
    rw [List.take_left' hhead]
    have hfitS := decStep_fit decode execOffset c op len hlt hop hlen hfit
    rw [headerLine_text decode c execOffset op len hL hname (by omega), hstep] at hfitS
    rcases hp : printDescription op.description (decode.drop (c + op.codeSz))
      ⟨headerText decode c execOffset op len⟩ with _ | l
    · rw [hp] at hfitS; cases hfitS
    · rw [hp] at hfitS
      simp only [Option.some_bind, Option.some.injEq, Prod.mk.injEq] at hfitS
      rw [hfitS.1]

/-- C27 on `B8 34 12` at base `0x100`: 24 characters in front of the mnemonic
padding, `MOV` at offset 36, the operands from offset 50 on. -/
theorem C27_line_layout_witness :
    ([0xB8, 0x34, 0x12] : List Byte).length < 2 ^ 32 ∧
    getOP (([0xB8, 0x34, 0x12] : List Byte).drop 0) (([0xB8, 0x34, 0x12] : List Byte).length - 0)
      = some (some (Op.mk1 0xB8 "MOV" REG_AX_DW)) ∧
    getLen REG_AX_DW (([0xB8, 0x34, 0x12] : List Byte).drop (0 + 1)) = some 2 ∧
    ∃ (line : Line) (operands : List Char),
      decStep [0xB8, 0x34, 0x12] 0x100 0 = some (line, 3) ∧
      line.text.take 36 = "0x00000100:  B8 34 12 ;             ".toList ∧
      (line.text.drop 36).take 3 = "MOV".toList ∧
      line.text.drop 50 = operands := by
  have hop : getOP (([0xB8, 0x34, 0x12] : List Byte).drop 0)
      (([0xB8, 0x34, 0x12] : List Byte).length - 0) =
      some (some (Op.mk1 0xB8 "MOV" REG_AX_DW)) := getOP_B8 [0x34, 0x12]
  have hlen : getLen (Op.mk1 0xB8 "MOV" REG_AX_DW).description
      (([0xB8, 0x34, 0x12] : List Byte).drop (0 + (Op.mk1 0xB8 "MOV" REG_AX_DW).codeSz)) =
      some 2 := by decide
  obtain ⟨line, operands, h1, _, _, _, _, h36, hname, _, h50, _⟩ :=
    C27_line_layout [0xB8, 0x34, 0x12] 0x100 0 (Op.mk1 0xB8 "MOV" REG_AX_DW) 2 (by decide) hop
      hlen (by decide)
  refine ⟨by decide, hop, hlen, line, operands, h1, ?_, hname, h50⟩
  rw [h36]
  decide

/-! ## The number of lines -/

theorem decLoop_lines_le (decode : List Byte) (execOffset fuel c : Nat) (lines : List Line)
    (h : decLoop decode execOffset fuel c = Outcome.finished lines) : lines.length ≤ fuel := by
  induction fuel generalizing c lines with
  | zero =>
    rw [decLoop] at h
    split_ifs at h
    cases h
    simp
  | succ fuel ih =>
    rw [decLoop] at h
    split_ifs at h
    · rcases hs : decStep decode execOffset c with _ | r
      · rw [hs] at h; cases h
      · obtain ⟨line, next⟩ := r
        rw [hs] at h
        simp only at h
        rcases hr : decLoop decode execOffset fuel next with ls | _ | _
        · rw [hr] at h
          simp only [Outcome.cons, Outcome.finished.injEq] at h
          have := ih _ _ hr
          rw [← h]
          simp only [List.length_cons]
          omega
        · rw [hr] at h; cases h
        · rw [hr] at h; cases h
    · cases h
      simp

/-- C28: the empty buffer.  For the empty byte buffer and every base offset
the loop of `dec` ends before its first iteration, whatever the cursor and the
number of iterations allowed, and `dec` prints no line. -/
theorem C28_empty_buffer (execOffset : Nat) :
    dec [] execOffset = Outcome.finished [] ∧
    (∀ fuel c, decLoop [] execOffset fuel c = Outcome.finished []) := by
  refine ⟨rfl, fun fuel c => ?_⟩
  cases fuel <;> simp [decLoop]

/-- C29, counterexample: the empty byte sequence is a finite byte sequence for
which `dec` prints no line, so not every byte sequence gives a non-empty
sequence of lines. -/
theorem C29_empty_counterexample :
    dec [] 0x100 = Outcome.finished [] ∧
    ¬ ∀ (decode : List Byte) (execOffset : Nat),
      ∃ line lines, dec decode execOffset = Outcome.finished (line :: lines) := by
  refine ⟨rfl, fun h => ?_⟩
  obtain ⟨line, lines, hl⟩ := h [] 0x100
  have : dec [] 0x100 = Outcome.finished [] := rfl
  rw [this] at hl
  cases hl

/-- C29, amended: for every byte sequence that is not empty (and that a
`uint32_t` cursor can walk), `dec` ends and prints at least one line and at
most one line per byte. -/
theorem C29_nonempty_output (decode : List Byte) (execOffset : Nat) (hne : decode ≠ [])
    (hsize : decode.length + 16 ≤ 2 ^ 32) :
    ∃ line lines, dec decode execOffset = Outcome.finished (line :: lines) ∧
      (line :: lines).length ≤ decode.length := by
  have hpos : 0 < decode.length := List.length_pos.2 hne
  obtain ⟨n, hn⟩ : ∃ n, decode.length = n + 1 := ⟨decode.length - 1, by omega⟩
  obtain ⟨line, next, hstep, hprog⟩ := decStep_progress decode execOffset 0 hsize hpos
  obtain ⟨ls, hls⟩ := decLoop_finishes decode execOffset hsize n next (by omega)
  have hdec : dec decode execOffset = Outcome.finished (line :: ls) := by
    rw [dec, hn, decLoop, if_pos (by omega), hstep]
    simp only [hls, Outcome.cons]
  refine ⟨line, ls, hdec, ?_⟩
  have := decLoop_lines_le decode execOffset decode.length 0 (line :: ls) hdec
  exact this

/-- C29, amended, on the one byte buffer `90`: one line. -/
theorem C29_nonempty_output_witness :
    ([0x90] : List Byte) ≠ [] ∧ ([0x90] : List Byte).length + 16 ≤ 2 ^ 32 ∧
    ∃ line lines, dec [0x90] 0x100 = Outcome.finished (line :: lines) ∧
      (line :: lines).length ≤ ([0x90] : List Byte).length :=
  ⟨by decide, by decide, C29_nonempty_output [0x90] 0x100 (by decide) (by decide)⟩

/-! ## The byte after the opcode and the length of an instruction -/

/-- Every table entry with an FPU stack register slot has an extension. -/
theorem ops_streg_ext : ∀ op ∈ ops,
    (∃ d ∈ op.description.d, d.type = DType.STREG) → op.opExt ≠ OPExt.NONE := by
  decide!

/-- C31: addressing byte availability.  For every window and every descriptor
`getOP` returns on it: when the descriptor has an extension kind other than
`NONE`, or its description has a slot whose length or rendering reads the byte
after the opcode (register-or-memory, memory-only, `RB`, `RW`, `SEG`, `STREG`),
the window holds at least `codeSz + 1` bytes, so that byte can be read. -/
theorem C31_addressing_byte_available (win : List Byte) (op : Op)
    (h : getOP win win.length = some (some op))
    (hneed : op.opExt ≠ OPExt.NONE ∨ ∃ d ∈ op.description.d, readsByte0 d.type = true) :
    op.codeSz + 1 ≤ win.length ∧ (∃ b, win[op.codeSz]? = some b) ∧
    (∃ b, (win.drop op.codeSz)[0]? = some b) := by
  obtain ⟨hmem, hm⟩ := getOP_some_matches win op h
  have hlen : op.codeSz + 1 ≤ win.length := by
    rcases hneed with hext | ⟨d, hd, hr⟩
    · exact hm.byte_after (Or.inl hext)
    · rcases readsByte0_cases _ hr with hn | hs
      · exact hm.byte_after (Or.inr ⟨d, hd, hn⟩)
      · exact hm.byte_after (Or.inl (ops_streg_ext op hmem ⟨d, hd, hs⟩))
  refine ⟨hlen, rdSome win op.codeSz (by omega), ?_⟩
  exact rdSome (win.drop op.codeSz) 0 (by rw [List.length_drop]; omega)

/-- C31 on the window `8C D8` (`MOV RMW, SEG`, extension `N`). -/
theorem C31_addressing_byte_available_witness :
    getOP ([0x8C, 0xD8] : List Byte) ([0x8C, 0xD8] : List Byte).length =
      some (some (Op.mk1x 0x8C "MOV" R_RMW_SEG OPExt.N 3)) ∧
    (Op.mk1x 0x8C "MOV" R_RMW_SEG OPExt.N 3).codeSz + 1 ≤ ([0x8C, 0xD8] : List Byte).length :=
  ⟨by decide!,
    (C31_addressing_byte_available [0x8C, 0xD8] (Op.mk1x 0x8C "MOV" R_RMW_SEG OPExt.N 3)
      (by decide!) (Or.inl (by decide))).1⟩

/-- C33: bounded instruction length.  For every window and every descriptor
`getOP` returns on it the length pass returns, and the total length
`codeSz + getLen` is at least 1 and at most 6 bytes. -/
theorem C33_bounded_instruction_length (win : List Byte) (op : Op)
    (h : getOP win win.length = some (some op)) :
    ∃ len, getLen op.description (win.drop op.codeSz) = some len ∧
      1 ≤ op.codeSz + len ∧ op.codeSz + len ≤ 6 := by
  obtain ⟨hmem, hm⟩ := getOP_some_matches win op h
  obtain ⟨k, len, hk, hlen, hleq, _⟩ := getLen_matched op win (ops_slotsOK op hmem) hm
  have hb := getRMOffsetLoop_bound _ _ _ hk
  have hlay := (ops_layout op hmem).1
  have hcode := ops_codeOK op hmem
  refine ⟨len, hlen, ?_, ?_⟩
  · rcases hcode with ⟨h1 | h1, _⟩ <;> omega
  · rw [hleq, getLenLoop_eq]
    omega

/-- C33 on the window `81 86 00 00 34 12` (`ADD WORD [BP + 0x0000], WORD 0x1234`):
the bound of 6 bytes is reached. -/
theorem C33_bounded_instruction_length_witness :
    getOP ([0x81, 0x86, 0x00, 0x00, 0x34, 0x12] : List Byte)
      ([0x81, 0x86, 0x00, 0x00, 0x34, 0x12] : List Byte).length =
      some (some (Op.mk1x 0x81 "ADD" R_RMW_DW OPExt.N 0)) ∧
    getLen R_RMW_DW (([0x81, 0x86, 0x00, 0x00, 0x34, 0x12] : List Byte).drop 1) = some 5 ∧
    ∃ len, getLen (Op.mk1x 0x81 "ADD" R_RMW_DW OPExt.N 0).description
        (([0x81, 0x86, 0x00, 0x00, 0x34, 0x12] : List Byte).drop
          (Op.mk1x 0x81 "ADD" R_RMW_DW OPExt.N 0).codeSz) = some len ∧
      1 ≤ (Op.mk1x 0x81 "ADD" R_RMW_DW OPExt.N 0).codeSz + len ∧
      (Op.mk1x 0x81 "ADD" R_RMW_DW OPExt.N 0).codeSz + len ≤ 6 :=
  ⟨by decide!, by decide,
    C33_bounded_instruction_length [0x81, 0x86, 0x00, 0x00, 0x34, 0x12]
      (Op.mk1x 0x81 "ADD" R_RMW_DW OPExt.N 0) (by decide!)⟩

theorem dec_8D_example : dec [0x8D, 0xC0] 0x100 = Outcome.finished
    [⟨"0x00000100:  8D C0 ;                LEA            AX, AX".toList⟩] := by
  decide!

/-- C38: wide and width-less slots in register mode.  For every addressing
byte `b` with mode 11, a dword, qword or memory-only slot (`RMDW`, `RMQW`,
`MEM`) appends exactly the name at index `b & 7` of the word register table
`rw` (AX, CX, DX, BX, SP, BP, SI, DI), two characters, with no width keyword and
no brackets, and leaves the offset; the buffer `8D C0` decodes to `LEA` with
the operands `AX, AX`. -/
theorem C38_wide_slots_register_mode (b : Byte) (rest : List Byte) (num offset : Nat)
    (line : Line) (hmode : b.val >>> 6 = 0b11) :
    (∃ nm, rw[b.val &&& 0b111]? = some nm ∧ nm.length = 2 ∧
      printSlot ⟨DType.RMDW, num⟩ (b :: rest) offset line = some (offset, line.appendStr nm) ∧
      printSlot ⟨DType.RMQW, num⟩ (b :: rest) offset line = some (offset, line.appendStr nm) ∧
      printSlot ⟨DType.MEM, num⟩ (b :: rest) offset line = some (offset, line.appendStr nm) ∧
      (line.text.length + 2 ≤ 256 → line.appendStr nm = ⟨line.text ++ nm.toList⟩)) ∧
    rw = ["AX", "CX", "DX", "BX", "SP", "BP", "SI", "DI"] ∧
    dec [0x8D, 0xC0] 0x100 = Outcome.finished
      [⟨"0x00000100:  8D C0 ;                LEA            AX, AX".toList⟩] := by
  obtain ⟨nm, hnm⟩ := lookup_some rw (b.val &&& 0b111) (by simpa [rw] using and7_lt b.val)
  have hlen : nm.length = 2 := by
    have hall : ∀ s ∈ rw, s.length = 2 := by decide
    exact hall nm (List.getElem?_mem hnm)
  refine ⟨⟨nm, hnm, hlen, ?_, ?_, ?_, ?_⟩, rfl, dec_8D_example⟩
  · simp [printSlot, printRMSlot, printRM, hmode, R_Type.cast, hnm]
  · simp [printSlot, printRMSlot, printRM, hmode, R_Type.cast, hnm]
  · simp [printSlot, printRMSlot, printRM, hmode, R_Type.cast, hnm]
  · intro hroom
    have : nm.toList.length = 2 := hlen
    exact Line.appendStr_eq _ _ (by omega)

/-- C38 on the addressing byte `0xC3` (mode 11, r/m 3): `BX` for a dword slot. -/
theorem C38_wide_slots_register_mode_witness :
    (0xC3 : Byte).val >>> 6 = 0b11 ∧
    printSlot ⟨DType.RMDW, 0⟩ [0xC3] 1 Line.empty = some (1, ⟨"BX".toList⟩) := by
  obtain ⟨⟨nm, hnm, _, h1, _, _, h4⟩, _⟩ :=
    C38_wide_slots_register_mode 0xC3 [] 0 1 Line.empty (by decide)
  have : nm = "BX" := by
    have h : rw[(0xC3 : Byte).val &&& 0b111]? = some "BX" := by decide
    rw [h] at hnm
    exact (Option.some.inj hnm).symm
  subst this
  exact ⟨by decide, by rw [h1]; decide⟩

/-! ## The line buffer -/

theorem Line.appendChars_len (line : Line) (s : List Char) :
    (line.appendChars s).len = line.len + min s.length (256 - line.len) := by
  simp only [Line.appendChars, Line.len, List.length_append, List.length_take]
  omega

theorem Line.appendPad_text (line : Line) (i : Nat) (hi : i < 256) :
    (line.appendPad i).text = line.text ++ List.replicate (i - line.len) ' ' := by
  unfold Line.appendPad
  by_cases h : i > line.len ∧ i < 256
  · rw [if_pos h]
  · rw [if_neg h]
    have : i - line.len = 0 := by omega
    rw [this]
    simp

theorem Line.apply_len_le (line : Line) (o : LineOp) (h : line.len ≤ 256) :
    (line.apply o).len ≤ 256 := by
  cases o with
  | str s =>
    show (line.appendChars s.toList).len ≤ 256
    rw [Line.appendChars_len]; omega
  | num n =>
    show (line.appendChars n.format).len ≤ 256
    rw [Line.appendChars_len]; omega
  | pad i =>
    show (line.appendPad i).len ≤ 256
    unfold Line.appendPad
    by_cases hp : i > line.len ∧ i < 256
    · rw [if_pos hp]
      simp only [Line.len, List.length_append, List.length_replicate] at h ⊢
      omega
    · rw [if_neg hp]; exact h

theorem Line.applyAll_len_le (line : Line) (os : List LineOp) (h : line.len ≤ 256) :
    (line.applyAll os).len ≤ 256 := by
  induction os generalizing line with
  | nil => exact h
  | cons o os ih => exact ih (line.apply o) (Line.apply_len_le line o h)

/-- C32: the line buffer invariant.  Starting from the empty line, after any
sequence of string, `Pad` and `Num` appends the length is at most 256.  On
every line an append of a string of length `s` adds the first
`min(s, 256 - len)` characters of the string behind the text there is, and so
does the append of a `Num` with its formatted text; an append of `Pad{i}` with
`i < 256` adds `i - len` blanks (none when `len >= i`) behind the text there
is and leaves the length `max(len, i)`. -/
theorem C32_line_buffer_invariant :
    (∀ os : List LineOp, (Line.empty.applyAll os).len ≤ 256) ∧
    (∀ (line : Line) (s : String),
      (line.appendStr s).text = line.text ++ s.toList.take (min s.length (256 - line.len)) ∧
      (line.appendStr s).len = line.len + min s.length (256 - line.len)) ∧
    (∀ (line : Line) (n : Num),
      (line.appendNum n).text =
        line.text ++ n.format.take (min n.format.length (256 - line.len)) ∧
      (line.appendNum n).len = line.len + min n.format.length (256 - line.len)) ∧
    (∀ (line : Line) (i : Nat), i < 256 →
      (line.appendPad i).text = line.text ++ List.replicate (i - line.len) ' ' ∧
      (line.appendPad i).len = max line.len i) ∧
    (∀ (line : Line) (i : Nat), 256 ≤ i → line.appendPad i = line) := by
  refine ⟨fun os => Line.applyAll_len_le _ os (by decide), fun line s => ⟨rfl, ?_⟩,
    fun line n => ⟨rfl, ?_⟩, fun line i hi => ⟨Line.appendPad_text line i hi, ?_⟩,
    fun line i hi => ?_⟩
  · exact Line.appendChars_len line s.toList
  · exact Line.appendChars_len line n.format
  · have := Line.appendPad_text line i hi
    simp only [Line.len, this, List.length_append, List.length_replicate]
    omega
  · unfold Line.appendPad
    rw [if_neg (by omega)]

/-! ## The bytes the lines consume -/

/-- A step that is not a length overrun ends inside the buffer. -/
theorem decStep_no_overrun (decode : List Byte) (execOffset c : Nat)
    (hlt : decode.length < 2 ^ 32) (hc : c < decode.length)
    (hno : isOverrun decode c = false) :
    ∃ line next, decStep decode execOffset c = some (line, next) ∧ c < next ∧
      next ≤ decode.length := by
  have hwin : (decode.drop c).length = decode.length - c := List.length_drop _ _
  obtain ⟨r, hr⟩ := getOP_isSome (decode.drop c)
  rw [hwin] at hr
  cases r with
  | some op =>
    obtain ⟨len, hlen, h1, hcs, _, hcase⟩ := decStep_of_match decode execOffset c op hlt hc hr
    rcases hcase with ⟨hfit, l, _, hstep⟩ | ⟨hover, _⟩
    · exact ⟨l, _, hstep, by omega, by omega⟩
    · exfalso
      have hmod : (c + op.codeSz) % 2 ^ 32 = c + op.codeSz := Nat.mod_eq_of_lt (by omega)
      have : isOverrun decode c = true := by
        simp only [isOverrun, hr, hlen, hmod, decide_eq_true_eq]
        omega
      rw [this] at hno
      cases hno
  | none =>
    obtain ⟨op1, hb⟩ := rdSome decode c hc
    by_cases hfpu : decode.length - c ≥ 2 ∧ op1.val ≥ 0xD8 ∧ op1.val ≤ 0xDF
    · obtain ⟨op2, hb2⟩ := rdSome decode (c + 1) (by omega)
      obtain ⟨hstep, hle⟩ := decStep_fpu decode execOffset c op1 op2 hlt hr hb hb2 hfpu.2
      exact ⟨_, _, hstep, by omega, hle⟩
    · exact ⟨_, _, decStep_db decode execOffset c op1 hlt hr hb hfpu, by omega, by omega⟩

theorem decCursors_cover (decode : List Byte) (execOffset : Nat) (hlt : decode.length < 2 ^ 32)
    (fuel c : Nat) (hc : c ≤ decode.length) (hfuel : decode.length ≤ c + fuel)
    (hno : ∀ s ∈ decCursors decode execOffset fuel c, isOverrun decode s.1 = false) :
    (∃ lines, decLoop decode execOffset fuel c = Outcome.finished lines ∧
      lines.length = (decCursors decode execOffset fuel c).length) ∧
    ((decCursors decode execOffset fuel c).map (consumed decode)).flatten = decode.drop c ∧
    (∀ x : Nat, List.Chain (fun a b => a.2 = b.1) (x, c) (decCursors decode execOffset fuel c)) ∧
    (∀ s ∈ decCursors decode execOffset fuel c, s.1 < s.2 ∧ s.2 ≤ decode.length) ∧
    (((decCursors decode execOffset fuel c).getLast?).map Prod.snd).getD c = decode.length := by
  induction fuel generalizing c with
  | zero =>
    have hcl : ¬ c < decode.length := by omega
    have hceq : c = decode.length := by omega
    refine ⟨⟨[], by rw [decLoop, if_neg hcl], rfl⟩, ?_, fun _ => List.Chain.nil, ?_, ?_⟩
    · simp [decCursors, hceq]
    · intro s hs
      simp [decCursors] at hs
    · simp [decCursors, hceq]
  | succ fuel ih =>
    by_cases hcl : c < decode.length
    · have hhead : isOverrun decode c = false := by
        obtain ⟨r, hr⟩ := decStep_isSome decode execOffset c hlt hcl
        apply hno (c, r.2)
        rw [decCursors, if_pos hcl, hr]
        exact List.mem_cons_self _ _
      obtain ⟨line, next, hstep, hlt1, hle⟩ :=
        decStep_no_overrun decode execOffset c hlt hcl hhead
      have hcur : decCursors decode execOffset (fuel + 1) c =
          (c, next) :: decCursors decode execOffset fuel next := by
        rw [decCursors, if_pos hcl, hstep]
      rw [hcur] at hno ⊢
      obtain ⟨⟨lines, hl, hlen⟩, hflat, hchain, hall, hlast⟩ := ih next hle (by omega)
        (fun s hs => hno s (List.mem_cons_of_mem _ hs))
      refine ⟨⟨line :: lines, ?_, by simp [hlen]⟩, ?_, ?_, ?_, ?_⟩
      · rw [decLoop, if_pos hcl, hstep]
        simp only [hl, Outcome.cons]
      · simp only [List.map_cons, List.flatten_cons, hflat, consumed]
        have : decode.drop next = (decode.drop c).drop (next - c) := by
          rw [List.drop_drop]
          congr 1
          omega
        rw [this, List.take_append_drop]
      · intro x
        exact List.Chain.cons rfl (hchain c)
      · intro s hs
        rcases List.mem_cons.1 hs with rfl | hs
        · exact ⟨hlt1, hle⟩
        · exact hall s hs
      · rcases hcs : decCursors decode execOffset fuel next with _ | ⟨s, ss⟩
        · rw [hcs] at hlast
          simpa using hlast
        · rw [hcs] at hlast
          simpa [List.getLast?_cons_cons] using hlast
    · have hceq : c = decode.length := by omega
      have hcur : decCursors decode execOffset (fuel + 1) c = [] := by
        rw [decCursors, if_neg hcl]
      rw [hcur]
      refine ⟨⟨[], by rw [decLoop, if_neg hcl], rfl⟩, ?_, fun _ => List.Chain.nil, ?_, ?_⟩
      · simp [hceq]
      · intro s hs
        cases hs
      · simp [hceq]

/-- C34: exact coverage.  For every buffer (of a length the `uint32_t` cursor
can hold) and base offset: a step that is not a length overrun moves the
cursor forward and leaves it at most equal to the buffer length; and when no
step of the sweep is a length overrun, the sweep ends, with one line per step,
the cursor after the last step equals the buffer length, every step starts
where the step before it ended (the first at 0), and the bytes between the
cursors of the steps, behind one another, are the buffer: the consumed ranges
are contiguous, disjoint and cover the whole buffer. -/
theorem C34_exact_coverage (decode : List Byte) (execOffset : Nat)
    (hlt : decode.length < 2 ^ 32) :
    (∀ c, c < decode.length → isOverrun decode c = false →
      ∃ line next, decStep decode execOffset c = some (line, next) ∧ c < next ∧
        next ≤ decode.length) ∧
    ((∀ s ∈ decCursors decode execOffset decode.length 0, isOverrun decode s.1 = false) →
      (∃ lines, dec decode execOffset = Outcome.finished lines ∧
        lines.length = (decCursors decode execOffset decode.length 0).length) ∧
      ((decCursors decode execOffset decode.length 0).map (consumed decode)).flatten = decode ∧
      (∀ x : Nat, List.Chain (fun a b => a.2 = b.1) (x, 0)
        (decCursors decode execOffset decode.length 0)) ∧
      (∀ s ∈ decCursors decode execOffset decode.length 0, s.1 < s.2 ∧ s.2 ≤ decode.length) ∧
      (((decCursors decode execOffset decode.length 0).getLast?).map Prod.snd).getD 0 =
        decode.length) := by
  refine ⟨fun c hc hno => decStep_no_overrun decode execOffset c hlt hc hno, fun hno => ?_⟩
  have h := decCursors_cover decode execOffset hlt decode.length 0 (Nat.zero_le _) (by omega) hno
  rw [List.drop_zero] at h
  exact h

theorem decCursors_example : decCursors [0xB8, 0x34, 0x12, 0x90] 0x100 4 0 = [(0, 3), (3, 4)] := by
  decide!

/-- C34 on the buffer `B8 34 12 90`: two steps, bytes 0 to 2 and byte 3. -/
theorem C34_exact_coverage_witness :
    ([0xB8, 0x34, 0x12, 0x90] : List Byte).length < 2 ^ 32 ∧
    decCursors [0xB8, 0x34, 0x12, 0x90] 0x100 4 0 = [(0, 3), (3, 4)] ∧
    (([(0, 3), (3, 4)] : List (Nat × Nat)).map
      (consumed [0xB8, 0x34, 0x12, 0x90])).flatten = [0xB8, 0x34, 0x12, 0x90] := by
  have h := (C34_exact_coverage [0xB8, 0x34, 0x12, 0x90] 0x100 (by decide)).2
  have hc : decCursors [0xB8, 0x34, 0x12, 0x90] 0x100
      ([0xB8, 0x34, 0x12, 0x90] : List Byte).length 0 = [(0, 3), (3, 4)] := decCursors_example
  rw [hc] at h
  exact ⟨by decide, decCursors_example, (h (by decide!)).2.1⟩

/-! ## The base offset -/

theorem sameTail_refl (l : Line) (h : 10 ≤ l.text.length) : sameTail l l := ⟨h, rfl, rfl⟩

theorem sameTail_appendChars (l1 l2 : Line) (s : List Char) (h : sameTail l1 l2) :
    sameTail (l1.appendChars s) (l2.appendChars s) := by
  obtain ⟨h10, hlen, hdrop⟩ := h
  have h10b : 10 ≤ l2.text.length := by omega
  simp only [sameTail, Line.appendChars, Line.len, List.length_append, List.length_take, hlen]
  refine ⟨by omega, trivial, ?_⟩
  rw [List.drop_append_of_le_length h10, List.drop_append_of_le_length h10b, hdrop]

theorem sameTail_appendStr (l1 l2 : Line) (s : String) (h : sameTail l1 l2) :
    sameTail (l1.appendStr s) (l2.appendStr s) := sameTail_appendChars l1 l2 _ h

theorem sameTail_appendNum (l1 l2 : Line) (n : Num) (h : sameTail l1 l2) :
    sameTail (l1.appendNum n) (l2.appendNum n) := sameTail_appendChars l1 l2 _ h

theorem sameTail_appendPad (l1 l2 : Line) (i : Nat) (h : sameTail l1 l2) :
    sameTail (l1.appendPad i) (l2.appendPad i) := by
  obtain ⟨h10, hlen, hdrop⟩ := h
  have h10b : 10 ≤ l2.text.length := by omega
  unfold Line.appendPad
  simp only [Line.len, hlen]
  by_cases hp : i > l2.text.length ∧ i < 256
  · rw [if_pos hp, if_pos hp]
    simp only [sameTail, List.length_append, List.length_replicate, hlen]
    refine ⟨by omega, trivial, ?_⟩
    rw [List.drop_append_of_le_length h10, List.drop_append_of_le_length h10b, hdrop]
  · rw [if_neg hp, if_neg hp]
    exact ⟨h10, hlen, hdrop⟩

theorem sameTail_rawField (bs : List Byte) (l1 l2 : Line) (h : sameTail l1 l2) :
    sameTail (rawField bs l1) (rawField bs l2) := by
  induction bs generalizing l1 l2 with
  | nil => exact h
  | cons b bs ih =>
    exact ih _ _ (sameTail_appendStr _ _ _ (sameTail_appendNum _ _ _ h))

theorem sameTail_dbField (bs : List Byte) (l1 l2 : Line) (h : sameTail l1 l2) :
    sameTail (dbField bs l1) (dbField bs l2) := by
  induction bs generalizing l1 l2 with
  | nil => exact h
  | cons b bs ih =>
    exact ih _ _ (sameTail_appendNum _ _ _ (sameTail_appendStr _ _ _ h))

/-- The address field of a decoded line: ten characters. -/
theorem address_text (v : Nat) :
    Line.empty.appendNum ⟨v % 2 ^ 32, NumType.HEX4⟩ = ⟨"0x".toList ++ fmtHex 8 (v % 2 ^ 32)⟩ ∧
    ("0x".toList ++ fmtHex 8 (v % 2 ^ 32)).length = 10 := by
  have h8 := fmtHex8_mod v
  have e1 : "0x".toList.length = 2 := rfl
  have hl : ("0x".toList ++ fmtHex 8 (v % 2 ^ 32)).length = 10 := by
    rw [List.length_append, h8, e1]
  refine ⟨?_, hl⟩
  rw [Line.appendNum_chars, format_HEX4, Line.appendChars_eq _ _ (by
    rw [Line.empty_text, List.length_nil, hl]; omega)]
  simp [Line.empty_text]

theorem sameTail_address (v1 v2 : Nat) :
    sameTail (Line.empty.appendNum ⟨v1 % 2 ^ 32, NumType.HEX4⟩)
      (Line.empty.appendNum ⟨v2 % 2 ^ 32, NumType.HEX4⟩) := by
  obtain ⟨ha1, hl1⟩ := address_text v1
  obtain ⟨ha2, hl2⟩ := address_text v2
  rw [ha1, ha2]
  refine ⟨by simp only [hl1]; omega, by simp only [hl1, hl2], ?_⟩
  rw [List.drop_of_length_le (by simp only [hl1]; omega),
    List.drop_of_length_le (by simp only [hl2]; omega)]

theorem sameTail_headerLine (decode : List Byte) (c e1 e2 : Nat) (op : Op) (len : Nat) :
    sameTail (headerLine decode c e1 op len Line.empty)
      (headerLine decode c e2 op len Line.empty) := by
  unfold headerLine
  exact sameTail_appendPad _ _ _ (sameTail_appendStr _ _ _ (sameTail_appendPad _ _ _
    (sameTail_appendStr _ _ _ (sameTail_rawField _ _ _
      (sameTail_appendStr _ _ _ (sameTail_address _ _))))))

theorem sameTail_overrunLine (decode : List Byte) (c e1 e2 rem : Nat) :
    sameTail (overrunLine decode c e1 rem Line.empty)
      (overrunLine decode c e2 rem Line.empty) := by
  unfold overrunLine
  have h1 := sameTail_rawField ((decode.drop c).take rem) _ _
    (sameTail_appendStr _ _ ":  " (sameTail_address (e1 + c) (e2 + c)))
  apply sameTail_dbField
  rcases decode[c]? with _ | b
  · exact h1
  · simp only
    by_cases hr : rem ≠ 0
    · rw [if_pos hr, if_pos hr]
      exact sameTail_appendNum _ _ _ (sameTail_appendStr _ _ _ (sameTail_appendPad _ _ _
        (sameTail_appendStr _ _ _ h1)))
    · rw [if_neg hr, if_neg hr]
      exact h1

/-- The whole of `printDescription` only appends to the line. -/
theorem printDescription_append (description : Description) (decode : List Byte)
    (line : Line) :
    printDescription description decode line =
      (printDescription description decode Line.empty).map
        (fun l => line.appendChars l.text) := by
  unfold printDescription
  rcases getRMOffset description decode with _ | k
  · rfl
  · simp only [Option.bind_eq_bind, Option.some_bind]
    rw [printDescriptionLoop_append]
    rcases printDescriptionLoop description.d decode k true Line.empty with _ | r
    · rfl
    · rfl

theorem dbLineText_length (b : Byte) : (dbLineText b).length = 43 := by
  have h8 := fmtHex8_byte b
  have h2 := fmtHex2_byte b
  simp only [dbLineText, List.length_append, List.length_replicate, h8, h2]
  rfl

theorem fpuLineText_length (op1 op2 : Byte) (disp : List Byte) (hd : disp.length ≤ 2) :
    (fpuLineText op1 op2 disp).length = 48 := by
  have h8 := fmtHex8_byte op1
  have h2 := fmtHex2_byte op1
  have h2b := fmtHex2_byte op2
  have hmap : ((disp.map (fun d => " ".toList ++ fmtHex 2 d.val)).flatten).length =
      3 * disp.length := by
    clear hd
    induction disp with
    | nil => rfl
    | cons d ds ih =>
      have := fmtHex2_byte d
      simp only [List.map_cons, List.flatten_cons, List.length_append, List.length_cons, ih, this]
      have e : " ".toList.length = 1 := rfl
      rw [e]
      omega
  simp only [fpuLineText, List.length_append, List.length_replicate, h8, h2, h2b, hmap]
  have e1 : "0x".toList.length = 2 := rfl
  have e2 : ":  ".toList.length = 3 := rfl
  have e3 : " ".toList.length = 1 := rfl
  have e4 : " ; ".toList.length = 3 := rfl
  have e5 : "FPU RESERVED".toList.length = 12 := rfl
  rw [e1, e2, e3, e4, e5]
  omega

theorem fpuExtra_le (op2 : Byte) (rem : Nat) : fpuExtra op2 rem ≤ 2 := by
  unfold fpuExtra
  split_ifs <;> omega

/-- The step from one cursor under two base offsets: the same new cursor and
lines that agree behind the address field. -/
theorem decStep_sameTail (decode : List Byte) (e1 e2 c : Nat) (hlt : decode.length < 2 ^ 32)
    (hc : c < decode.length) :
    ∃ l1 l2 next, decStep decode e1 c = some (l1, next) ∧
      decStep decode e2 c = some (l2, next) ∧ sameTail l1 l2 := by
  have hwin : (decode.drop c).length = decode.length - c := List.length_drop _ _
  obtain ⟨r, hr⟩ := getOP_isSome (decode.drop c)
  rw [hwin] at hr
  cases r with
  | some op =>
    obtain ⟨len, hlen, h1, hcs, _, hcase⟩ := decStep_of_match decode e1 c op hlt hc hr
    obtain ⟨len2, hlen2, _, _, _, hcase2⟩ := decStep_of_match decode e2 c op hlt hc hr
    have hleq : len2 = len := by
      rw [hlen] at hlen2
      exact (Option.some.inj hlen2).symm
    subst hleq
    rcases hcase with ⟨hfit, l1, hp1, hs1⟩ | ⟨hover, hs1⟩
    · rcases hcase2 with ⟨_, l2, hp2, hs2⟩ | ⟨hover2, _⟩
      · refine ⟨l1, l2, _, hs1, hs2, ?_⟩
        rw [printDescription_append] at hp1 hp2
        rcases hE : printDescription op.description (decode.drop (c + op.codeSz))
          Line.empty with _ | t
        · rw [hE] at hp1; cases hp1
        · rw [hE] at hp1 hp2
          simp only [Option.map_some', Option.some.injEq] at hp1 hp2
          rw [← hp1, ← hp2]
          exact sameTail_appendChars _ _ _ (sameTail_headerLine decode c e1 e2 op len2)
      · omega
    · rcases hcase2 with ⟨hfit2, _⟩ | ⟨_, hs2⟩
      · omega
      · exact ⟨_, _, _, hs1, hs2, sameTail_overrunLine decode c e1 e2 _⟩
  | none =>
    obtain ⟨op1, hb⟩ := rdSome decode c hc
    by_cases hfpu : decode.length - c ≥ 2 ∧ op1.val ≥ 0xD8 ∧ op1.val ≤ 0xDF
    · obtain ⟨op2, hb2⟩ := rdSome decode (c + 1) (by omega)
      refine ⟨_, _, _, (decStep_fpu decode e1 c op1 op2 hlt hr hb hb2 hfpu.2).1,
        (decStep_fpu decode e2 c op1 op2 hlt hr hb hb2 hfpu.2).1, sameTail_refl _ ?_⟩
      show 10 ≤ (fpuLineText op1 op2 _).length
      rw [fpuLineText_length _ _ _ (by
        rw [List.length_take]
        have := fpuExtra_le op2 (decode.length - c)
        omega)]
      omega
    · refine ⟨_, _, _, decStep_db decode e1 c op1 hlt hr hb hfpu,
        decStep_db decode e2 c op1 hlt hr hb hfpu, sameTail_refl _ ?_⟩
      show 10 ≤ (dbLineText op1).length
      rw [dbLineText_length]
      omega

theorem decLoop_sameTail (decode : List Byte) (e1 e2 : Nat) (hsize : decode.length + 16 ≤ 2 ^ 32)
    (fuel c : Nat) (hfuel : decode.length ≤ c + fuel) :
    ∃ lines1 lines2, decLoop decode e1 fuel c = Outcome.finished lines1 ∧
      decLoop decode e2 fuel c = Outcome.finished lines2 ∧
      decCursors decode e1 fuel c = decCursors decode e2 fuel c ∧
      (decCursors decode e1 fuel c).length = lines1.length ∧
      List.Forall₂ sameTail lines1 lines2 := by
  have hlt : decode.length < 2 ^ 32 := by omega
  induction fuel generalizing c with
  | zero =>
    have hcl : ¬ c < decode.length := by omega
    exact ⟨[], [], by rw [decLoop, if_neg hcl], by rw [decLoop, if_neg hcl], rfl, rfl,
      List.Forall₂.nil⟩
  | succ fuel ih =>
    by_cases hcl : c < decode.length
    · obtain ⟨l1, l2, next, hs1, hs2, hsame⟩ := decStep_sameTail decode e1 e2 c hlt hcl
      obtain ⟨_, next2, hs3, hprog⟩ := decStep_progress decode e1 c hsize hcl
      have hn : next2 = next := by
        rw [hs1] at hs3
        exact (Prod.mk.inj (Option.some.inj hs3)).2.symm
      subst hn
      obtain ⟨lines1, lines2, h1, h2, hcur, hlen, hall⟩ := ih next2 (by omega)
      refine ⟨l1 :: lines1, l2 :: lines2, ?_, ?_, ?_, ?_, List.Forall₂.cons hsame hall⟩
      · rw [decLoop, if_pos hcl, hs1]
        simp only [h1, Outcome.cons]
      · rw [decLoop, if_pos hcl, hs2]
        simp only [h2, Outcome.cons]
      · rw [decCursors, decCursors, if_pos hcl, if_pos hcl, hs1, hs2]
        simp only [hcur]
      · rw [decCursors, if_pos hcl, hs1]
        simp only [List.length_cons, hlen]
    · exact ⟨[], [], by rw [decLoop, if_neg hcl], by rw [decLoop, if_neg hcl],
        by rw [decCursors, decCursors, if_neg hcl, if_neg hcl],
        by rw [decCursors, if_neg hcl]; rfl, List.Forall₂.nil⟩

/-- C35: base offset independence.  For every buffer (that a `uint32_t` cursor
can walk) and any two base offsets, both sweeps end, with the same number of
lines, one per step, and the same cursors before and after every step, so the
same consumed lengths; and corresponding lines have the same length, at least
the ten characters of the address field, and are identical behind the address
field. -/
theorem C35_base_offset_independence (decode : List Byte) (e1 e2 : Nat)
    (hsize : decode.length + 16 ≤ 2 ^ 32) :
    ∃ lines1 lines2, dec decode e1 = Outcome.finished lines1 ∧
      dec decode e2 = Outcome.finished lines2 ∧
      lines1.length = lines2.length ∧
      decCursors decode e1 decode.length 0 = decCursors decode e2 decode.length 0 ∧
      (decCursors decode e1 decode.length 0).length = lines1.length ∧
      (∀ (i : Nat) (l1 l2 : Line), lines1[i]? = some l1 → lines2[i]? = some l2 →
        10 ≤ l1.text.length ∧ l1.text.length = l2.text.length ∧
        l1.text.drop 10 = l2.text.drop 10) := by
  obtain ⟨lines1, lines2, h1, h2, hcur, hlen, hall⟩ :=
    decLoop_sameTail decode e1 e2 hsize decode.length 0 (by omega)
  refine ⟨lines1, lines2, h1, h2, hall.length_eq, hcur, hlen, ?_⟩
  intro i l1 l2 hl1 hl2
  have hi1 := (List.getElem?_eq_some_iff.1 hl1)
  have hi2 := (List.getElem?_eq_some_iff.1 hl2)
  obtain ⟨hlt1, he1⟩ := hi1
  obtain ⟨hlt2, he2⟩ := hi2
  have := List.Forall₂.get hall hlt1 hlt2
  simp only [List.get_eq_getElem, he1, he2] at this
  exact this

/-- C35 on the buffer `B8 34 12 90` at the base offsets `0x100` and `0x7C00`. -/
theorem C35_base_offset_independence_witness :
    ([0xB8, 0x34, 0x12, 0x90] : List Byte).length + 16 ≤ 2 ^ 32 ∧
    ∃ lines1 lines2, dec [0xB8, 0x34, 0x12, 0x90] 0x100 = Outcome.finished lines1 ∧
      dec [0xB8, 0x34, 0x12, 0x90] 0x7C00 = Outcome.finished lines2 ∧
      lines1.length = lines2.length := by
  obtain ⟨lines1, lines2, h1, h2, hlen, _⟩ :=
    C35_base_offset_independence [0xB8, 0x34, 0x12, 0x90] 0x100 0x7C00 (by decide)
  exact ⟨by decide, lines1, lines2, h1, h2, hlen⟩

/-! ## The size and the characters of a line -/

theorem okText_mono {n m : Nat} {t : List Char} (h : okText n t) (hnm : n ≤ m) : okText m t :=
  ⟨Nat.le_trans h.1 hnm, h.2⟩

theorem okText_append {n m : Nat} {s t : List Char} (hs : okText n s) (ht : okText m t) :
    okText (n + m) (s ++ t) := by
  refine ⟨?_, ?_⟩
  · rw [List.length_append]
    have := hs.1
    have := ht.1
    omega
  · rw [List.mem_append]
    rintro (h | h)
    · exact hs.2 h
    · exact ht.2 h

theorem okText_take {n : Nat} {t : List Char} (k : Nat) (h : okText n t) : okText n (t.take k) :=
  ⟨by rw [List.length_take]; have := h.1; omega, fun hm => h.2 (List.mem_of_mem_take hm)⟩

theorem okText_replicate (k : Nat) : okText k (List.replicate k ' ') := by
  refine ⟨by simp, fun hm => ?_⟩
  have := List.eq_of_mem_replicate hm
  exact absurd this (by decide)

theorem okLine_appendChars {n m : Nat} {l : Line} {s : List Char} (hl : okLine n l)
    (hs : okText m s) : okLine (n + m) (l.appendChars s) :=
  okText_append hl (okText_take _ hs)

theorem okLine_appendStr {n m : Nat} {l : Line} {s : String} (hl : okLine n l)
    (hs : okText m s.toList) : okLine (n + m) (l.appendStr s) :=
  okLine_appendChars hl hs

theorem okLine_appendNum {n m : Nat} {l : Line} {num : Num} (hl : okLine n l)
    (hs : okText m num.format) : okLine (n + m) (l.appendNum num) :=
  okLine_appendChars hl hs

theorem okLine_appendPad {n : Nat} {l : Line} (i : Nat) (hl : okLine n l) :
    okLine (max n i) (l.appendPad i) := by
  unfold Line.appendPad
  by_cases hp : i > l.len ∧ i < 256
  · rw [if_pos hp]
    have h1 := hl.1
    have hlen : l.len = l.text.length := rfl
    have := okText_append hl (okText_replicate (i - l.len))
    refine ⟨?_, this.2⟩
    rw [List.length_append, List.length_replicate]
    omega
  · rw [if_neg hp]
    exact okText_mono hl (Nat.le_max_left _ _)

theorem okLine_empty : okLine 0 Line.empty := ⟨Nat.le_refl _, by simp [Line.empty]⟩

theorem okLine_mono {n m : Nat} {l : Line} (h : okLine n l) (hnm : n ≤ m) : okLine m l :=
  okText_mono h hnm

theorem hexChar_ne (d : Nat) : hexChar d ≠ '?' := by
  unfold hexChar
  have h : d % 16 < 16 := Nat.mod_lt _ (by norm_num)
  generalize d % 16 = k at h
  interval_cases k <;> decide

theorem okText_hexFixed (w v : Nat) : okText w (hexFixed w v) := by
  induction w generalizing v with
  | zero => exact ⟨Nat.le_refl _, by simp [hexFixed]⟩
  | succ w ih =>
    rw [hexFixed]
    refine okText_append (ih _) ⟨by simp, ?_⟩
    simp only [List.mem_singleton]
    exact fun h => hexChar_ne v h.symm

theorem okText_fmtHex (w v : Nat) (hw : 1 ≤ w) (hv : v < 16 ^ w) : okText w (fmtHex w v) := by
  rw [fmtHex_eq w v hw hv]
  exact okText_hexFixed w v

theorem okText_fmtHex2 (b : Byte) : okText 2 (fmtHex 2 b.val) :=
  okText_fmtHex 2 _ (by norm_num) (by have := b.isLt; omega)

theorem okText_fmtHex4 (lo hi : Byte) : okText 4 (fmtHex 4 ((lo.val + (hi.val <<< 8)) % 2 ^ 16)) :=
  okText_fmtHex 4 _ (by norm_num) (by
    have : (lo.val + (hi.val <<< 8)) % 2 ^ 16 < 2 ^ 16 := Nat.mod_lt _ (by norm_num)
    omega)

theorem okText_fmtHex8 (v : Nat) : okText 8 (fmtHex 8 (v % 2 ^ 32)) :=
  okText_fmtHex 8 _ (by norm_num) (by
    have : v % 2 ^ 32 < 2 ^ 32 := Nat.mod_lt _ (by norm_num)
    omega)

theorem okText_fmtDec (v : Nat) (hv : v < 10) : okText 1 (fmtDec v) := by
  interval_cases v <;> exact ⟨by decide, by decide⟩

theorem okText_HEX1 (b : Byte) : okText 4 (Num.mk b.val NumType.HEX1).format :=
  okText_append (n := 2) ⟨by decide, by decide⟩ (okText_fmtHex2 b)

theorem okText_HEX1_NO_DECORATION (b : Byte) :
    okText 2 (Num.mk b.val NumType.HEX1_NO_DECORATION).format := okText_fmtHex2 b

theorem okText_HEX2 (lo hi : Byte) :
    okText 6 (Num.mk ((lo.val + (hi.val <<< 8)) % 2 ^ 16) NumType.HEX2).format :=
  okText_append (n := 2) ⟨by decide, by decide⟩ (okText_fmtHex4 lo hi)

theorem okText_HEX4 (v : Nat) : okText 10 (Num.mk (v % 2 ^ 32) NumType.HEX4).format :=
  okText_append (n := 2) ⟨by decide, by decide⟩ (okText_fmtHex8 v)

theorem okText_HEX4_byte (b : Byte) : okText 10 (Num.mk b.val NumType.HEX4).format := by
  have := okText_HEX4 b.val
  rwa [Nat.mod_eq_of_lt (by have := b.isLt; omega)] at this

theorem okText_DEC (v : Nat) (hv : v < 10) : okText 1 (Num.mk v NumType.DEC).format :=
  okText_fmtDec v hv

theorem okText_widthName (w : Width) : okText 5 (getWidthName w).toList := by
  cases w <;> exact ⟨by decide, by decide⟩

theorem okText_rb (nm : String) (r : Nat) (h : rb[r]? = some nm) : okText 2 nm.toList := by
  have hall : ∀ s ∈ rb, okText 2 s.toList := by
    intro s hs
    simp only [rb, List.mem_cons, List.mem_singleton, List.not_mem_nil, or_false] at hs
    rcases hs with rfl | rfl | rfl | rfl | rfl | rfl | rfl | rfl <;>
      exact ⟨by decide, by decide⟩
  exact hall nm (List.getElem?_mem h)

theorem okText_rw (nm : String) (r : Nat) (h : rw[r]? = some nm) : okText 2 nm.toList := by
  have hall : ∀ s ∈ rw, okText 2 s.toList := by
    intro s hs
    simp only [rw, List.mem_cons, List.mem_singleton, List.not_mem_nil, or_false] at hs
    rcases hs with rfl | rfl | rfl | rfl | rfl | rfl | rfl | rfl <;>
      exact ⟨by decide, by decide⟩
  exact hall nm (List.getElem?_mem h)

theorem okText_modNames (nm : String) (r : Nat) (h : modNames[r]? = some nm) :
    okText 7 nm.toList := by
  have hall : ∀ s ∈ modNames, okText 7 s.toList := by
    intro s hs
    simp only [modNames, List.mem_cons, List.mem_singleton, List.not_mem_nil, or_false] at hs
    rcases hs with rfl | rfl | rfl | rfl | rfl | rfl | rfl | rfl <;>
      exact ⟨by decide, by decide⟩
  exact hall nm (List.getElem?_mem h)

theorem okText_segments (nm : String) (r : Nat) (h : segments[r]? = some nm) :
    okText 2 nm.toList := by
  have hall : ∀ s ∈ segments, okText 2 s.toList := by
    intro s hs
    simp only [segments, List.mem_cons, List.mem_singleton, List.not_mem_nil, or_false] at hs
    rcases hs with rfl | rfl | rfl | rfl <;> exact ⟨by decide, by decide⟩
  exact hall nm (List.getElem?_mem h)

theorem okText_lit2 : okText 2 " [".toList := ⟨by decide, by decide⟩

theorem okText_lit1 : okText 1 "]".toList := ⟨by decide, by decide⟩

theorem okText_plus : okText 3 " + ".toList := ⟨by decide, by decide⟩

/-- A register-or-memory operand is at most 24 characters, none a question mark. -/
theorem printRM_ok (cDecode : List Byte) (rm : Nat) (w : Width) (disp : R_Type) (line : Line)
    (n : Nat) (hl : okLine n line) :
    ∀ l ∈ printRM cDecode rm w disp line, okLine (n + 24) l := by
  unfold printRM
  by_cases h1 : disp = R_Type.NODISP ∧ rm = 0b110
  · simp only [if_pos h1]
    rcases cDecode[0]? with _ | c0
    · simp
    rcases cDecode[1]? with _ | c1
    · simp
    intro l hm
    simp only [Option.mem_def, Option.bind_eq_bind, Option.some_bind, Option.some.injEq] at hm
    subst hm
    exact okLine_mono (okLine_appendStr (okLine_appendNum (okLine_appendStr
      (okLine_appendStr hl (okText_widthName w)) okText_lit2) (okText_HEX2 c0 c1)) okText_lit1)
      (by omega)
  · simp only [if_neg h1]
    by_cases h2 : disp = R_Type.REG
    · simp only [if_pos h2]
      by_cases h3 : w = Width.BYTE
      · simp only [if_pos h3]
        rcases hq : rb[rm]? with _ | nm
        · simp
        intro l hm
        simp only [Option.mem_def, Option.bind_eq_bind, Option.some_bind, Option.some.injEq] at hm
        subst hm
        exact okLine_mono (okLine_appendStr hl (okText_rb nm rm hq)) (by omega)
      · simp only [if_neg h3]
        rcases hq : rw[rm]? with _ | nm
        · simp
        intro l hm
        simp only [Option.mem_def, Option.bind_eq_bind, Option.some_bind, Option.some.injEq] at hm
        subst hm
        exact okLine_mono (okLine_appendStr hl (okText_rw nm rm hq)) (by omega)
    · simp only [if_neg h2]
      generalize getDispMemWidth rm disp = wd
      rcases hq : modNames[rm]? with _ | nm
      · simp
      have hbase := okLine_appendStr (okLine_appendStr (okLine_appendStr hl (okText_widthName w))
        okText_lit2) (okText_modNames nm rm hq)
      simp only [Option.bind_eq_bind, Option.some_bind]
      by_cases h4 : wd = Width.BYTE
      · simp only [if_pos h4]
        rcases cDecode[0]? with _ | c0
        · simp
        intro l hm
        simp only [Option.mem_def, Option.bind_eq_bind, Option.some_bind, Option.some.injEq] at hm
        subst hm
        exact okLine_mono (okLine_appendStr (okLine_appendNum (okLine_appendStr hbase
          okText_plus) (okText_HEX1 c0)) okText_lit1) (by omega)
      · simp only [if_neg h4]
        by_cases h5 : wd = Width.WORD
        · simp only [if_pos h5]
          rcases cDecode[0]? with _ | c0
          · simp
          rcases cDecode[1]? with _ | c1
          · simp
          intro l hm
          simp only [Option.mem_def, Option.bind_eq_bind, Option.some_bind,
            Option.some.injEq] at hm
          subst hm
          exact okLine_mono (okLine_appendStr (okLine_appendNum (okLine_appendStr hbase
            okText_plus) (okText_HEX2 c0 c1)) okText_lit1) (by omega)
        · simp only [if_neg h5]
          intro l hm
          simp only [Option.mem_def, Option.bind_eq_bind, Option.some_bind,
            Option.some.injEq] at hm
          subst hm
          exact okLine_mono (okLine_appendStr hbase okText_lit1) (by omega)

theorem printRMSlot_ok (decode : List Byte) (w : Width) (line : Line) (n : Nat)
    (hl : okLine n line) : ∀ l ∈ printRMSlot decode w line, okLine (n + 24) l := by
  unfold printRMSlot
  rcases decode[0]? with _ | b
  · simp
  · simp only [Option.bind_eq_bind, Option.some_bind]
    exact printRM_ok _ _ _ _ _ n hl

theorem rmSlot_ok (decode : List Byte) (w : Width) (offset : Nat) (line : Line) (n : Nat)
    (hl : okLine n line) :
    ∀ r ∈ (printRMSlot decode w line).bind (fun l => some (offset, l)), okLine (n + 24) r.2 := by
  intro r hr
  rcases hq : printRMSlot decode w line with _ | l
  · rw [hq] at hr; simp at hr
  · rw [hq] at hr
    simp only [Option.mem_def, Option.some_bind, Option.some.injEq] at hr
    subst hr
    exact printRMSlot_ok decode w line n hl l (by rw [hq]; rfl)

/-- An operand is at most 24 characters and holds no question mark, unless
it is a segment register slot with a segment code above 3. -/
theorem printSlot_ok (d : D) (decode : List Byte) (offset : Nat) (line : Line) (n : Nat)
    (hl : okLine n line) (hconst : d.type = DType.CONSTBYTE → d.num < 10)
    (hseg : d.type = DType.SEG → ∀ b, decode[0]? = some b → (b.val >>> 3) &&& 0b111 < 4) :
    ∀ r ∈ printSlot d decode offset line, okLine (n + 24) r.2 := by
  obtain ⟨t, num⟩ := d
  cases t
  case RMB => exact rmSlot_ok decode Width.BYTE offset line n hl
  case RMW => exact rmSlot_ok decode Width.WORD offset line n hl
  case RMDW => exact rmSlot_ok decode Width.DWORD offset line n hl
  case RMQW => exact rmSlot_ok decode Width.QWORD offset line n hl
  case MEM => exact rmSlot_ok decode Width.NONE offset line n hl
  case SEG =>
    simp only [printSlot]
    rcases hb : decode[0]? with _ | b
    · simp
    have hs : (b.val >>> 3) &&& 7 < Segment.END := hseg rfl b hb
    simp only [Option.bind_eq_bind, Option.some_bind, if_pos hs]
    rcases hq : segments[b.val >>> 3 &&& 7]? with _ | nm
    · simp
    intro r hm
    simp only [Option.mem_def, Option.bind_eq_bind, Option.some_bind, Option.some.injEq] at hm
    subst hm
    exact okLine_mono (okLine_appendStr hl (okText_segments nm _ hq)) (by omega)
  case RB =>
    simp only [printSlot]
    rcases decode[0]? with _ | b
    · simp
    simp only [Option.bind_eq_bind, Option.some_bind]
    rcases hq : rb[b.val >>> 3 &&& 7]? with _ | nm
    · simp
    intro r hm
    simp only [Option.mem_def, Option.bind_eq_bind, Option.some_bind, Option.some.injEq] at hm
    subst hm
    exact okLine_mono (okLine_appendStr hl (okText_rb nm _ hq)) (by omega)
  case RW =>
    simp only [printSlot]
    rcases decode[0]? with _ | b
    · simp
    simp only [Option.bind_eq_bind, Option.some_bind]
    rcases hq : rw[b.val >>> 3 &&& 7]? with _ | nm
    · simp
    intro r hm
    simp only [Option.mem_def, Option.bind_eq_bind, Option.some_bind, Option.some.injEq] at hm
    subst hm
    exact okLine_mono (okLine_appendStr hl (okText_rw nm _ hq)) (by omega)
  case DB =>
    simp only [printSlot]
    rcases decode[offset]? with _ | b0
    · simp
    intro r hm
    simp only [Option.mem_def, Option.bind_eq_bind, Option.some_bind, Option.some.injEq] at hm
    subst hm
    exact okLine_mono (okLine_appendNum (okLine_appendStr hl
      (⟨by decide, by decide⟩ : okText 5 "BYTE ".toList)) (okText_HEX1 b0)) (by omega)
  case DW =>
    simp only [printSlot]
    rcases decode[offset]? with _ | b0
    · simp
    rcases decode[offset + 1]? with _ | b1
    · simp
    intro r hm
    simp only [Option.mem_def, Option.bind_eq_bind, Option.some_bind, Option.some.injEq] at hm
    subst hm
    exact okLine_mono (okLine_appendNum (okLine_appendStr hl
      (⟨by decide, by decide⟩ : okText 5 "WORD ".toList)) (okText_HEX2 b0 b1)) (by omega)
  case DEREFBYTEATDW =>
    simp only [printSlot]
    rcases decode[offset]? with _ | b0
    · simp
    rcases decode[offset + 1]? with _ | b1
    · simp
    intro r hm
    simp only [Option.mem_def, Option.bind_eq_bind, Option.some_bind, Option.some.injEq] at hm
    subst hm
    exact okLine_mono (okLine_appendStr (okLine_appendNum (okLine_appendStr hl
      (⟨by decide, by decide⟩ : okText 6 "BYTE [".toList)) (okText_HEX2 b0 b1)) okText_lit1)
      (by omega)
  case DEREFWORDATDW =>
    simp only [printSlot]
    rcases decode[offset]? with _ | b0
    · simp
    rcases decode[offset + 1]? with _ | b1
    · simp
    intro r hm
    simp only [Option.mem_def, Option.bind_eq_bind, Option.some_bind, Option.some.injEq] at hm
    subst hm
    exact okLine_mono (okLine_appendStr (okLine_appendNum (okLine_appendStr hl
      (⟨by decide, by decide⟩ : okText 6 "WORD [".toList)) (okText_HEX2 b0 b1)) okText_lit1)
      (by omega)
  case DDW =>
    simp only [printSlot]
    rcases decode[offset]? with _ | b0
    · simp
    rcases decode[offset + 1]? with _ | b1
    · simp
    rcases decode[offset + 2]? with _ | b2
    · simp
    rcases decode[offset + 3]? with _ | b3
    · simp
    intro r hm
    simp only [Option.mem_def, Option.bind_eq_bind, Option.some_bind, Option.some.injEq] at hm
    subst hm
    exact okLine_mono (okLine_appendNum (okLine_appendStr hl
      (⟨by decide, by decide⟩ : okText 6 "DWORD ".toList)) (okText_HEX4 _)) (by omega)
  case REGB =>
    simp only [printSlot]
    rcases hq : rb[num]? with _ | nm
    · simp
    intro r hm
    simp only [Option.mem_def, Option.bind_eq_bind, Option.some_bind, Option.some.injEq] at hm
    subst hm
    exact okLine_mono (okLine_appendStr hl (okText_rb nm _ hq)) (by omega)
  case REGW =>
    simp only [printSlot]
    rcases hq : rw[num]? with _ | nm
    · simp
    intro r hm
    simp only [Option.mem_def, Option.bind_eq_bind, Option.some_bind, Option.some.injEq] at hm
    subst hm
    exact okLine_mono (okLine_appendStr hl (okText_rw nm _ hq)) (by omega)
  case CSEG =>
    simp only [printSlot]
    rcases hq : segments[num]? with _ | nm
    · simp
    intro r hm
    simp only [Option.mem_def, Option.bind_eq_bind, Option.some_bind, Option.some.injEq] at hm
    subst hm
    exact okLine_mono (okLine_appendStr hl (okText_segments nm _ hq)) (by omega)
  case CONSTBYTE =>
    simp only [printSlot]
    intro r hm
    simp only [Option.mem_def, Option.some.injEq] at hm
    subst hm
    exact okLine_mono (okLine_appendNum hl (okText_DEC num (hconst rfl))) (by omega)
  case ST =>
    simp only [printSlot]
    intro r hm
    simp only [Option.mem_def, Option.some.injEq] at hm
    subst hm
    exact okLine_mono (okLine_appendStr hl (⟨by decide, by decide⟩ : okText 2 "ST".toList))
      (by omega)
  case STREG =>
    simp only [printSlot]
    rcases decode[0]? with _ | b
    · simp
    intro r hm
    simp only [Option.mem_def, Option.bind_eq_bind, Option.some_bind, Option.some.injEq] at hm
    subst hm
    have h7 : b.val &&& 7 < 10 := by
      have := and7_lt b.val
      omega
    exact okLine_mono (okLine_appendNum (okLine_appendStr hl
      (⟨by decide, by decide⟩ : okText 2 "ST".toList)) (okText_DEC _ h7)) (by omega)
  all_goals
    simp only [printSlot]
    intro r hm
    simp only [Option.mem_def, Option.some.injEq] at hm
    subst hm
    exact okLine_mono hl (by omega)

theorem printDescriptionLoop_ok (ds : List D) (decode : List Byte) (offset : Nat) (first : Bool)
    (line : Line) (n : Nat) (hl : okLine n line)
    (hconst : ∀ d ∈ ds, d.type = DType.CONSTBYTE → d.num < 10)
    (hseg : ∀ d ∈ ds, d.type = DType.SEG →
      ∀ b, decode[0]? = some b → (b.val >>> 3) &&& 0b111 < 4) :
    ∀ r ∈ printDescriptionLoop ds decode offset first line, okLine (n + 26 * ds.length) r.2 := by
  induction ds generalizing offset first line n with
  | nil =>
    intro r hr
    simp only [printDescriptionLoop, Option.mem_def, Option.some.injEq] at hr
    subst hr
    exact okLine_mono hl (by omega)
  | cons d ds ih =>
    have hc2 : ∀ e ∈ ds, e.type = DType.CONSTBYTE → e.num < 10 :=
      fun e he => hconst e (List.mem_cons_of_mem _ he)
    have hs2 : ∀ e ∈ ds, e.type = DType.SEG →
        ∀ b, decode[0]? = some b → (b.val >>> 3) &&& 0b111 < 4 :=
      fun e he => hseg e (List.mem_cons_of_mem _ he)
    by_cases hd : d.type = DType.NONE
    · rw [printDescriptionLoop_skip _ _ _ _ _ _ hd]
      intro r hr
      exact okLine_mono (ih offset first line n hl hc2 hs2 r hr)
        (by simp only [List.length_cons]; omega)
    · rw [printDescriptionLoop_cons _ _ _ _ _ _ hd]
      have hsep : okText 2 (separator first).toList := by
        cases first <;> exact ⟨by decide, by decide⟩
      have hline := okLine_appendStr hl hsep
      intro r hr
      rcases hq : printSlot d decode offset (line.appendStr (separator first)) with _ | r1
      · rw [hq] at hr; simp at hr
      · rw [hq] at hr
        simp only [Option.some_bind] at hr
        have h1 := printSlot_ok d decode offset _ _ hline
          (hconst d (List.mem_cons_self _ _)) (hseg d (List.mem_cons_self _ _)) r1
          (by rw [hq]; rfl)
        exact okLine_mono (ih r1.1 false r1.2 _ h1 hc2 hs2 r hr)
          (by simp only [List.length_cons]; omega)

theorem printDescription_ok (description : Description) (decode : List Byte) (line : Line)
    (n : Nat) (hl : okLine n line)
    (hconst : ∀ d ∈ description.d, d.type = DType.CONSTBYTE → d.num < 10)
    (hseg : ∀ d ∈ description.d, d.type = DType.SEG →
      ∀ b, decode[0]? = some b → (b.val >>> 3) &&& 0b111 < 4) :
    ∀ l ∈ printDescription description decode line,
      okLine (n + 26 * description.d.length) l := by
  unfold printDescription
  rcases getRMOffset description decode with _ | k
  · simp
  simp only [Option.bind_eq_bind, Option.some_bind]
  intro l hm
  rcases hq : printDescriptionLoop description.d decode k true line with _ | r
  · rw [hq] at hm; simp at hm
  · rw [hq] at hm
    simp only [Option.mem_def, Option.some_bind, Option.some.injEq] at hm
    subst hm
    exact printDescriptionLoop_ok _ _ _ _ _ n hl hconst hseg r (by rw [hq]; rfl)

theorem rawField_ok (bs : List Byte) (l : Line) (n : Nat) (hl : okLine n l) :
    okLine (n + 3 * bs.length) (rawField bs l) := by
  induction bs generalizing l n with
  | nil => exact okLine_mono hl (by omega)
  | cons b bs ih =>
    have h1 := okLine_appendStr (okLine_appendNum hl (okText_HEX1_NO_DECORATION b))
      (⟨by decide, by decide⟩ : okText 1 " ".toList)
    exact okLine_mono (ih _ _ h1) (by simp only [List.length_cons]; omega)

theorem dbField_ok (bs : List Byte) (l : Line) (n : Nat) (hl : okLine n l) :
    okLine (n + 6 * bs.length) (dbField bs l) := by
  induction bs generalizing l n with
  | nil => exact okLine_mono hl (by omega)
  | cons b bs ih =>
    have h1 := okLine_appendNum (okLine_appendStr hl
      (⟨by decide, by decide⟩ : okText 2 ", ".toList)) (okText_HEX1 b)
    exact okLine_mono (ih _ _ h1) (by simp only [List.length_cons]; omega)

theorem address_ok (v : Nat) :
    okLine 13 ((Line.empty.appendNum ⟨v % 2 ^ 32, NumType.HEX4⟩).appendStr ":  ") :=
  okLine_mono (okLine_appendStr (okLine_appendNum okLine_empty (okText_HEX4 v))
    (⟨by decide, by decide⟩ : okText 3 ":  ".toList)) (by omega)

/-- No mnemonic of the table is longer than 11 characters or holds a question
mark. -/
theorem ops_names : ∀ op ∈ ops, op.name.toList.length ≤ 11 ∧ '?' ∉ op.name.toList := by
  decide!

/-- Every table entry with a segment register slot is gated by a discriminant
below 4. -/
theorem ops_seg_gate : ∀ op ∈ ops,
    (∃ d ∈ op.description.d, d.type = DType.SEG) → op.opExt = OPExt.N ∧ op.n < 4 := by
  decide!

/-- Every constant literal of the table is a single decimal digit. -/
theorem ops_const : ∀ op ∈ ops, ∀ d ∈ op.description.d,
    d.type = DType.CONSTBYTE → d.num < 10 := by
  decide!

theorem headerLine_ok (decode : List Byte) (c execOffset : Nat) (op : Op) (len : Nat)
    (hL : len + op.codeSz ≤ 6) (hname : okText 11 op.name.toList) :
    okLine 50 (headerLine decode c execOffset op len Line.empty) := by
  unfold headerLine
  have hbs : ((decode.drop c).take (len + op.codeSz)).length ≤ 6 := by
    rw [List.length_take]; omega
  have h1 := okLine_mono (rawField_ok ((decode.drop c).take (len + op.codeSz)) _ _
    (address_ok (execOffset + c))) (by omega : _ ≤ 31)
  have h2 := okLine_mono (okLine_appendPad 36 (okLine_appendStr h1
    (⟨by decide, by decide⟩ : okText 2 "; ".toList))) (by simp : _ ≤ 36)
  exact okLine_mono (okLine_appendPad 50 (okLine_appendStr h2 hname)) (by simp)

theorem overrunLine_ok (decode : List Byte) (c execOffset rem : Nat) (hrem : rem ≤ 4) :
    okLine 61 (overrunLine decode c execOffset rem Line.empty) := by
  unfold overrunLine
  have hbs : ((decode.drop c).take rem).length ≤ 4 := by
    rw [List.length_take]; omega
  have hbs2 : ((decode.drop (c + 1)).take (rem - 1)).length ≤ 3 := by
    rw [List.length_take]; omega
  have h1 := okLine_mono (rawField_ok ((decode.drop c).take rem) _ _
    (address_ok (execOffset + c))) (by omega : _ ≤ 25)
  simp only
  have h2 : okLine 43 (match decode[c]? with
      | some b =>
        if rem ≠ 0 then
          (((((rawField ((decode.drop c).take rem)
            ((Line.empty.appendNum ⟨(execOffset + c) % 2 ^ 32, NumType.HEX4⟩).appendStr
              ":  ")).appendStr "; ").appendPad 36).appendStr "DB ").appendNum
            ⟨b.val, NumType.HEX1⟩)
        else rawField ((decode.drop c).take rem)
          ((Line.empty.appendNum ⟨(execOffset + c) % 2 ^ 32, NumType.HEX4⟩).appendStr ":  ")
      | none => rawField ((decode.drop c).take rem)
          ((Line.empty.appendNum ⟨(execOffset + c) % 2 ^ 32, NumType.HEX4⟩).appendStr
            ":  ")) := by
    rcases decode[c]? with _ | b
    · exact okLine_mono h1 (by omega)
    · simp only
      split_ifs
      · have h3 := okLine_mono (okLine_appendPad 36 (okLine_appendStr h1
          (⟨by decide, by decide⟩ : okText 2 "; ".toList))) (by simp : _ ≤ 36)
        exact okLine_mono (okLine_appendNum (okLine_appendStr h3
          (⟨by decide, by decide⟩ : okText 3 "DB ".toList)) (okText_HEX1 b)) (by omega)
      · exact okLine_mono h1 (by omega)
  exact okLine_mono (dbField_ok _ _ _ h2) (by omega)

theorem okText_dbLineText (b : Byte) : okText 43 (dbLineText b) := by
  unfold dbLineText
  have h8 := okText_HEX4_byte b
  rw [format_HEX4] at h8
  have h2 := okText_fmtHex2 b
  have hh : okText 2 "0x".toList := ⟨by decide, by decide⟩
  exact okText_mono (okText_append (okText_append (okText_append (okText_append (okText_append
    (okText_append (okText_append h8 (⟨by decide, by decide⟩ : okText 3 ":  ".toList)) h2)
    (⟨by decide, by decide⟩ : okText 3 " ; ".toList)) (okText_replicate 18))
    (⟨by decide, by decide⟩ : okText 3 "DB ".toList)) hh) h2)
    (by omega)

theorem okText_dispText (disp : List Byte) :
    okText (3 * disp.length) (disp.map (fun d => " ".toList ++ fmtHex 2 d.val)).flatten := by
  induction disp with
  | nil => exact ⟨by simp, by simp⟩
  | cons d ds ih =>
    simp only [List.map_cons, List.flatten_cons]
    exact okText_mono (okText_append (okText_append
      (⟨by decide, by decide⟩ : okText 1 " ".toList) (okText_fmtHex2 d)) ih)
      (by simp only [List.length_cons]; omega)

theorem okText_fpuLineText (op1 op2 : Byte) (disp : List Byte) (hd : disp.length ≤ 2) :
    okText 48 (fpuLineText op1 op2 disp) := by
  unfold fpuLineText
  have h8 := okText_HEX4_byte op1
  rw [format_HEX4] at h8
  exact okText_mono (okText_append (okText_append (okText_append (okText_append (okText_append
    (okText_append (okText_append (okText_append h8
    (⟨by decide, by decide⟩ : okText 3 ":  ".toList)) (okText_fmtHex2 op1))
    (⟨by decide, by decide⟩ : okText 1 " ".toList)) (okText_fmtHex2 op2))
    (okText_dispText disp)) (⟨by decide, by decide⟩ : okText 3 " ; ".toList))
    (okText_replicate (15 - 3 * disp.length)))
    (⟨by decide, by decide⟩ : okText 12 "FPU RESERVED".toList))
    (by omega)

/-- The length pass of a matched descriptor gives at most 6 bytes with the opcode. -/
theorem matched_len_le (win : List Byte) (op : Op) (h : getOP win win.length = some (some op))
    (len : Nat) (hlen : getLen op.description (win.drop op.codeSz) = some len) :
    len + op.codeSz ≤ 6 := by
  obtain ⟨hmem, _⟩ := getOP_some_matches win op h
  have hlay := (ops_layout op hmem).1
  rcases hk : getRMOffset op.description (win.drop op.codeSz) with _ | k
  · simp [getLen, hk] at hlen
  · have hb := getRMOffsetLoop_bound _ _ _ hk
    simp only [getLen, hk, Option.bind_eq_bind, Option.some_bind, Option.some.injEq] at hlen
    rw [getLenLoop_eq] at hlen
    omega

/-- The segment code a matched descriptor with a segment register slot reads
is below 4. -/
theorem matched_seg_code (win : List Byte) (op : Op)
    (h : getOP win win.length = some (some op))
    (hseg : ∃ d ∈ op.description.d, d.type = DType.SEG) :
    ∃ b, win[op.codeSz]? = some b ∧ (b.val >>> 3) &&& 0b111 < 4 := by
  obtain ⟨hmem, hm⟩ := getOP_some_matches win op h
  obtain ⟨hext, hn⟩ := ops_seg_gate op hmem hseg
  obtain ⟨b, hb, hbn, _⟩ := hm.2.1 (by rw [hext]; decide)
  exact ⟨b, hb, by rw [hbn]; exact hn⟩

/-- Every line of a step from a cursor inside the buffer is at most 128
characters long and holds no question mark. -/
theorem decStep_lineOK (decode : List Byte) (execOffset c : Nat) (hlt : decode.length < 2 ^ 32)
    (hc : c < decode.length) :
    ∃ line next, decStep decode execOffset c = some (line, next) ∧ okLine 128 line := by
  have hwin : (decode.drop c).length = decode.length - c := List.length_drop _ _
  obtain ⟨r, hr⟩ := getOP_isSome (decode.drop c)
  have hr0 := hr
  rw [hwin] at hr
  cases r with
  | some op =>
    obtain ⟨hmem, hm⟩ := getOP_some_matches _ _ hr0
    obtain ⟨len, hlen, h1, hcs, _, hcase⟩ := decStep_of_match decode execOffset c op hlt hc hr
    have hL : len + op.codeSz ≤ 6 :=
      matched_len_le _ op hr0 len (by rw [List.drop_drop]; exact hlen)
    rcases hcase with ⟨hfit, l, hp, hstep⟩ | ⟨hover, hstep⟩
    · refine ⟨l, _, hstep, ?_⟩
      have hhead := headerLine_ok decode c execOffset op len hL (ops_names op hmem)
      have h3 : op.description.d.length = 3 := (ops_slotsOK op hmem).1
      have := printDescription_ok op.description (decode.drop (c + op.codeSz)) _ 50 hhead
        (ops_const op hmem)
        (fun d hd ht b hb => by
          obtain ⟨b2, hb2, hlt4⟩ := matched_seg_code _ op hr0 ⟨d, hd, ht⟩
          rw [List.getElem?_drop] at hb hb2
          rw [Nat.add_zero, hb2] at hb
          cases hb
          exact hlt4)
        l (by rw [hp]; rfl)
      rw [h3] at this
      exact okLine_mono this (by omega)
    · exact ⟨_, _, hstep, okLine_mono (overrunLine_ok decode c execOffset _ (by omega))
        (by omega)⟩
  | none =>
    obtain ⟨op1, hb⟩ := rdSome decode c hc
    by_cases hfpu : decode.length - c ≥ 2 ∧ op1.val ≥ 0xD8 ∧ op1.val ≤ 0xDF
    · obtain ⟨op2, hb2⟩ := rdSome decode (c + 1) (by omega)
      refine ⟨_, _, (decStep_fpu decode execOffset c op1 op2 hlt hr hb hb2 hfpu.2).1, ?_⟩
      exact okText_mono (okText_fpuLineText op1 op2 _ (by
        rw [List.length_take]
        have := fpuExtra_le op2 (decode.length - c)
        omega)) (by omega)
    · exact ⟨_, _, decStep_db decode execOffset c op1 hlt hr hb hfpu,
        okText_mono (okText_dbLineText op1) (by omega)⟩

/-- Every line of a run of the loop is the line of a step from a cursor inside
the buffer. -/
theorem decLoop_lines (decode : List Byte) (execOffset fuel c : Nat) (lines : List Line)
    (h : decLoop decode execOffset fuel c = Outcome.finished lines) :
    ∀ l ∈ lines, ∃ c2 next, c2 < decode.length ∧
      decStep decode execOffset c2 = some (l, next) := by
  induction fuel generalizing c lines with
  | zero =>
    rw [decLoop] at h
    split_ifs at h
    cases h
    intro l hl
    cases hl
  | succ fuel ih =>
    rw [decLoop] at h
    split_ifs at h with hc
    · rcases hs : decStep decode execOffset c with _ | r
      · rw [hs] at h; cases h
      · obtain ⟨line, next⟩ := r
        rw [hs] at h
        simp only at h
        rcases hr : decLoop decode execOffset fuel next with ls | _ | _
        · rw [hr] at h
          simp only [Outcome.cons, Outcome.finished.injEq] at h
          subst h
          intro l hl
          rcases List.mem_cons.1 hl with rfl | hl
          · exact ⟨c, next, hc, hs⟩
          · exact ih _ _ hr l hl
        · rw [hr] at h; cases h
        · rw [hr] at h; cases h
    · cases h
      intro l hl
      cases hl

/-- C36: no truncation in practice.  For every buffer (of a length the
`uint32_t` cursor can hold) and base offset, the line of every step from a
cursor inside the buffer is at most 128 characters long, so every line of the
sweep, and of every run of its loop, is shorter than the 256 characters of
`Line`.  An append never shortens a line, and an append that leaves the line
shorter than 256 characters has added its whole text: no character of an
output line is cut off. -/
theorem C36_no_truncation (decode : List Byte) (execOffset : Nat)
    (hlt : decode.length < 2 ^ 32) :
    (∀ c line next, c < decode.length → decStep decode execOffset c = some (line, next) →
      line.text.length ≤ 128) ∧
    (∀ fuel c lines, decLoop decode execOffset fuel c = Outcome.finished lines →
      ∀ l ∈ lines, l.text.length < 256) ∧
    (∀ lines, dec decode execOffset = Outcome.finished lines →
      ∀ l ∈ lines, l.text.length < 256) ∧
    (∀ (l : Line) (s : List Char), l.text.length ≤ (l.appendChars s).text.length) ∧
    (∀ (l : Line) (i : Nat), l.text.length ≤ (l.appendPad i).text.length) ∧
    (∀ (l : Line) (s : List Char), (l.appendChars s).text.length < 256 →
      (l.appendChars s).text = l.text ++ s) := by
  have hstep : ∀ c line next, c < decode.length →
      decStep decode execOffset c = some (line, next) → line.text.length ≤ 128 := by
    intro c line next hc hs
    obtain ⟨l2, n2, hs2, hok⟩ := decStep_lineOK decode execOffset c hlt hc
    rw [hs] at hs2
    cases hs2
    exact hok.1
  have hloop : ∀ fuel c lines, decLoop decode execOffset fuel c = Outcome.finished lines →
      ∀ l ∈ lines, l.text.length < 256 := by
    intro fuel c lines h l hl
    obtain ⟨c2, next, hc2, hs⟩ := decLoop_lines decode execOffset fuel c lines h l hl
    have := hstep c2 l next hc2 hs
    omega
  refine ⟨hstep, hloop, fun lines h => hloop _ _ lines h, ?_, ?_, ?_⟩
  · intro l s
    simp only [Line.appendChars, List.length_append]
    omega
  · intro l i
    unfold Line.appendPad
    split_ifs
    · simp only [List.length_append]
      omega
    · exact Nat.le_refl _
  · intro l s h
    simp only [Line.appendChars, Line.len, List.length_append, List.length_take] at h ⊢
    rw [List.take_of_length_le (by omega)]

theorem dec_69_example : dec [0x69, 0x86, 0x34, 0x12, 0x78, 0x56] 0x100 = Outcome.finished
    [⟨("0x00000100:  69 86 34 12 78 56 ;    IMUL           " ++
      "AX, WORD [BP + 0x1234], WORD 0x5678").toList⟩] := by
  decide!

/-- C36 on the buffer `69 86 34 12 78 56`: one line of 86 characters. -/
theorem C36_no_truncation_witness :
    ([0x69, 0x86, 0x34, 0x12, 0x78, 0x56] : List Byte).length < 2 ^ 32 ∧
    dec [0x69, 0x86, 0x34, 0x12, 0x78, 0x56] 0x100 = Outcome.finished
      [⟨("0x00000100:  69 86 34 12 78 56 ;    IMUL           " ++
        "AX, WORD [BP + 0x1234], WORD 0x5678").toList⟩] ∧
    ∀ l ∈ [(⟨("0x00000100:  69 86 34 12 78 56 ;    IMUL           " ++
        "AX, WORD [BP + 0x1234], WORD 0x5678").toList⟩ : Line)], l.text.length < 256 :=
  ⟨by decide, dec_69_example,
    (C36_no_truncation [0x69, 0x86, 0x34, 0x12, 0x78, 0x56] 0x100 (by decide)).2.2.1 _
      dec_69_example⟩

/-- C37: the `?` placeholder is unreachable.  Every table descriptor with a
segment register slot has the extension kind `N` and a discriminant below 4,
so on every window the segment code a matched descriptor renders is below 4
and is rendered as an entry of `segments`; for every buffer (of a length the
`uint32_t` cursor can hold) and base offset no line of a step, and no line of
the sweep, holds the character `?`; and every fixed register number in the
table is below 8 and every fixed segment number below 4. -/
theorem C37_placeholder_unreachable (decode : List Byte) (execOffset : Nat)
    (hlt : decode.length < 2 ^ 32) :
    (∀ op ∈ ops, (∃ d ∈ op.description.d, d.type = DType.SEG) →
      op.opExt = OPExt.N ∧ op.n < 4) ∧
    (∀ (win : List Byte) (op : Op), getOP win win.length = some (some op) →
      (∃ d ∈ op.description.d, d.type = DType.SEG) →
      ∃ b nm, win[op.codeSz]? = some b ∧ (b.val >>> 3) &&& 0b111 < 4 ∧
        segments[(b.val >>> 3) &&& 0b111]? = some nm ∧ '?' ∉ nm.toList ∧
        ∀ (num offset : Nat) (line : Line),
          printSlot ⟨DType.SEG, num⟩ (win.drop op.codeSz) offset line =
            some (offset, line.appendStr nm)) ∧
    (∀ c line next, c < decode.length → decStep decode execOffset c = some (line, next) →
      '?' ∉ line.text) ∧
    (∀ lines, dec decode execOffset = Outcome.finished lines → ∀ l ∈ lines, '?' ∉ l.text) ∧
    (∀ op ∈ ops, ∀ d ∈ op.description.d,
      (d.type = DType.REGB → d.num < 8) ∧ (d.type = DType.REGW → d.num < 8) ∧
      (d.type = DType.CSEG → d.num < 4)) := by
  have hstep : ∀ c line next, c < decode.length →
      decStep decode execOffset c = some (line, next) → '?' ∉ line.text := by
    intro c line next hc hs
    obtain ⟨l2, n2, hs2, hok⟩ := decStep_lineOK decode execOffset c hlt hc
    rw [hs] at hs2
    cases hs2
    exact hok.2
  refine ⟨ops_seg_gate, ?_, hstep, ?_, fun op hop d hd => (ops_slotsOK op hop).2.2 d hd⟩
  · intro win op h hseg
    obtain ⟨b, hb, hlt4⟩ := matched_seg_code win op h hseg
    obtain ⟨nm, hnm⟩ := lookup_some segments ((b.val >>> 3) &&& 0b111)
      (by simpa [segments] using hlt4)
    refine ⟨b, nm, hb, hlt4, hnm, (okText_segments nm _ hnm).2, ?_⟩
    intro num offset line
    have hb0 : (win.drop op.codeSz)[0]? = some b := by
      rw [List.getElem?_drop, Nat.add_zero, hb]
    have hs2 : (b.val >>> 3) &&& 7 < Segment.END := hlt4
    simp only [printSlot, hb0, Option.bind_eq_bind, Option.some_bind, if_pos hs2, hnm]
  · intro lines h l hl
    obtain ⟨c2, next, hc2, hs⟩ := decLoop_lines decode execOffset _ _ lines h l hl
    exact hstep c2 l next hc2 hs

theorem dec_8C_example : dec [0x8C, 0xD8] 0x100 = Outcome.finished
    [⟨"0x00000100:  8C D8 ;                MOV            AX, DS".toList⟩] := by
  decide!

/-- C37 on the buffer `8C D8` (`MOV AX, DS`, segment code 3). -/
theorem C37_placeholder_unreachable_witness :
    ([0x8C, 0xD8] : List Byte).length < 2 ^ 32 ∧
    dec [0x8C, 0xD8] 0x100 = Outcome.finished
      [⟨"0x00000100:  8C D8 ;                MOV            AX, DS".toList⟩] ∧
    ∀ l ∈ [(⟨"0x00000100:  8C D8 ;                MOV            AX, DS".toList⟩ : Line)],
      '?' ∉ l.text :=
  ⟨by decide, dec_8C_example,
    (C37_placeholder_unreachable [0x8C, 0xD8] 0x100 (by decide)).2.2.2.1 _ dec_8C_example⟩

end Dmask
